import Mathlib

/-!
# Privileged host calls of `libraries/chain/webassembly/privileged.cpp`

A shallow embedding of the privileged host-call surface.  Every host call is a
function from the apply context (and its arguments) to a pair: the result
(`Except`: the exception thrown, or the returned value) and the apply context
after the call.  The context is returned on failure as well, so that "nothing
was handed off before the exception" is a statement about the model and not a
by-product of the monad.

Machine integers are `Nat` / `Int`; the only place where the source relies on
32-bit arithmetic (the weight accumulator) is written with explicit
`% 4294967296`.
-/

namespace Privileged

/-! ## Data model -/

/-- An account name: the 64-bit value of `eosio::chain::name`. -/
abbrev account_name := Nat

/-- A packed buffer (`span<const char>`, `legacy_span<const char>`). -/
abbrev bytes := List Nat

/-- Types of the chain library that `privileged.cpp` only names. -/
structure chain_types where
  /-- Feature digest, `digest_type`. -/
  digest_type : Type
  /-- VM configuration, `chain::wasm_config`. -/
  wasm_config : Type
  /-- Legacy chain configuration, `chain::chain_config_v0`. -/
  chain_config_v0 : Type
  /-- Live chain configuration, `chain::chain_config`. -/
  chain_config : Type

/-- A public key: `which()` is the index of the key scheme in the variant,
`data` the scheme-specific content.  Keys are compared by value. -/
structure public_key where
  which : Nat
  data : List Nat
deriving DecidableEq, Repr

/-- The `key_weight` entry of an authority; `weight` is a `uint16_t`. -/
structure key_weight where
  key : public_key
  weight : Nat
deriving DecidableEq, Repr

/-- The `block_signing_authority_v0`: `threshold` is a `uint32_t`. -/
structure block_signing_authority_v0 where
  threshold : Nat
  keys : List key_weight
deriving DecidableEq, Repr

/-- The variant `block_signing_authority`, with its single alternative. -/
inductive block_signing_authority where
  | v0 (a : block_signing_authority_v0)
deriving DecidableEq, Repr

/-- An entry of a producer schedule. -/
structure producer_authority where
  producer_name : account_name
  authority : block_signing_authority
deriving DecidableEq, Repr

/-- The `legacy::producer_key` entry of a format-0 schedule. -/
structure producer_key where
  producer_name : account_name
  block_signing_key : public_key
deriving DecidableEq, Repr

/-- An entry of a finalizer schedule, with the fields the source reads
(`finalizer_name`, `public_key`) and the weight `fweight`. -/
structure finalizer_authority where
  finalizer_name : account_name
  fweight : Nat
  public_key : public_key
deriving DecidableEq, Repr

/-- The decoded `finalizer_schedule`. -/
structure finalizer_schedule where
  version : Nat
  fthreshold : Nat
  finalizers : List finalizer_authority
deriving DecidableEq, Repr

/-- Range of the machine types of the fields of an authority:
`threshold` is a `uint32_t`, every `weight` a `uint16_t`. -/
def block_signing_authority_v0.wf (a : block_signing_authority_v0) : Prop :=
  a.threshold < 4294967296 ∧ ∀ kw ∈ a.keys, kw.weight < 65536

/-- Range of the machine types of a producer authority. -/
def producer_authority.wf (p : producer_authority) : Prop :=
  match p.authority with
  | .v0 a => a.wf

/-! ## Exceptions -/

/-- The host functions that start with the read-only assertion. -/
inductive host_function where
  | preactivate_feature
  | set_resource_limits
  | set_wasm_parameters_packed
  | set_proposed_producers
  | set_proposed_producers_ex
  | set_proposed_finalizers
  | set_blockchain_parameters_packed
  | set_parameters_packed
  | set_privileged
deriving DecidableEq, Repr

/-- The exception classes thrown in `privileged.cpp`; `external` stands for
any exception raised inside a collaborator (decoder, `validate()`, database). -/
inductive exception_type where
  | wasm_execution_error
  | unactivated_key_type
  | wasm_config_unknown_version
  | config_parse_error
  | unsupported_feature
  | external (code : Nat)
deriving DecidableEq, Repr

/-- The texts of the assertions of `privileged.cpp`, one constructor each. -/
inductive message where
  /-- "<fn> not allowed in a readonly transaction". -/
  | not_allowed_in_readonly (fn : host_function)
  /-- "invalid value for ram resource limit expected [-1,INT64_MAX]". -/
  | invalid_ram_limit
  /-- "invalid value for net resource weight expected [-1,INT64_MAX]". -/
  | invalid_net_weight
  /-- "invalid value for cpu resource weight expected [-1,INT64_MAX]". -/
  | invalid_cpu_weight
  /-- "Producer schedule exceeds the maximum producer count for this chain". -/
  | producer_schedule_exceeds_max
  /-- "Producer schedule cannot be empty". -/
  | producer_schedule_empty
  /-- "producer schedule includes a nonexisting account". -/
  | producer_nonexisting_account
  /-- "Unactivated key type used in proposed producer schedule". -/
  | producer_unactivated_key
  /-- "producer schedule includes an invalid key". -/
  | producer_invalid_key
  /-- "producer schedule includes a duplicated key for <account>". -/
  | producer_duplicated_key (account : account_name)
  /-- "producer schedule includes an authority with a threshold of 0 for <account>". -/
  | producer_zero_threshold (account : account_name)
  /-- "producer schedule includes an unsatisfiable authority for <account>". -/
  | producer_unsatisfiable (account : account_name)
  /-- "duplicate producer name in producer schedule". -/
  | duplicate_producer_name
  /-- "Producer schedule is in an unknown format!". -/
  | unknown_producer_format
  /-- "Finalizer schedule exceeds the maximum finalizer count for this chain". -/
  | finalizer_schedule_exceeds_max
  /-- "Finalizer schedule cannot be empty". -/
  | finalizer_schedule_empty
  /-- "Finalizer schedule includes a nonexisting account". -/
  | finalizer_nonexisting_account
  /-- "Unactivated key type used in proposed finalizer schedule". -/
  | finalizer_unactivated_key
  /-- "Finalizer schedule includes an invalid key". -/
  | finalizer_invalid_key
  /-- "Duplicate finalizer name in finalizer schedule". -/
  | duplicate_finalizer_name
  /-- "set_wasm_parameters_packed: Unknown version: <version>". -/
  | unknown_wasm_config_version (version : Nat)
  /-- "get_parameters_packed: buffer size is smaller than <size>". -/
  | parameters_buffer_too_small (size : Nat)
  /-- Text of an exception raised inside a collaborator. -/
  | other (code : Nat)
deriving DecidableEq, Repr

/-- An exception: its class and its text. -/
structure fc_exception where
  type : exception_type
  what : message
deriving DecidableEq, Repr

/-! ## Collaborators and state -/

/-- Library functions and constants that `privileged.cpp` calls without
defining them; they are parameters of the model. -/
structure externals (T : chain_types) where
  /-- The constant `config::max_producers`. -/
  max_producers : Nat
  /-- The constant `config::max_finalizers`. -/
  max_finalizers : Nat
  /-- The method `public_key::valid()`. -/
  public_key_valid : public_key → Bool
  /-- The decoder `fc::raw::unpack` at `std::vector<legacy::producer_key>`. -/
  unpack_producer_keys : bytes → Except fc_exception (List producer_key)
  /-- The decoder `fc::raw::unpack` at `vector<producer_authority>`. -/
  unpack_producer_authorities : bytes → Except fc_exception (List producer_authority)
  /-- The decoder `fc::raw::unpack` at `finalizer_schedule`. -/
  unpack_finalizer_schedule : bytes → Except fc_exception finalizer_schedule
  /-- The decoder `fc::raw::unpack` at `uint32_t`: the value and the rest of the stream. -/
  unpack_uint32 : bytes → Except fc_exception (Nat × bytes)
  /-- The decoder `fc::raw::unpack` at `chain::wasm_config`, with the rest of the stream. -/
  unpack_wasm_config : bytes → Except fc_exception (T.wasm_config × bytes)
  /-- The decoder `fc::raw::unpack` at `chain::chain_config_v0`. -/
  unpack_chain_config_v0 : bytes → Except fc_exception T.chain_config_v0
  /-- The decoder `fc::raw::unpack` at a `config_range` built on the given
  configuration: the configuration with the decoded entries written into it. -/
  unpack_config_range : T.chain_config → bytes → Except fc_exception T.chain_config
  /-- The method `wasm_config::validate()`: the exception it throws, if any. -/
  wasm_config_validate : T.wasm_config → Option fc_exception
  /-- The method `chain_config_v0::validate()`: the exception it throws, if any. -/
  chain_config_v0_validate : T.chain_config_v0 → Option fc_exception
  /-- The method `chain_config::validate()`: the exception it throws, if any. -/
  chain_config_validate : T.chain_config → Option fc_exception
  /-- The assignment `chain_config::operator=(const chain_config_v0&)`. -/
  chain_config_assign_v0 : T.chain_config → T.chain_config_v0 → T.chain_config
  /-- The exception `database::get` throws when the object is missing. -/
  db_get_missing : fc_exception
  /-- The encoder `fc::raw::pack` at `uint32_t`: the bytes it writes. -/
  pack_uint32 : Nat → bytes
  /-- The encoder `fc::raw::pack` at `chain::wasm_config`: the bytes it writes. -/
  pack_wasm_config : T.wasm_config → bytes
  /-- The encoder `fc::raw::pack` at `chain::chain_config_v0`: the bytes it writes. -/
  pack_chain_config_v0 : T.chain_config_v0 → bytes
  /-- The accessor `chain_config::v0()`. -/
  chain_config_v0_part : T.chain_config → T.chain_config_v0
  /-- The decoder `fc::raw::unpack` at `std::vector<fc::unsigned_int>`. -/
  unpack_parameter_ids : bytes → Except fc_exception (List Nat)

/-- The part of `transaction_context` the host calls touch. -/
structure transaction_context where
  is_read_only : Bool
  is_transient : Bool
  /-- The set `validate_ram_usage`, as a duplicate-free list. -/
  validate_ram_usage : List account_name

/-- The record `global_property_object`. -/
structure global_property_object (T : chain_types) where
  wasm_configuration : T.wasm_config
  configuration : T.chain_config

/-- The part of the chain database the host calls touch. -/
structure database (T : chain_types) where
  global_properties : global_property_object T
  /-- The field `num_supported_key_types` of the `protocol_state_object`. -/
  num_supported_key_types : Nat
  /-- Whether an `account_object` with this name exists. -/
  account_exists : account_name → Bool
  /-- The privileged flag of the `account_metadata_object` with this name,
  `none` when there is no such object. -/
  account_privileged : account_name → Option Bool

/-- The resource-limits ledger as seen from the host call: the calls it
received, and its answer to a call. -/
structure resource_limits_manager where
  /-- Arguments of the calls to `set_account_limits`, oldest first. -/
  limits_set : List (account_name × Int × Int × Int × Bool)
  /-- What `set_account_limits` returns for these arguments. -/
  limits_changed : account_name → Int → Int → Int → Bool → Bool

/-- The controller as seen from the host calls: feature flags, the proposal
slots of the consensus layer and the answers of that layer. -/
structure controller (T : chain_types) where
  /-- The value of `is_builtin_activated(disallow_empty_producer_schedule)`. -/
  disallow_empty_producer_schedule : Bool
  /-- Schedules handed to `controller::set_proposed_producers`, oldest first. -/
  proposed_producers : List (List producer_authority)
  /-- What `controller::set_proposed_producers` returns for a schedule. -/
  proposed_producers_version : List producer_authority → Int
  /-- Arguments handed to `controller::set_proposed_finalizers`, oldest first. -/
  proposed_finalizers : List (Nat × List finalizer_authority)
  /-- What `controller::set_proposed_finalizers` returns. -/
  proposed_finalizers_version : Nat → List finalizer_authority → Int
  /-- Arguments handed to `controller::preactivate_feature`, oldest first. -/
  preactivated : List (T.digest_type × Bool)
  resource_limits : resource_limits_manager

/-- The `apply_context` of a host call. -/
structure apply_context (T : chain_types) where
  control : controller T
  db : database T
  trx_context : transaction_context
  /-- The member `privileged` behind `apply_context::is_privileged()`: whether
  the executing code has the privilege of a privileged account.  No function of
  `privileged.cpp` reads it. -/
  privileged : Bool

/-- The encoder of a `config_range`, which `privileged.cpp` calls without
defining it: `fc::raw::pack` at the range built from a configuration, a list
of parameter ids and the validator `{context.control}`.  It yields the bytes
written, or the exception the encoder throws (on an id it does not accept). -/
structure config_range_encoder (T : chain_types) where
  pack_config_range : controller T → T.chain_config → List Nat → Except fc_exception bytes

variable {T : chain_types}

/-- Modelled from the spec: `apply_context::is_account`, whose body is not in
the sources; "account existence" is a lookup of the account in the database. -/
def apply_context.is_account (context : apply_context T) (n : account_name) : Bool :=
  context.db.account_exists n

/-- Modelled from the spec: `controller::set_proposed_producers`, whose body is
not in the sources; the schedule is handed to the proposal slot of the
consensus layer, which returns the assigned version number. -/
def controller.set_proposed_producers (c : controller T)
    (producers : List producer_authority) : Int × controller T :=
  (c.proposed_producers_version producers,
   { c with proposed_producers := c.proposed_producers ++ [producers] })

/-- Modelled from the spec: `controller::set_proposed_finalizers`, whose body
is not in the sources; `(threshold, finalizers)` is handed to the consensus
layer, which returns the version number. -/
def controller.set_proposed_finalizers (c : controller T) (fthreshold : Nat)
    (finalizers : List finalizer_authority) : Int × controller T :=
  (c.proposed_finalizers_version fthreshold finalizers,
   { c with proposed_finalizers := c.proposed_finalizers ++ [(fthreshold, finalizers)] })

/-- Modelled from the spec: `controller::preactivate_feature`, whose body is
not in the sources; the digest is forwarded to the protocol-feature manager. -/
def controller.preactivate_feature (c : controller T) (feature_digest : T.digest_type)
    (is_trx_transient : Bool) : controller T :=
  { c with preactivated := c.preactivated ++ [(feature_digest, is_trx_transient)] }

/-- Modelled from the spec: `resource_limits_manager::set_account_limits`,
whose body is not in the sources; the ledger receives the values and reports
whether the change altered the effective limits of the account. -/
def resource_limits_manager.set_account_limits (m : resource_limits_manager)
    (account : account_name) (ram_bytes net_weight cpu_weight : Int) (is_trx_transient : Bool) :
    Bool × resource_limits_manager :=
  (m.limits_changed account ram_bytes net_weight cpu_weight is_trx_transient,
   { m with limits_set := m.limits_set ++
       [(account, ram_bytes, net_weight, cpu_weight, is_trx_transient)] })

/-- The `insert` of `std::set` / `flat_set`, on a duplicate-free list: an
element already present is not inserted again.  Only `size()` is observed;
the ordering of the element type is taken to identify exactly the equal
values. -/
def set_insert {α : Type} [DecidableEq α] (s : List α) (x : α) : List α :=
  if x ∈ s then s else s ++ [x]

/-! ## Producer schedules (lines 41-148) -/

/-- The value `std::numeric_limits<uint32_t>::max()`. -/
def uint32_max : Nat := 4294967295

/-- Lines 66-70: one step of the `uint32_t` accumulator `sum_weights`. -/
def add_weight (sum_weights weight : Nat) : Nat :=
  if (uint32_max + 4294967296 - sum_weights) % 4294967296 ≤ weight then uint32_max
  else (sum_weights + weight) % 4294967296

/-- Lines 58-73: the loop over `a.keys`, from the given values of the locals
`sum_weights` and `unique_keys`; it yields their final values. -/
def check_keys (valid : public_key → Bool) (num_supported_key_types : Nat)
    (validate_keys : Bool) :
    List key_weight → Nat → List public_key → Except fc_exception (Nat × List public_key)
  | [], sum_weights, unique_keys => .ok (sum_weights, unique_keys)
  | kw :: rest, sum_weights, unique_keys =>
    if ¬ (kw.key.which < num_supported_key_types) then
      .error ⟨.unactivated_key_type, .producer_unactivated_key⟩
    else if validate_keys = true ∧ ¬ (valid kw.key = true) then
      .error ⟨.wasm_execution_error, .producer_invalid_key⟩
    else
      check_keys valid num_supported_key_types validate_keys rest
        (add_weight sum_weights kw.weight) (set_insert unique_keys kw.key)

/-- Lines 55-78: the visitor applied to the authority of the producer `p`. -/
def check_authority (valid : public_key → Bool) (num_supported_key_types : Nat)
    (validate_keys : Bool) (p : producer_authority) : Except fc_exception Unit :=
  match p.authority with
  | .v0 a =>
    match check_keys valid num_supported_key_types validate_keys a.keys 0 [] with
    | .error e => .error e
    | .ok (sum_weights, unique_keys) =>
      if ¬ (a.keys.length = unique_keys.length) then
        .error ⟨.wasm_execution_error, .producer_duplicated_key p.producer_name⟩
      else if ¬ (a.threshold > 0) then
        .error ⟨.wasm_execution_error, .producer_zero_threshold p.producer_name⟩
      else if ¬ (sum_weights ≥ a.threshold) then
        .error ⟨.wasm_execution_error, .producer_unsatisfiable p.producer_name⟩
      else .ok ()

/-- Lines 53-81: the loop over `producers`, from the given value of the local
`unique_producers`; it yields its final value. -/
def check_producers (E : externals T) (context : apply_context T) (validate_keys : Bool) :
    List producer_authority → List account_name → Except fc_exception (List account_name)
  | [], unique_producers => .ok unique_producers
  | p :: rest, unique_producers =>
    if ¬ (context.is_account p.producer_name = true) then
      .error ⟨.wasm_execution_error, .producer_nonexisting_account⟩
    else
      match check_authority E.public_key_valid context.db.num_supported_key_types
          validate_keys p with
      | .error e => .error e
      | .ok () =>
        check_producers E context validate_keys rest
          (set_insert unique_producers p.producer_name)

/-- Lines 41-85: `set_proposed_producers_common`. -/
def set_proposed_producers_common (E : externals T) (context : apply_context T)
    (producers : List producer_authority) (validate_keys : Bool) :
    Except fc_exception Int × apply_context T :=
  if ¬ (producers.length ≤ E.max_producers) then
    (.error ⟨.wasm_execution_error, .producer_schedule_exceeds_max⟩, context)
  else if ¬ (producers.length > 0 ∨ ¬ (context.control.disallow_empty_producer_schedule = true)) then
    (.error ⟨.wasm_execution_error, .producer_schedule_empty⟩, context)
  else
    match check_producers E context validate_keys producers [] with
    | .error e => (.error e, context)
    | .ok unique_producers =>
      if ¬ (producers.length = unique_producers.length) then
        (.error ⟨.wasm_execution_error, .duplicate_producer_name⟩, context)
      else
        let r := context.control.set_proposed_producers producers
        (.ok r.1, { context with control := r.2 })

/-- Lines 128-130: the up-conversion loop over `old_version`, from the given
value of the local `producers`; each turn appends one entry (`emplace_back`). -/
def up_convert : List producer_key → List producer_authority → List producer_authority
  | [], producers => producers
  | p :: rest, producers =>
    up_convert rest (producers ++ [⟨p.producer_name, .v0 ⟨1, [⟨p.block_signing_key, 1⟩]⟩⟩])

/-- Lines 118-133: `interface::set_proposed_producers`. -/
def set_proposed_producers (E : externals T) (context : apply_context T)
    (packed_producer_schedule : bytes) : Except fc_exception Int × apply_context T :=
  if ¬ (!context.trx_context.is_read_only) = true then
    (.error ⟨.wasm_execution_error, .not_allowed_in_readonly .set_proposed_producers⟩, context)
  else
    match E.unpack_producer_keys packed_producer_schedule with
    | .error e => (.error e, context)
    | .ok old_version =>
      set_proposed_producers_common E context (up_convert old_version []) true

/-- Lines 135-148: `interface::set_proposed_producers_ex`. -/
def set_proposed_producers_ex (E : externals T) (context : apply_context T)
    (packed_producer_format : Nat) (packed_producer_schedule : bytes) :
    Except fc_exception Int × apply_context T :=
  if ¬ (!context.trx_context.is_read_only) = true then
    (.error ⟨.wasm_execution_error, .not_allowed_in_readonly .set_proposed_producers_ex⟩, context)
  else if packed_producer_format = 0 then
    set_proposed_producers E context packed_producer_schedule
  else if packed_producer_format = 1 then
    match E.unpack_producer_authorities packed_producer_schedule with
    | .error e => (.error e, context)
    | .ok producers => set_proposed_producers_common E context producers false
  else
    (.error ⟨.wasm_execution_error, .unknown_producer_format⟩, context)

/-! ## Finalizer schedules (lines 150-232) -/

/-- Lines 218-228: the loop over `finalizers`, from the given value of the
local `unique_finalizers`; it yields its final value. -/
def check_finalizers (E : externals T) (context : apply_context T) :
    List finalizer_authority → List account_name → Except fc_exception (List account_name)
  | [], unique_finalizers => .ok unique_finalizers
  | f :: rest, unique_finalizers =>
    if ¬ (context.is_account f.finalizer_name = true) then
      .error ⟨.wasm_execution_error, .finalizer_nonexisting_account⟩
    else if ¬ (f.public_key.which < context.db.num_supported_key_types) then
      .error ⟨.unactivated_key_type, .finalizer_unactivated_key⟩
    else if ¬ (E.public_key_valid f.public_key = true) then
      .error ⟨.wasm_execution_error, .finalizer_invalid_key⟩
    else
      check_finalizers E context rest (set_insert unique_finalizers f.finalizer_name)

/-- Lines 205-231: `interface::set_proposed_finalizers`. -/
def set_proposed_finalizers (E : externals T) (context : apply_context T)
    (packed_finalizer_schedule : bytes) : Except fc_exception Int × apply_context T :=
  if ¬ (!context.trx_context.is_read_only) = true then
    (.error ⟨.wasm_execution_error, .not_allowed_in_readonly .set_proposed_finalizers⟩, context)
  else
    match E.unpack_finalizer_schedule packed_finalizer_schedule with
    | .error e => (.error e, context)
    | .ok schedule =>
      if ¬ (schedule.finalizers.length ≤ E.max_finalizers) then
        (.error ⟨.wasm_execution_error, .finalizer_schedule_exceeds_max⟩, context)
      else if ¬ (schedule.finalizers.length > 0) then
        (.error ⟨.wasm_execution_error, .finalizer_schedule_empty⟩, context)
      else
        match check_finalizers E context schedule.finalizers [] with
        | .error e => (.error e, context)
        | .ok unique_finalizers =>
          if ¬ (schedule.finalizers.length = unique_finalizers.length) then
            (.error ⟨.wasm_execution_error, .duplicate_finalizer_name⟩, context)
          else
            let r := context.control.set_proposed_finalizers schedule.fthreshold
              schedule.finalizers
            (.ok r.1, { context with control := r.2 })

/-! ## Feature pre-activation, limits, configuration, privilege -/

/-- Lines 19-22: `interface::preactivate_feature`. -/
def preactivate_feature (context : apply_context T) (feature_digest : T.digest_type) :
    Except fc_exception Unit × apply_context T :=
  if ¬ (!context.trx_context.is_read_only) = true then
    (.error ⟨.wasm_execution_error, .not_allowed_in_readonly .preactivate_feature⟩, context)
  else
    (.ok (), { context with control :=
      context.control.preactivate_feature feature_digest context.trx_context.is_transient })

/-- Lines 24-32: `interface::set_resource_limits`. -/
def set_resource_limits (context : apply_context T) (account : account_name)
    (ram_bytes net_weight cpu_weight : Int) : Except fc_exception Unit × apply_context T :=
  if ¬ (!context.trx_context.is_read_only) = true then
    (.error ⟨.wasm_execution_error, .not_allowed_in_readonly .set_resource_limits⟩, context)
  else if ¬ (ram_bytes ≥ -1) then
    (.error ⟨.wasm_execution_error, .invalid_ram_limit⟩, context)
  else if ¬ (net_weight ≥ -1) then
    (.error ⟨.wasm_execution_error, .invalid_net_weight⟩, context)
  else if ¬ (cpu_weight ≥ -1) then
    (.error ⟨.wasm_execution_error, .invalid_cpu_weight⟩, context)
  else
    let r := context.control.resource_limits.set_account_limits account ram_bytes net_weight
      cpu_weight context.trx_context.is_transient
    let control2 := { context.control with resource_limits := r.2 }
    if r.1 = true then
      (.ok (), { context with
        control := control2
        trx_context := { context.trx_context with
          validate_ram_usage := set_insert context.trx_context.validate_ram_usage account } })
    else
      (.ok (), { context with control := control2 })

/-- Lines 112-116, 254-257, 290-293: `context.db.modify` on the global
properties record. -/
def modify_global_properties (context : apply_context T)
    (f : global_property_object T → global_property_object T) : apply_context T :=
  { context with db := { context.db with global_properties := f context.db.global_properties } }

/-- Lines 103-117: `interface::set_wasm_parameters_packed`. -/
def set_wasm_parameters_packed (E : externals T) (context : apply_context T)
    (packed_parameters : bytes) : Except fc_exception Unit × apply_context T :=
  if ¬ (!context.trx_context.is_read_only) = true then
    (.error ⟨.wasm_execution_error, .not_allowed_in_readonly .set_wasm_parameters_packed⟩,
      context)
  else
    match E.unpack_uint32 packed_parameters with
    | .error e => (.error e, context)
    | .ok (version, ds) =>
      if ¬ (version = 0) then
        (.error ⟨.wasm_config_unknown_version, .unknown_wasm_config_version version⟩, context)
      else
        match E.unpack_wasm_config ds with
        | .error e => (.error e, context)
        | .ok (cfg, _) =>
          match E.wasm_config_validate cfg with
          | some e => (.error e, context)
          | none =>
            (.ok (), modify_global_properties context
              (fun gprops => { gprops with wasm_configuration := cfg }))

/-- Lines 248-258: `interface::set_blockchain_parameters_packed`. -/
def set_blockchain_parameters_packed (E : externals T) (context : apply_context T)
    (packed_blockchain_parameters : bytes) : Except fc_exception Unit × apply_context T :=
  if ¬ (!context.trx_context.is_read_only) = true then
    (.error ⟨.wasm_execution_error,
      .not_allowed_in_readonly .set_blockchain_parameters_packed⟩, context)
  else
    match E.unpack_chain_config_v0 packed_blockchain_parameters with
    | .error e => (.error e, context)
    | .ok cfg =>
      match E.chain_config_v0_validate cfg with
      | some e => (.error e, context)
      | none =>
        (.ok (), modify_global_properties context
          (fun gprops => { gprops with
            configuration := E.chain_config_assign_v0 gprops.configuration cfg }))

/-- Lines 280-294: `interface::set_parameters_packed`. -/
def set_parameters_packed (E : externals T) (context : apply_context T)
    (packed_parameters : bytes) : Except fc_exception Unit × apply_context T :=
  if ¬ (!context.trx_context.is_read_only) = true then
    (.error ⟨.wasm_execution_error, .not_allowed_in_readonly .set_parameters_packed⟩, context)
  else
    match E.unpack_config_range context.db.global_properties.configuration
        packed_parameters with
    | .error e => (.error e, context)
    | .ok config =>
      match E.chain_config_validate config with
      | some e => (.error e, context)
      | none =>
        (.ok (), modify_global_properties context
          (fun gprops => { gprops with configuration := config }))

/-- Lines 300-306: `interface::set_privileged`. -/
def set_privileged (E : externals T) (context : apply_context T) (n : account_name)
    (is_priv : Bool) : Except fc_exception Unit × apply_context T :=
  if ¬ (!context.trx_context.is_read_only) = true then
    (.error ⟨.wasm_execution_error, .not_allowed_in_readonly .set_privileged⟩, context)
  else
    match context.db.account_privileged n with
    | none => (.error E.db_get_missing, context)
    | some _ =>
      (.ok (), { context with db := { context.db with
        account_privileged := fun m =>
          if m = n then some is_priv else context.db.account_privileged m } })

/-- The write of a `datastream<char*>` positioned at `pos` of the buffer: the
bytes `data` replace the bytes of the buffer from `pos` on. -/
def datastream_write (buffer : bytes) (pos : Nat) (data : bytes) : bytes :=
  buffer.take pos ++ data ++ buffer.drop (pos + data.length)

/-- The conversion of a `size_t` to the `uint32_t` the `get_*_packed` calls
return. -/
def to_uint32 (s : Nat) : Nat := s % 4294967296

/-- Lines 87-102: `interface::get_wasm_parameters_packed`; the value returned
and the output buffer after the call.  The size `fc::raw::pack_size` computes
is the number of bytes `fc::raw::pack` writes. -/
def get_wasm_parameters_packed (E : externals T) (context : apply_context T)
    (packed_parameters : bytes) (max_version : Nat) : Nat × bytes :=
  let params := context.db.global_properties.wasm_configuration
  let version := min max_version 0
  let s := (E.pack_uint32 version).length + (E.pack_wasm_config params).length
  if packed_parameters.length = 0 then
    (to_uint32 s, packed_parameters)
  else if s ≤ packed_parameters.length then
    let ds1 := datastream_write packed_parameters 0 (E.pack_uint32 version)
    let ds2 := datastream_write ds1 (E.pack_uint32 version).length (E.pack_wasm_config params)
    (to_uint32 s, ds2)
  else
    (to_uint32 s, packed_parameters)

/-- Lines 234-246: `interface::get_blockchain_parameters_packed`; the value
returned and the output buffer after the call. -/
def get_blockchain_parameters_packed (E : externals T) (context : apply_context T)
    (packed_blockchain_parameters : bytes) : Nat × bytes :=
  let v0 := E.chain_config_v0_part context.db.global_properties.configuration
  let s := (E.pack_chain_config_v0 v0).length
  if packed_blockchain_parameters.length = 0 then
    (to_uint32 s, packed_blockchain_parameters)
  else if s ≤ packed_blockchain_parameters.length then
    (to_uint32 s, datastream_write packed_blockchain_parameters 0 (E.pack_chain_config_v0 v0))
  else
    (0, packed_blockchain_parameters)

/-- Lines 260-278: `interface::get_parameters_packed`; the value returned or
the exception thrown, and the output buffer after the call.  The calls
`fc::raw::pack_size` and `fc::raw::pack` run the same encoder on the same
range, so one result of the encoder stands for both. -/
def get_parameters_packed (E : externals T) (R : config_range_encoder T)
    (context : apply_context T) (packed_parameter_ids : bytes) (packed_parameters : bytes) :
    Except fc_exception Nat × bytes :=
  let cfg := context.db.global_properties.configuration
  match E.unpack_parameter_ids packed_parameter_ids with
  | .error e => (.error e, packed_parameters)
  | .ok ids =>
    match R.pack_config_range context.control cfg ids with
    | .error e => (.error e, packed_parameters)
    | .ok packed =>
      let size := packed.length
      if packed_parameters.length = 0 then
        (.ok (to_uint32 size), packed_parameters)
      else if ¬ (size ≤ packed_parameters.length) then
        (.error ⟨.config_parse_error, .parameters_buffer_too_small size⟩, packed_parameters)
      else
        (.ok (to_uint32 size), datastream_write packed_parameters 0 packed)

/-- Lines 296-298: `interface::is_privileged`. -/
def is_privileged (E : externals T) (context : apply_context T) (n : account_name) :
    Except fc_exception Bool :=
  match context.db.account_privileged n with
  | none => .error E.db_get_missing
  | some flag => .ok flag

/-! ## Auxiliary definitions, specification-side definitions and example data -/

/-- All elements of a list inserted into a set, in order. -/
def insert_all {α : Type} [DecidableEq α] (s : List α) (l : List α) : List α :=
  l.foldl set_insert s

/-- The content of the single alternative of the authority variant. -/
def producer_authority.v0 (p : producer_authority) : block_signing_authority_v0 :=
  match p.authority with
  | .v0 a => a

/-- A key passes the two assertions of the key loop (lines 59-64). -/
def key_passes (valid : public_key → Bool) (n : Nat) (validate_keys : Bool)
    (kw : key_weight) : Prop :=
  kw.key.which < n ∧ (validate_keys = true → valid kw.key = true)

/-- The exact sum of the weights of a key list. -/
def weight_sum (keys : List key_weight) : Nat := (keys.map (fun kw => kw.weight)).sum

/-- What the visitor requires of an authority once the key loop has passed:
keys pairwise distinct, positive threshold, threshold within the saturated
weight sum. -/
def authority_passes (valid : public_key → Bool) (n : Nat) (validate_keys : Bool)
    (a : block_signing_authority_v0) : Prop :=
  (∀ kw ∈ a.keys, key_passes valid n validate_keys kw) ∧
  (a.keys.map (fun kw => kw.key)).Nodup ∧ 0 < a.threshold ∧
  a.threshold ≤ min (weight_sum a.keys) uint32_max

/-- A schedule entry passes the assertions of the producer loop. -/
def producer_passes (E : externals T) (context : apply_context T) (validate_keys : Bool)
    (p : producer_authority) : Prop :=
  context.is_account p.producer_name = true ∧
  authority_passes E.public_key_valid context.db.num_supported_key_types validate_keys p.v0

/-- The producer names of a schedule, in order. -/
def producer_names (producers : List producer_authority) : List account_name :=
  producers.map (fun p => p.producer_name)

/-- The context after a schedule has been handed to the consensus layer. -/
def handed_off (context : apply_context T) (producers : List producer_authority) :
    apply_context T :=
  { context with control := (context.control.set_proposed_producers producers).2 }

/-- A host call succeeded: it returned a value instead of throwing. -/
def succeeded {α : Type} (r : Except fc_exception α × apply_context T) : Prop :=
  ∃ v, r.1 = .ok v

/-- Carrier types for the examples: the configuration types are not inspected. -/
def example_types : chain_types := ⟨Unit, Unit, Unit, Unit⟩

/-- Example collaborators: at most 3 producers, keys with empty content are
invalid, the legacy decoder reads one producer per byte (with a key of empty
content from byte 5 on), the format-1 decoder one producer per byte, each with
one key of empty content; a `uint32_t` packs to its 4 little-endian bytes, the
VM configuration to 3 bytes and the legacy chain configuration to 5 bytes. -/
def example_externals : externals example_types where
  max_producers := 3
  max_finalizers := 3
  public_key_valid := fun k => !(k.data == [])
  unpack_producer_keys := fun b => .ok (b.map (fun n => ⟨n, ⟨0, if n < 5 then [n] else []⟩⟩))
  unpack_producer_authorities := fun b =>
    .ok (b.map (fun n => ⟨n, .v0 ⟨1, [⟨⟨0, []⟩, 1⟩]⟩⟩))
  unpack_finalizer_schedule := fun _ => .error ⟨.external 0, .other 0⟩
  unpack_uint32 := fun _ => .error ⟨.external 0, .other 0⟩
  unpack_wasm_config := fun _ => .error ⟨.external 0, .other 0⟩
  unpack_chain_config_v0 := fun _ => .error ⟨.external 0, .other 0⟩
  unpack_config_range := fun _ _ => .error ⟨.external 0, .other 0⟩
  wasm_config_validate := fun _ => none
  chain_config_v0_validate := fun _ => none
  chain_config_validate := fun _ => none
  chain_config_assign_v0 := fun c _ => c
  db_get_missing := ⟨.external 1, .other 1⟩
  pack_uint32 := fun v => [v % 256, v / 256 % 256, v / 65536 % 256, v / 16777216 % 256]
  pack_wasm_config := fun _ => [11, 12, 13]
  pack_chain_config_v0 := fun _ => [21, 22, 23, 24, 25]
  chain_config_v0_part := fun c => c
  unpack_parameter_ids := fun b => .ok b

/-- Example context: accounts 1 to 9 exist, two key schemes are activated,
empty schedules are disallowed, the consensus layer answers with the size of
the schedule, the ledger reports a change on every call, and the executing
code is not privileged. -/
def example_context (read_only : Bool) : apply_context example_types where
  control :=
    { disallow_empty_producer_schedule := true
      proposed_producers := []
      proposed_producers_version := fun l => l.length
      proposed_finalizers := []
      proposed_finalizers_version := fun _ l => l.length
      preactivated := []
      resource_limits := { limits_set := [], limits_changed := fun _ _ _ _ _ => true } }
  db :=
    { global_properties := { wasm_configuration := (), configuration := () }
      num_supported_key_types := 2
      account_exists := fun n => decide (1 ≤ n ∧ n ≤ 9)
      account_privileged := fun n => if 1 ≤ n ∧ n ≤ 9 then some false else none }
  trx_context := { is_read_only := read_only, is_transient := false, validate_ram_usage := [] }
  privileged := false

/-- Example key of scheme `i` with the one-element content `d`; it is valid
in the examples, and of an activated scheme when `i < 2`. -/
def example_key (i : Nat) (d : Nat) : public_key := ⟨i, [d]⟩

/-- Example schedule of three producers whose weights sum exactly to their
thresholds. -/
def example_schedule : List producer_authority :=
  [ ⟨1, .v0 ⟨3, [⟨example_key 0 10, 1⟩, ⟨example_key 1 11, 2⟩]⟩⟩,
    ⟨2, .v0 ⟨1, [⟨example_key 0 20, 1⟩]⟩⟩,
    ⟨3, .v0 ⟨5, [⟨example_key 0 30, 2⟩, ⟨example_key 0 31, 2⟩, ⟨example_key 1 32, 1⟩]⟩⟩ ]

/-- The first two entries of the example schedule. -/
def example_front : List producer_authority :=
  [ ⟨1, .v0 ⟨3, [⟨example_key 0 10, 1⟩, ⟨example_key 1 11, 2⟩]⟩⟩,
    ⟨2, .v0 ⟨1, [⟨example_key 0 20, 1⟩]⟩⟩ ]

/-- The last entry of the example schedule. -/
def example_last : producer_authority :=
  ⟨3, .v0 ⟨5, [⟨example_key 0 30, 2⟩, ⟨example_key 0 31, 2⟩, ⟨example_key 1 32, 1⟩]⟩⟩

/-- The read-only violation raised by the host function `fn`. -/
def read_only_violation (fn : host_function) : fc_exception :=
  ⟨.wasm_execution_error, .not_allowed_in_readonly fn⟩

/-- The Authority invariant of the specification, for an entry of a schedule:
fields in the range of their machine types, positive threshold, keys pairwise
distinct, every key of an activated scheme and structurally valid, sum of the
weights at least the threshold. -/
def authority_invariant (E : externals T) (context : apply_context T)
    (p : producer_authority) : Prop :=
  p.v0.wf ∧ p.v0.threshold > 0 ∧ (p.v0.keys.map (fun kw => kw.key)).Nodup ∧
  (∀ kw ∈ p.v0.keys, kw.key.which < context.db.num_supported_key_types ∧
    E.public_key_valid kw.key = true) ∧
  weight_sum p.v0.keys ≥ p.v0.threshold

/-- The outcome of proposing the empty schedule: success exactly when the
feature is not activated, with the empty schedule handed off; otherwise the
empty-schedule error and an unchanged context. -/
def empty_schedule_outcome (context : apply_context T)
    (r : Except fc_exception Int × apply_context T) : Prop :=
  (succeeded r ↔ context.control.disallow_empty_producer_schedule = false) ∧
  (context.control.disallow_empty_producer_schedule = false →
    r = (.ok (context.control.proposed_producers_version []),
         { context with control := { context.control with
             proposed_producers := context.control.proposed_producers ++ [[]] } })) ∧
  (context.control.disallow_empty_producer_schedule = true →
    r = (.error ⟨.wasm_execution_error, .producer_schedule_empty⟩, context))

/-- Example schedule of two entries with the same name, whose key is of
scheme 2 while two schemes (0 and 1) are activated. -/
def example_duplicate_unactivated : List producer_authority :=
  [ ⟨1, .v0 ⟨1, [⟨example_key 2 10, 1⟩]⟩⟩, ⟨1, .v0 ⟨1, [⟨example_key 2 10, 1⟩]⟩⟩ ]

/-- The format-1 equivalent of a decoded legacy list, in the words of the
specification: same length and order, each pair replaced by a producer
authority with the same name, threshold 1 and exactly one key, the given key
with weight 1. -/
def legacy_as_authorities (old_version : List producer_key) : List producer_authority :=
  old_version.map (fun p =>
    { producer_name := p.producer_name
      authority := .v0 { threshold := 1, keys := [{ key := p.block_signing_key, weight := 1 }] } })

/-- The Authority invariant without the structural validity of the keys. -/
def authority_invariant_without_validity (context : apply_context T)
    (p : producer_authority) : Prop :=
  p.v0.wf ∧ p.v0.threshold > 0 ∧ (p.v0.keys.map (fun kw => kw.key)).Nodup ∧
  (∀ kw ∈ p.v0.keys, kw.key.which < context.db.num_supported_key_types) ∧
  weight_sum p.v0.keys ≥ p.v0.threshold

/-- The schedule the example format-1 decoder reads from the bytes 1, 2, 3:
each producer has the single key of scheme 0 with empty content. -/
def example_invalid_key_schedule : List producer_authority :=
  [ ⟨1, .v0 ⟨1, [⟨⟨0, []⟩, 1⟩]⟩⟩, ⟨2, .v0 ⟨1, [⟨⟨0, []⟩, 1⟩]⟩⟩, ⟨3, .v0 ⟨1, [⟨⟨0, []⟩, 1⟩]⟩⟩ ]

/-- An authority whose first key is of the activated scheme 0 but not valid
(empty content) and whose second key is of scheme 2, which is not activated
when two schemes are. -/
def example_invalid_then_unactivated : producer_authority :=
  ⟨1, .v0 ⟨1, [⟨⟨0, []⟩, 1⟩, ⟨example_key 2 7, 1⟩]⟩⟩

/-- The context with the transient mark of the transaction set to `b`. -/
def with_transient (context : apply_context T) (b : Bool) : apply_context T :=
  { context with trx_context := { context.trx_context with is_transient := b } }

/-- The example context of a transaction marked transient and not read-only. -/
def example_transient_context : apply_context example_types :=
  with_transient (example_context false) true

/-- The bytes `get_wasm_parameters_packed` has to write: the packed version 0
followed by the packed live VM configuration. -/
def wasm_parameters_packed (E : externals T) (context : apply_context T) : bytes :=
  E.pack_uint32 0 ++ E.pack_wasm_config context.db.global_properties.wasm_configuration

/-- The bytes `get_blockchain_parameters_packed` has to write: the packed v0
part of the live chain configuration. -/
def blockchain_parameters_packed (E : externals T) (context : apply_context T) : bytes :=
  E.pack_chain_config_v0 (E.chain_config_v0_part context.db.global_properties.configuration)

/-- Example encoder of parameter ranges: ids below 3 are accepted; the range
packs to the number of ids followed by one byte per id. -/
def example_range_encoder : config_range_encoder example_types where
  pack_config_range := fun _ _ ids =>
    if ids.all (fun i => i < 3) then .ok (ids.length :: ids.map (fun i => 100 + i))
    else .error ⟨.config_parse_error, .other 2⟩

/-- Modelled from the spec: the codec `fc::raw` at `uint32_t` and at
`chain::wasm_config`, whose bodies are not in the sources.  A payload is
"serialized as `[u32 version][body]`": a value is decoded from the front of
the stream, the bytes decoded are the encoding of the value, and the rest of
the stream is left for the next decoder. -/
def wasm_codec_law (E : externals T) : Prop :=
  (∀ (b : bytes) (v : Nat) (rest : bytes),
    E.unpack_uint32 b = .ok (v, rest) → b = E.pack_uint32 v ++ rest) ∧
  (∀ (b : bytes) (cfg : T.wasm_config) (rest : bytes),
    E.unpack_wasm_config b = .ok (cfg, rest) → b = E.pack_wasm_config cfg ++ rest)

/-- Modelled from the spec: the codec `fc::raw` at `chain::chain_config_v0`,
the assignment `chain_config::operator=(const chain_config_v0&)` and the
accessor `chain_config::v0()`, whose bodies are not in the sources.  The
packed v0 configuration decodes to the configuration that was packed, and the
live configuration holds the v0 fields: the assignment overwrites them and
`v0()` reads them back. -/
def chain_config_v0_law (E : externals T) : Prop :=
  (∀ cfg : T.chain_config_v0, E.unpack_chain_config_v0 (E.pack_chain_config_v0 cfg) = .ok cfg) ∧
  (∀ (c : T.chain_config) (cfg : T.chain_config_v0),
    E.chain_config_v0_part (E.chain_config_assign_v0 c cfg) = cfg)

/-- A finalizer passes the three assertions of the finalizer loop. -/
def finalizer_passes (E : externals T) (context : apply_context T)
    (f : finalizer_authority) : Prop :=
  context.is_account f.finalizer_name = true ∧
  f.public_key.which < context.db.num_supported_key_types ∧
  E.public_key_valid f.public_key = true

/-- The finalizer names of a schedule, in order. -/
def finalizer_names (finalizers : List finalizer_authority) : List account_name :=
  finalizers.map (fun f => f.finalizer_name)

/-- What the finalizer loop reads of an entry: its name and its key. -/
def finalizer_name_and_key (f : finalizer_authority) : account_name × public_key :=
  (f.finalizer_name, f.public_key)

/-- The context after `(fthreshold, finalizers)` has been handed to the
consensus layer. -/
def finalizers_handed_off (context : apply_context T) (fthreshold : Nat)
    (finalizers : List finalizer_authority) : apply_context T :=
  { context with control :=
      { context.control with
        proposed_finalizers := context.control.proposed_finalizers ++
          [(fthreshold, finalizers)] } }

/-- Carrier types of the second example: the VM configuration is one
parameter, the v0 chain configuration is the value of `max_transaction_delay`,
the live chain configuration is the v0 part and one later parameter. -/
abbrev example_codec_types : chain_types := ⟨Unit, Nat, Nat, Nat × Nat⟩

/-- Collaborators of the second example, with decoders that read the stream:
a `uint32_t` is 4 little-endian bytes, the VM configuration and the v0 chain
configuration are one byte each, a finalizer schedule has threshold 1000 and
one finalizer of weight 1 per byte `n`, named `n % 10`, with the key of scheme
`n / 10` and content `n`. -/
def example_codec_externals : externals example_codec_types where
  max_producers := 3
  max_finalizers := 3
  public_key_valid := fun k => !(k.data == [])
  unpack_producer_keys := fun _ => .error ⟨.external 0, .other 0⟩
  unpack_producer_authorities := fun _ => .error ⟨.external 0, .other 0⟩
  unpack_finalizer_schedule := fun b =>
    .ok ⟨0, 1000, b.map (fun n => ⟨n % 10, 1, ⟨n / 10, [n]⟩⟩)⟩
  unpack_uint32 := fun b =>
    match b with
    | b0 :: b1 :: b2 :: b3 :: rest =>
      if b0 < 256 ∧ b1 < 256 ∧ b2 < 256 ∧ b3 < 256 then
        .ok (b0 + 256 * b1 + 65536 * b2 + 16777216 * b3, rest)
      else .error ⟨.external 0, .other 0⟩
    | _ => .error ⟨.external 0, .other 0⟩
  unpack_wasm_config := fun b =>
    match b with
    | x :: rest => .ok (x, rest)
    | [] => .error ⟨.external 0, .other 0⟩
  unpack_chain_config_v0 := fun b =>
    match b with
    | d :: _ => .ok d
    | [] => .error ⟨.external 0, .other 0⟩
  unpack_config_range := fun _ _ => .error ⟨.external 0, .other 0⟩
  wasm_config_validate := fun _ => none
  chain_config_v0_validate := fun _ => none
  chain_config_validate := fun _ => none
  chain_config_assign_v0 := fun c cfg => (cfg, c.2)
  db_get_missing := ⟨.external 1, .other 1⟩
  pack_uint32 := fun v => [v % 256, v / 256 % 256, v / 65536 % 256, v / 16777216 % 256]
  pack_wasm_config := fun x => [x]
  pack_chain_config_v0 := fun d => [d]
  chain_config_v0_part := fun c => c.1
  unpack_parameter_ids := fun b => .ok b

/-- Context of the second example: not read-only, accounts 1 to 9 exist, two
key schemes are activated, the VM parameter is 5, `max_transaction_delay` is
45, the consensus layer answers with the size of the schedule. -/
def example_codec_context : apply_context example_codec_types where
  control :=
    { disallow_empty_producer_schedule := true
      proposed_producers := []
      proposed_producers_version := fun l => l.length
      proposed_finalizers := []
      proposed_finalizers_version := fun _ l => l.length
      preactivated := []
      resource_limits := { limits_set := [], limits_changed := fun _ _ _ _ _ => true } }
  db :=
    { global_properties := { wasm_configuration := 5, configuration := (45, 7) }
      num_supported_key_types := 2
      account_exists := fun n => decide (1 ≤ n ∧ n ≤ 9)
      account_privileged := fun n => if 1 ≤ n ∧ n ≤ 9 then some false else none }
  trx_context := { is_read_only := false, is_transient := false, validate_ram_usage := [] }
  privileged := true

/-- An exception that is none of the three assertions on the shape of an
authority: duplicated key, threshold 0, unsatisfiable authority. -/
def not_authority_shape_error (e : fc_exception) : Prop :=
  (∀ a, e.what ≠ .producer_duplicated_key a) ∧ (∀ a, e.what ≠ .producer_zero_threshold a) ∧
  (∀ a, e.what ≠ .producer_unsatisfiable a)

/-- Modelled from the spec: the privilege gate of the host-call dispatcher,
which is not in the sources.  The host calls of `privileged.cpp` may be invoked
"subject to an account-level privilege flag", a write "requires the caller to
already be executing in an account-privileged ... context": from a context
that is not account-privileged the call fails, with the exception `denied` of
the dispatcher, before the body of the host function runs. -/
def privileged_call {α : Type} (denied : fc_exception) (context : apply_context T)
    (body : apply_context T → Except fc_exception α × apply_context T) :
    Except fc_exception α × apply_context T :=
  if context.privileged = true then body context else (.error denied, context)

/-- The host call `set_privileged` as a contract reaches it: the body of
lines 300-306 behind the privilege gate of the dispatcher. -/
def call_set_privileged (E : externals T) (denied : fc_exception) (context : apply_context T)
    (n : account_name) (is_priv : Bool) : Except fc_exception Unit × apply_context T :=
  privileged_call denied context (fun c => set_privileged E c n is_priv)

/-! ## Auxiliary facts: the set model -/

theorem mem_set_insert {α : Type} [DecidableEq α] (s : List α) (x y : α) :
    y ∈ set_insert s x ↔ y ∈ s ∨ y = x := by
  unfold set_insert
  by_cases h : x ∈ s
  · simp only [h, if_true]
    constructor
    · intro hy; exact Or.inl hy
    · rintro (hy | hy)
      · exact hy
      · subst hy; exact h
  · simp [h]

theorem length_set_insert_of_mem {α : Type} [DecidableEq α] (s : List α) (x : α)
    (h : x ∈ s) : (set_insert s x).length = s.length := by
  simp [set_insert, h]

theorem length_set_insert_of_not_mem {α : Type} [DecidableEq α] (s : List α) (x : α)
    (h : x ∉ s) : (set_insert s x).length = s.length + 1 := by
  simp [set_insert, h]

theorem insert_all_nil {α : Type} [DecidableEq α] (s : List α) : insert_all s [] = s := rfl

theorem insert_all_cons {α : Type} [DecidableEq α] (s : List α) (x : α) (l : List α) :
    insert_all s (x :: l) = insert_all (set_insert s x) l := rfl

theorem length_insert_all_le {α : Type} [DecidableEq α] (l : List α) :
    ∀ s : List α, (insert_all s l).length ≤ s.length + l.length := by
  induction l with
  | nil => intro s; simp [insert_all_nil]
  | cons x l ih =>
    intro s
    rw [insert_all_cons]
    have h1 := ih (set_insert s x)
    by_cases hx : x ∈ s
    · rw [length_set_insert_of_mem s x hx] at h1
      simp only [List.length_cons]; omega
    · rw [length_set_insert_of_not_mem s x hx] at h1
      simp only [List.length_cons]; omega

/-- The set has as many elements as were inserted exactly when the inserted
elements are pairwise distinct and none was in the set before. -/
theorem length_insert_all_eq_iff {α : Type} [DecidableEq α] (l : List α) :
    ∀ s : List α, (insert_all s l).length = s.length + l.length ↔
      (l.Nodup ∧ ∀ x ∈ l, x ∉ s) := by
  induction l with
  | nil => intro s; simp [insert_all_nil]
  | cons x l ih =>
    intro s
    rw [insert_all_cons]
    by_cases hx : x ∈ s
    · have h1 := length_insert_all_le l (set_insert s x)
      rw [length_set_insert_of_mem s x hx] at h1
      constructor
      · intro h; simp only [List.length_cons] at h; omega
      · rintro ⟨_, h2⟩; exact absurd hx (h2 x (List.mem_cons_self x l))
    · have h2 := ih (set_insert s x)
      rw [length_set_insert_of_not_mem s x hx] at h2
      simp only [List.length_cons, List.nodup_cons, List.mem_cons, forall_eq_or_imp]
      constructor
      · intro h
        have h3 := h2.mp (by omega)
        refine ⟨⟨?_, h3.1⟩, hx, ?_⟩
        · intro hxl
          exact h3.2 x hxl ((mem_set_insert s x x).mpr (Or.inr rfl))
        · intro y hy hys
          exact h3.2 y hy ((mem_set_insert s x y).mpr (Or.inl hys))
      · rintro ⟨⟨hxl, hnd⟩, _, hdisj⟩
        have h3 := h2.mpr ⟨hnd, by
          intro y hy hmem
          rcases (mem_set_insert s x y).mp hmem with h | h
          · exact hdisj y hy h
          · subst h; exact hxl hy⟩
        omega

theorem length_insert_all_nil_eq_iff {α : Type} [DecidableEq α] (l : List α) :
    l.length = (insert_all [] l).length ↔ l.Nodup := by
  have h := length_insert_all_eq_iff l []
  simp only [List.length_nil, Nat.zero_add, List.not_mem_nil, not_false_eq_true,
    implies_true, and_true] at h
  rw [← h]
  exact eq_comm

/-! ## Auxiliary facts: the weight accumulator -/

theorem add_weight_eq (sum_weights weight : Nat) (h : sum_weights ≤ uint32_max) :
    add_weight sum_weights weight = min (sum_weights + weight) uint32_max := by
  unfold add_weight uint32_max at *
  split <;> omega

theorem foldl_add_weight (ws : List Nat) :
    ∀ s : Nat, s ≤ uint32_max → ws.foldl add_weight s = min (s + ws.sum) uint32_max := by
  induction ws with
  | nil => intro s hs; simp [Nat.min_eq_left hs]
  | cons w ws ih =>
    intro s hs
    simp only [List.foldl_cons, List.sum_cons]
    rw [add_weight_eq s w hs, ih _ (Nat.min_le_right _ _)]
    unfold uint32_max at *
    omega

/-! ## Auxiliary facts: the key loop and the authority visitor -/

theorem check_keys_of_pass (valid : public_key → Bool) (n : Nat) (vk : Bool)
    (l : List key_weight) :
    ∀ (s : Nat) (u : List public_key), (∀ kw ∈ l, key_passes valid n vk kw) →
      check_keys valid n vk l s u =
        .ok ((l.map (fun kw => kw.weight)).foldl add_weight s,
             insert_all u (l.map (fun kw => kw.key))) := by
  induction l with
  | nil => intro s u _; rfl
  | cons kw l ih =>
    intro s u h
    have hk := h kw (List.mem_cons_self kw l)
    have hl : ∀ x ∈ l, key_passes valid n vk x := fun x hx => h x (List.mem_cons_of_mem kw hx)
    unfold key_passes at hk
    rw [check_keys, if_neg (not_not.mpr hk.1), if_neg (fun hc => hc.2 (hk.2 hc.1)), ih _ _ hl]
    rfl

theorem check_keys_pass_of_ok (valid : public_key → Bool) (n : Nat) (vk : Bool)
    (l : List key_weight) :
    ∀ (s : Nat) (u : List public_key) (r : Nat × List public_key),
      check_keys valid n vk l s u = .ok r → ∀ kw ∈ l, key_passes valid n vk kw := by
  induction l with
  | nil => intro s u r _ kw hkw; cases hkw
  | cons k l ih =>
    intro s u r h kw hkw
    rw [check_keys] at h
    by_cases h1 : k.key.which < n
    · rw [if_neg (not_not.mpr h1)] at h
      by_cases h2 : vk = true ∧ ¬ (valid k.key = true)
      · rw [if_pos h2] at h; cases h
      · rw [if_neg h2] at h
        rcases List.mem_cons.mp hkw with hk | hk
        · subst hk
          refine ⟨h1, fun hv => ?_⟩
          by_contra hc
          exact h2 ⟨hv, hc⟩
        · exact ih _ _ r h kw hk
    · rw [if_pos h1] at h; cases h

/-- The key loop stops with `unactivated_key_type` at the first key whose
scheme index is not below `num_supported_key_types`. -/
theorem check_keys_unactivated (valid : public_key → Bool) (n : Nat) (vk : Bool)
    (l1 : List key_weight) (kw : key_weight) (l2 : List key_weight)
    (hkw : ¬ (kw.key.which < n)) :
    ∀ (s : Nat) (u : List public_key), (∀ x ∈ l1, key_passes valid n vk x) →
      check_keys valid n vk (l1 ++ kw :: l2) s u =
        .error ⟨.unactivated_key_type, .producer_unactivated_key⟩ := by
  induction l1 with
  | nil => intro s u _; rw [List.nil_append, check_keys, if_pos hkw]
  | cons k l1 ih =>
    intro s u h
    have hk := h k (List.mem_cons_self k l1)
    have hl : ∀ x ∈ l1, key_passes valid n vk x := fun x hx => h x (List.mem_cons_of_mem k hx)
    unfold key_passes at hk
    rw [List.cons_append, check_keys, if_neg (not_not.mpr hk.1),
      if_neg (fun hc => hc.2 (hk.2 hc.1)), ih _ _ hl]

/-- The key loop fails only with `unactivated_key_type` (on a key of an
unactivated scheme) or, when keys are validated, with the invalid-key error
(on a key that is not valid). -/
theorem check_keys_error (valid : public_key → Bool) (n : Nat) (vk : Bool)
    (l : List key_weight) :
    ∀ (s : Nat) (u : List public_key) (e : fc_exception),
      check_keys valid n vk l s u = .error e →
        (e = ⟨.unactivated_key_type, .producer_unactivated_key⟩ ∧
          ∃ kw ∈ l, ¬ (kw.key.which < n)) ∨
        (e = ⟨.wasm_execution_error, .producer_invalid_key⟩ ∧ vk = true ∧
          ∃ kw ∈ l, valid kw.key = false) := by
  induction l with
  | nil => intro s u e h; cases h
  | cons k l ih =>
    intro s u e h
    rw [check_keys] at h
    by_cases h1 : k.key.which < n
    · rw [if_neg (not_not.mpr h1)] at h
      by_cases h2 : vk = true ∧ ¬ (valid k.key = true)
      · rw [if_pos h2] at h
        right
        refine ⟨?_, h2.1, k, List.mem_cons_self k l, ?_⟩
        · cases h; rfl
        · simpa using h2.2
      · rw [if_neg h2] at h
        rcases ih _ _ e h with ⟨he, kw, hkw, hw⟩ | ⟨he, hv, kw, hkw, hw⟩
        · exact Or.inl ⟨he, kw, List.mem_cons_of_mem k hkw, hw⟩
        · exact Or.inr ⟨he, hv, kw, List.mem_cons_of_mem k hkw, hw⟩
    · rw [if_pos h1] at h
      left
      refine ⟨?_, k, List.mem_cons_self k l, h1⟩
      cases h; rfl

theorem check_keys_sum (keys : List key_weight) :
    (keys.map (fun kw => kw.weight)).foldl add_weight 0 = min (weight_sum keys) uint32_max := by
  rw [foldl_add_weight _ 0 (Nat.zero_le _), Nat.zero_add]
  rfl

theorem check_authority_ok_iff (valid : public_key → Bool) (n : Nat) (vk : Bool)
    (p : producer_authority) :
    check_authority valid n vk p = .ok () ↔ authority_passes valid n vk p.v0 := by
  obtain ⟨name, auth⟩ := p
  cases auth with
  | v0 a =>
    simp only [check_authority, producer_authority.v0, authority_passes]
    constructor
    · intro h
      cases hck : check_keys valid n vk a.keys 0 [] with
      | error e => rw [hck] at h; cases h
      | ok r =>
        have hp := check_keys_pass_of_ok valid n vk a.keys 0 [] r hck
        rw [check_keys_of_pass valid n vk a.keys 0 [] hp] at h
        simp only [check_keys_sum] at h
        by_cases c1 : a.keys.length = (insert_all [] (a.keys.map (fun kw => kw.key))).length
        · rw [if_neg (not_not.mpr c1)] at h
          by_cases c2 : a.threshold > 0
          · rw [if_neg (not_not.mpr c2)] at h
            by_cases c3 : min (weight_sum a.keys) uint32_max ≥ a.threshold
            · refine ⟨hp, ?_, c2, c3⟩
              rw [← length_insert_all_nil_eq_iff, List.length_map]
              exact c1
            · rw [if_pos c3] at h; cases h
          · rw [if_pos c2] at h; cases h
        · rw [if_pos c1] at h; cases h
    · rintro ⟨hp, hnd, ht, hs⟩
      rw [check_keys_of_pass valid n vk a.keys 0 [] hp]
      simp only [check_keys_sum]
      have c1 : a.keys.length = (insert_all [] (a.keys.map (fun kw => kw.key))).length := by
        have := (length_insert_all_nil_eq_iff (a.keys.map (fun kw => kw.key))).mpr hnd
        rw [List.length_map] at this
        exact this
      rw [if_neg (not_not.mpr c1), if_neg (not_not.mpr ht), if_neg (not_not.mpr hs)]

/-- The visitor fails only with a `wasm_execution_error`, or with
`unactivated_key_type` on a key of an unactivated scheme. -/
theorem check_authority_error (valid : public_key → Bool) (n : Nat) (vk : Bool)
    (p : producer_authority) (e : fc_exception)
    (h : check_authority valid n vk p = .error e) :
    e.type = .wasm_execution_error ∨
      (e = ⟨.unactivated_key_type, .producer_unactivated_key⟩ ∧
        ∃ kw ∈ p.v0.keys, ¬ (kw.key.which < n)) := by
  obtain ⟨name, auth⟩ := p
  cases auth with
  | v0 a =>
    simp only [check_authority, producer_authority.v0] at h ⊢
    cases hck : check_keys valid n vk a.keys 0 [] with
    | error e2 =>
      rw [hck] at h
      have he : e2 = e := by cases h; rfl
      subst he
      rcases check_keys_error valid n vk a.keys 0 [] e2 hck with ⟨he, hw⟩ | ⟨he, _, _⟩
      · exact Or.inr ⟨he, hw⟩
      · left; rw [he]
    | ok r =>
      rw [hck] at h
      left
      simp only at h
      split at h
      · cases h; rfl
      · split at h
        · cases h; rfl
        · split at h
          · cases h; rfl
          · cases h

/-! ## Auxiliary facts: the producer loop and the common routine -/

theorem check_producers_append (E : externals T) (context : apply_context T) (vk : Bool)
    (l1 l2 : List producer_authority) :
    ∀ u : List account_name, (∀ p ∈ l1, producer_passes E context vk p) →
      check_producers E context vk (l1 ++ l2) u =
        check_producers E context vk l2 (insert_all u (producer_names l1)) := by
  induction l1 with
  | nil => intro u _; rfl
  | cons p l1 ih =>
    intro u h
    have hp := h p (List.mem_cons_self p l1)
    have hl : ∀ x ∈ l1, producer_passes E context vk x :=
      fun x hx => h x (List.mem_cons_of_mem p hx)
    have ha := (check_authority_ok_iff E.public_key_valid context.db.num_supported_key_types
      vk p).mpr hp.2
    rw [List.cons_append, check_producers, if_neg (not_not.mpr hp.1)]
    simp only [ha]
    rw [ih _ hl]
    rfl

theorem check_producers_of_pass (E : externals T) (context : apply_context T) (vk : Bool)
    (l : List producer_authority) (u : List account_name)
    (h : ∀ p ∈ l, producer_passes E context vk p) :
    check_producers E context vk l u = .ok (insert_all u (producer_names l)) := by
  have h2 := check_producers_append E context vk l [] u h
  rw [List.append_nil] at h2
  rw [h2]
  rfl

theorem check_producers_pass_of_ok (E : externals T) (context : apply_context T) (vk : Bool)
    (l : List producer_authority) :
    ∀ (u r : List account_name), check_producers E context vk l u = .ok r →
      ∀ p ∈ l, producer_passes E context vk p := by
  induction l with
  | nil => intro u r _ p hp; cases hp
  | cons q l ih =>
    intro u r h p hp
    rw [check_producers] at h
    by_cases h1 : context.is_account q.producer_name = true
    · rw [if_neg (not_not.mpr h1)] at h
      cases hca : check_authority E.public_key_valid context.db.num_supported_key_types vk q with
      | error e => simp only [hca] at h; cases h
      | ok v =>
        simp only [hca] at h
        rcases List.mem_cons.mp hp with hq | hq
        · subst hq
          exact ⟨h1, (check_authority_ok_iff _ _ _ _).mp hca⟩
        · exact ih _ r h p hq
    · rw [if_pos h1] at h; cases h

/-- The producer loop fails only with a `wasm_execution_error`, or with
`unactivated_key_type` on a key of an unactivated scheme. -/
theorem check_producers_error (E : externals T) (context : apply_context T) (vk : Bool)
    (l : List producer_authority) :
    ∀ (u : List account_name) (e : fc_exception),
      check_producers E context vk l u = .error e →
        e.type = .wasm_execution_error ∨
          (e = ⟨.unactivated_key_type, .producer_unactivated_key⟩ ∧
            ∃ p ∈ l, ∃ kw ∈ p.v0.keys, ¬ (kw.key.which < context.db.num_supported_key_types)) := by
  induction l with
  | nil => intro u e h; cases h
  | cons q l ih =>
    intro u e h
    rw [check_producers] at h
    by_cases h1 : context.is_account q.producer_name = true
    · rw [if_neg (not_not.mpr h1)] at h
      cases hca : check_authority E.public_key_valid context.db.num_supported_key_types vk q with
      | error e2 =>
        simp only [hca] at h
        have he : e2 = e := by cases h; rfl
        subst he
        rcases check_authority_error _ _ _ _ _ hca with ht | ⟨he, hw⟩
        · exact Or.inl ht
        · exact Or.inr ⟨he, q, List.mem_cons_self q l, hw⟩
      | ok v =>
        simp only [hca] at h
        rcases ih _ e h with ht | ⟨he, p, hp, hw⟩
        · exact Or.inl ht
        · exact Or.inr ⟨he, p, List.mem_cons_of_mem q hp, hw⟩
    · rw [if_pos h1] at h
      left
      cases h; rfl

/-- The common routine accepts a schedule that is within the size bounds,
whose entries pass the loop and whose names are pairwise distinct. -/
theorem common_accepts (E : externals T) (context : apply_context T)
    (producers : List producer_authority) (vk : Bool)
    (hmax : producers.length ≤ E.max_producers)
    (hempty : producers.length > 0 ∨ ¬ (context.control.disallow_empty_producer_schedule = true))
    (hpass : ∀ p ∈ producers, producer_passes E context vk p)
    (hnames : (producer_names producers).Nodup) :
    set_proposed_producers_common E context producers vk =
      (.ok (context.control.proposed_producers_version producers),
        handed_off context producers) := by
  unfold set_proposed_producers_common
  rw [if_neg (not_not.mpr hmax), if_neg (not_not.mpr hempty),
    check_producers_of_pass E context vk producers [] hpass]
  have hlen : producers.length = (insert_all [] (producer_names producers)).length := by
    have := (length_insert_all_nil_eq_iff (producer_names producers)).mpr hnames
    rw [producer_names, List.length_map] at this
    exact this
  simp only [if_neg (not_not.mpr hlen)]
  rfl

/-- Whatever the common routine accepts satisfies the conditions of
`common_accepts`. -/
theorem common_accepted_inv (E : externals T) (context : apply_context T)
    (producers : List producer_authority) (vk : Bool)
    (h : succeeded (set_proposed_producers_common E context producers vk)) :
    producers.length ≤ E.max_producers ∧
    (producers.length > 0 ∨ ¬ (context.control.disallow_empty_producer_schedule = true)) ∧
    (∀ p ∈ producers, producer_passes E context vk p) ∧
    (producer_names producers).Nodup := by
  obtain ⟨v, hv⟩ := h
  unfold set_proposed_producers_common at hv
  by_cases hmax : producers.length ≤ E.max_producers
  · rw [if_neg (not_not.mpr hmax)] at hv
    by_cases hempty : producers.length > 0 ∨
        ¬ (context.control.disallow_empty_producer_schedule = true)
    · rw [if_neg (not_not.mpr hempty)] at hv
      cases hcp : check_producers E context vk producers [] with
      | error e => simp only [hcp] at hv; cases hv
      | ok u =>
        have hpass := check_producers_pass_of_ok E context vk producers [] u hcp
        rw [check_producers_of_pass E context vk producers [] hpass] at hv
        by_cases hlen : producers.length = (insert_all [] (producer_names producers)).length
        · refine ⟨hmax, hempty, hpass, ?_⟩
          rw [← length_insert_all_nil_eq_iff, producer_names, List.length_map]
          exact hlen
        · simp only [if_pos hlen] at hv; cases hv
    · rw [if_pos hempty] at hv; cases hv
  · rw [if_pos hmax] at hv; cases hv

/-- The visitor on an authority whose keys all pass the key loop: the three
assertions after the loop, in the order of the source. -/
theorem check_authority_of_pass (valid : public_key → Bool) (n : Nat) (vk : Bool)
    (name : account_name) (a : block_signing_authority_v0)
    (hp : ∀ kw ∈ a.keys, key_passes valid n vk kw) :
    check_authority valid n vk ⟨name, .v0 a⟩ =
      if ¬ (a.keys.map (fun kw => kw.key)).Nodup then
        .error ⟨.wasm_execution_error, .producer_duplicated_key name⟩
      else if ¬ (a.threshold > 0) then
        .error ⟨.wasm_execution_error, .producer_zero_threshold name⟩
      else if ¬ (min (weight_sum a.keys) uint32_max ≥ a.threshold) then
        .error ⟨.wasm_execution_error, .producer_unsatisfiable name⟩
      else .ok () := by
  simp only [check_authority]
  rw [check_keys_of_pass valid n vk a.keys 0 [] hp]
  simp only [check_keys_sum]
  have hiff := length_insert_all_nil_eq_iff (a.keys.map (fun kw => kw.key))
  rw [List.length_map] at hiff
  by_cases c1 : (a.keys.map (fun kw => kw.key)).Nodup
  · rw [if_neg (not_not.mpr (hiff.mpr c1)), if_neg (not_not.mpr c1)]
  · rw [if_pos (fun hc => c1 (hiff.mp hc)), if_pos c1]

/-- The visitor on an authority with a key of an unactivated scheme, the keys
before it passing the key loop. -/
theorem check_authority_unactivated (valid : public_key → Bool) (n : Nat) (vk : Bool)
    (name : account_name) (threshold : Nat) (l1 : List key_weight) (kw : key_weight)
    (l2 : List key_weight) (hkw : ¬ (kw.key.which < n))
    (hp : ∀ x ∈ l1, key_passes valid n vk x) :
    check_authority valid n vk ⟨name, .v0 ⟨threshold, l1 ++ kw :: l2⟩⟩ =
      .error ⟨.unactivated_key_type, .producer_unactivated_key⟩ := by
  simp only [check_authority]
  rw [check_keys_unactivated valid n vk l1 kw l2 hkw 0 [] hp]

/-- The common routine fails with the exception of the visitor at the first
entry whose authority the visitor rejects. -/
theorem common_rejects_at (E : externals T) (context : apply_context T) (vk : Bool)
    (pre : List producer_authority) (p : producer_authority) (post : List producer_authority)
    (e : fc_exception)
    (hmax : (pre ++ p :: post).length ≤ E.max_producers)
    (hpre : ∀ q ∈ pre, producer_passes E context vk q)
    (hacc : context.is_account p.producer_name = true)
    (hp : check_authority E.public_key_valid context.db.num_supported_key_types vk p =
      .error e) :
    set_proposed_producers_common E context (pre ++ p :: post) vk = (.error e, context) := by
  unfold set_proposed_producers_common
  have hpos : (pre ++ p :: post).length > 0 ∨
      ¬ (context.control.disallow_empty_producer_schedule = true) := by
    left; simp
  rw [if_neg (not_not.mpr hmax), if_neg (not_not.mpr hpos),
    check_producers_append E context vk pre (p :: post) [] hpre, check_producers,
    if_neg (not_not.mpr hacc)]
  simp only [hp]

/-! ## The claims -/

/-- C1: in a read-only transaction context each of the nine mutating host
calls fails with its read-only violation, for every argument and every
behaviour of the decoders and validators, and leaves the context untouched:
no other exception can surface. -/
theorem C1_read_only_check_first (E : externals T) (context : apply_context T)
    (h : context.trx_context.is_read_only = true) :
    (∀ feature_digest, preactivate_feature context feature_digest =
      (.error (read_only_violation .preactivate_feature), context)) ∧
    (∀ account ram_bytes net_weight cpu_weight,
      set_resource_limits context account ram_bytes net_weight cpu_weight =
        (.error (read_only_violation .set_resource_limits), context)) ∧
    (∀ packed, set_wasm_parameters_packed E context packed =
      (.error (read_only_violation .set_wasm_parameters_packed), context)) ∧
    (∀ packed, set_proposed_producers E context packed =
      (.error (read_only_violation .set_proposed_producers), context)) ∧
    (∀ format packed, set_proposed_producers_ex E context format packed =
      (.error (read_only_violation .set_proposed_producers_ex), context)) ∧
    (∀ packed, set_proposed_finalizers E context packed =
      (.error (read_only_violation .set_proposed_finalizers), context)) ∧
    (∀ packed, set_blockchain_parameters_packed E context packed =
      (.error (read_only_violation .set_blockchain_parameters_packed), context)) ∧
    (∀ packed, set_parameters_packed E context packed =
      (.error (read_only_violation .set_parameters_packed), context)) ∧
    (∀ n is_priv, set_privileged E context n is_priv =
      (.error (read_only_violation .set_privileged), context)) := by
  refine ⟨?_, ?_, ?_, ?_, ?_, ?_, ?_, ?_, ?_⟩
  · intro d; simp [preactivate_feature, h, read_only_violation]
  · intro a r n c; simp [set_resource_limits, h, read_only_violation]
  · intro b; simp [set_wasm_parameters_packed, h, read_only_violation]
  · intro b; simp [set_proposed_producers, h, read_only_violation]
  · intro f b; simp [set_proposed_producers_ex, h, read_only_violation]
  · intro b; simp [set_proposed_finalizers, h, read_only_violation]
  · intro b; simp [set_blockchain_parameters_packed, h, read_only_violation]
  · intro b; simp [set_parameters_packed, h, read_only_violation]
  · intro n b; simp [set_privileged, h, read_only_violation]

/-- C1, at the example context marked read-only: the nine calls fail with the
read-only violation. -/
theorem C1_read_only_check_first_witness :
    (example_context true).trx_context.is_read_only = true ∧
    set_proposed_producers_ex example_externals (example_context true) 7 [255] =
      (.error (read_only_violation .set_proposed_producers_ex), example_context true) ∧
    set_wasm_parameters_packed example_externals (example_context true) [] =
      (.error (read_only_violation .set_wasm_parameters_packed), example_context true) :=
  ⟨rfl,
   (C1_read_only_check_first example_externals (example_context true) rfl).2.2.2.2.1 7 [255],
   (C1_read_only_check_first example_externals (example_context true) rfl).2.2.1 []⟩

theorem producer_passes_of_invariant (E : externals T) (context : apply_context T) (vk : Bool)
    (p : producer_authority) (hacc : context.is_account p.producer_name = true)
    (hinv : authority_invariant E context p) : producer_passes E context vk p := by
  obtain ⟨hwf, ht, hnd, hk, hs⟩ := hinv
  refine ⟨hacc, fun kw hkw => ⟨(hk kw hkw).1, fun _ => (hk kw hkw).2⟩, hnd, ht, ?_⟩
  have h32 := hwf.1
  unfold uint32_max
  omega

/-- C2: a schedule of 1 to `max_producers` entries with pairwise distinct
names of existing accounts, every authority satisfying the Authority invariant
(the sum of the weights may equal the threshold), passes every check of
`set_proposed_producers_common` for either value of `validate_keys`: the call
returns the version number of the consensus layer and the schedule is handed
to that layer unchanged and in order; in a non-read-only context the same
holds for the schedule proposed in wire format 1. -/
theorem C2_valid_schedule_accepted (E : externals T) (context : apply_context T)
    (producers : List producer_authority) (validate_keys : Bool)
    (hsize : 1 ≤ producers.length ∧ producers.length ≤ E.max_producers)
    (hnames : (producer_names producers).Nodup)
    (hacc : ∀ p ∈ producers, context.is_account p.producer_name = true)
    (hinv : ∀ p ∈ producers, authority_invariant E context p) :
    set_proposed_producers_common E context producers validate_keys =
      (.ok (context.control.proposed_producers_version producers),
       { context with control := { context.control with
           proposed_producers := context.control.proposed_producers ++ [producers] } }) ∧
    (context.trx_context.is_read_only = false →
      ∀ packed, E.unpack_producer_authorities packed = .ok producers →
        set_proposed_producers_ex E context 1 packed =
          (.ok (context.control.proposed_producers_version producers),
           { context with control := { context.control with
               proposed_producers := context.control.proposed_producers ++ [producers] } })) := by
  have key : ∀ vk, set_proposed_producers_common E context producers vk =
      (.ok (context.control.proposed_producers_version producers),
       { context with control := { context.control with
           proposed_producers := context.control.proposed_producers ++ [producers] } }) := by
    intro vk
    rw [common_accepts E context producers vk hsize.2 (Or.inl hsize.1)
      (fun p hp => producer_passes_of_invariant E context vk p (hacc p hp) (hinv p hp)) hnames]
    rfl
  refine ⟨key validate_keys, ?_⟩
  intro hro packed hdec
  simp only [set_proposed_producers_ex, hro, hdec]
  simpa using key false

theorem example_schedule_invariant :
    ∀ p ∈ example_schedule, authority_invariant example_externals (example_context false) p := by
  intro p hp
  simp only [example_schedule, List.mem_cons, List.mem_singleton, List.not_mem_nil,
    or_false] at hp
  rcases hp with rfl | rfl | rfl <;>
    simp [authority_invariant, producer_authority.v0, block_signing_authority_v0.wf,
      weight_sum, example_context, example_externals, example_key]

/-- C2, at the example schedule of three producers whose weights sum exactly
to the thresholds: it is accepted with the version of the consensus layer. -/
theorem C2_valid_schedule_accepted_witness :
    set_proposed_producers_common example_externals (example_context false)
      example_schedule true =
      (.ok 3, { example_context false with control := { (example_context false).control with
          proposed_producers := [example_schedule] } }) :=
  (C2_valid_schedule_accepted example_externals (example_context false) example_schedule true
    (by decide) (by decide) (by decide) example_schedule_invariant).1

/-- C3: starting from a schedule that `set_proposed_producers_common` accepts,
a change of one authority that breaks one invariant makes the call fail, with
nothing handed off: threshold 0, a duplicate of one of its keys, or a
threshold above the sum of its weights fail with `wasm_execution_error`
(zero threshold, duplicated key, unsatisfiable authority); a key replaced by
one of a scheme index not below `num_supported_key_types` fails with
`unactivated_key_type`. -/
theorem C3_single_violation_rejected (E : externals T) (context : apply_context T)
    (validate_keys : Bool) (pre : List producer_authority) (p : producer_authority)
    (post : List producer_authority)
    (h : succeeded (set_proposed_producers_common E context (pre ++ p :: post) validate_keys)) :
    set_proposed_producers_common E context
        (pre ++ ⟨p.producer_name, .v0 ⟨0, p.v0.keys⟩⟩ :: post) validate_keys =
      (.error ⟨.wasm_execution_error, .producer_zero_threshold p.producer_name⟩, context) ∧
    (∀ (ks1 ks2 : List key_weight) (k : public_key) (w : Nat),
      p.v0.keys = ks1 ++ ks2 → k ∈ p.v0.keys.map (fun kw => kw.key) →
      set_proposed_producers_common E context
          (pre ++ ⟨p.producer_name, .v0 ⟨p.v0.threshold, ks1 ++ ⟨k, w⟩ :: ks2⟩⟩ :: post)
          validate_keys =
        (.error ⟨.wasm_execution_error, .producer_duplicated_key p.producer_name⟩, context)) ∧
    (∀ t : Nat, weight_sum p.v0.keys < t →
      set_proposed_producers_common E context
          (pre ++ ⟨p.producer_name, .v0 ⟨t, p.v0.keys⟩⟩ :: post) validate_keys =
        (.error ⟨.wasm_execution_error, .producer_unsatisfiable p.producer_name⟩, context)) ∧
    (∀ (ks1 : List key_weight) (kw : key_weight) (ks2 : List key_weight) (kw2 : key_weight),
      p.v0.keys = ks1 ++ kw :: ks2 →
      ¬ (kw2.key.which < context.db.num_supported_key_types) →
      set_proposed_producers_common E context
          (pre ++ ⟨p.producer_name, .v0 ⟨p.v0.threshold, ks1 ++ kw2 :: ks2⟩⟩ :: post)
          validate_keys =
        (.error ⟨.unactivated_key_type, .producer_unactivated_key⟩, context)) := by
  obtain ⟨hmax, -, hpass, -⟩ := common_accepted_inv E context _ validate_keys h
  have hpre : ∀ q ∈ pre, producer_passes E context validate_keys q :=
    fun q hq => hpass q (List.mem_append_left _ hq)
  obtain ⟨hacc, hkeys, hnd, hthr, hsum⟩ :=
    hpass p (List.mem_append_right _ (List.mem_cons_self p post))
  have hlen : ∀ q : producer_authority, (pre ++ q :: post).length ≤ E.max_producers := by
    intro q
    simpa using hmax
  refine ⟨?_, ?_, ?_, ?_⟩
  · refine common_rejects_at E context validate_keys pre
      ⟨p.producer_name, .v0 ⟨0, p.v0.keys⟩⟩ post _ (hlen _) hpre hacc ?_
    rw [check_authority_of_pass _ _ _ p.producer_name ⟨0, p.v0.keys⟩ hkeys]
    simp [hnd]
  · intro ks1 ks2 k w hsplit hk
    refine common_rejects_at E context validate_keys pre
      ⟨p.producer_name, .v0 ⟨p.v0.threshold, ks1 ++ ⟨k, w⟩ :: ks2⟩⟩ post _ (hlen _) hpre hacc ?_
    obtain ⟨kw0, hkw0, hkey⟩ := List.mem_map.mp hk
    have hpass2 : ∀ x ∈ ks1 ++ ⟨k, w⟩ :: ks2,
        key_passes E.public_key_valid context.db.num_supported_key_types validate_keys x := by
      intro x hx
      rcases List.mem_append.mp hx with hx1 | hx2
      · exact hkeys x (by rw [hsplit]; exact List.mem_append_left _ hx1)
      · rcases List.mem_cons.mp hx2 with hx3 | hx3
        · have h0 := hkeys kw0 hkw0
          subst hx3
          simp only [key_passes] at h0 ⊢
          rw [← hkey]
          exact h0
        · exact hkeys x (by rw [hsplit]; exact List.mem_append_right _ hx3)
    rw [check_authority_of_pass _ _ _ _ _ hpass2]
    have hdup : ¬ ((ks1 ++ (⟨k, w⟩ : key_weight) :: ks2).map (fun kw => kw.key)).Nodup := by
      intro hc
      rw [List.map_append, List.map_cons] at hc
      have hmem : k ∈ ks1.map (fun kw => kw.key) ∨ k ∈ ks2.map (fun kw => kw.key) := by
        rw [hsplit, List.map_append] at hk
        exact List.mem_append.mp hk
      have h1 := List.nodup_append.mp hc
      rcases hmem with hm | hm
      · exact h1.2.2 hm (List.mem_cons_self _ _) 
      · exact (List.nodup_cons.mp h1.2.1).1 hm
    simp only [if_pos hdup]
  · intro t ht
    refine common_rejects_at E context validate_keys pre
      ⟨p.producer_name, .v0 ⟨t, p.v0.keys⟩⟩ post _ (hlen _) hpre hacc ?_
    rw [check_authority_of_pass _ _ _ p.producer_name ⟨t, p.v0.keys⟩ hkeys]
    have h1 : ¬ (min (weight_sum p.v0.keys) uint32_max ≥ t) := by omega
    have h2 : t > 0 := by omega
    simp only [hnd, not_true_eq_false, if_false, h2, h1, not_false_eq_true, if_true]
  · intro ks1 kw ks2 kw2 hsplit hkw2
    refine common_rejects_at E context validate_keys pre
      ⟨p.producer_name, .v0 ⟨p.v0.threshold, ks1 ++ kw2 :: ks2⟩⟩ post _ (hlen _) hpre hacc ?_
    apply check_authority_unactivated _ _ _ _ _ _ _ _ hkw2
    intro x hx
    exact hkeys x (by rw [hsplit]; exact List.mem_append_left _ hx)

/-- C3, at the example schedule: with the threshold of the last authority set
to 0 the call fails with the zero-threshold `wasm_execution_error`, and with
its second key replaced by a key of scheme 2 (two schemes are activated) it
fails with `unactivated_key_type`. -/
theorem C3_single_violation_rejected_witness :
    succeeded (set_proposed_producers_common example_externals (example_context false)
      (example_front ++ example_last :: []) true) ∧
    set_proposed_producers_common example_externals (example_context false)
        (example_front ++ ⟨3, .v0 ⟨0, example_last.v0.keys⟩⟩ :: []) true =
      (.error ⟨.wasm_execution_error, .producer_zero_threshold 3⟩, example_context false) ∧
    set_proposed_producers_common example_externals (example_context false)
        (example_front ++
          ⟨3, .v0 ⟨5, [⟨example_key 0 30, 2⟩] ++ ⟨example_key 2 31, 2⟩ ::
            [⟨example_key 1 32, 1⟩]⟩⟩ :: []) true =
      (.error ⟨.unactivated_key_type, .producer_unactivated_key⟩, example_context false) :=
  ⟨⟨3, rfl⟩,
   (C3_single_violation_rejected example_externals (example_context false) true
      example_front example_last [] ⟨3, rfl⟩).1,
   (C3_single_violation_rejected example_externals (example_context false) true
      example_front example_last [] ⟨3, rfl⟩).2.2.2
      [⟨example_key 0 30, 2⟩] ⟨example_key 0 31, 2⟩ [⟨example_key 1 32, 1⟩]
      ⟨example_key 2 31, 2⟩ rfl (by decide)⟩

/-- C4: the accumulator `sum_weights` of the key loop ends at the minimum of
the exact sum of the weights and 2^32 - 1, for every key list: the loop, when
every key passes its assertions, returns that value, and an authority the
visitor accepts has a threshold of at most the exact sum of its weights. -/
theorem C4_saturating_weight_sum :
    (∀ keys : List key_weight,
      (keys.map (fun kw => kw.weight)).foldl add_weight 0 =
        min (weight_sum keys) (2 ^ 32 - 1)) ∧
    (∀ (valid : public_key → Bool) (n : Nat) (validate_keys : Bool) (keys : List key_weight),
      (∀ kw ∈ keys, key_passes valid n validate_keys kw) →
      check_keys valid n validate_keys keys 0 [] =
        .ok (min (weight_sum keys) (2 ^ 32 - 1), insert_all [] (keys.map (fun kw => kw.key)))) ∧
    (∀ (valid : public_key → Bool) (n : Nat) (validate_keys : Bool) (p : producer_authority),
      check_authority valid n validate_keys p = .ok () →
        p.v0.threshold ≤ weight_sum p.v0.keys) := by
  have h32 : (2 ^ 32 - 1 : Nat) = uint32_max := by unfold uint32_max; norm_num
  refine ⟨?_, ?_, ?_⟩
  · intro keys
    rw [h32]
    exact check_keys_sum keys
  · intro valid n vk keys hp
    rw [check_keys_of_pass valid n vk keys 0 [] hp, check_keys_sum, h32]
  · intro valid n vk p hok
    have h := ((check_authority_ok_iff valid n vk p).mp hok).2.2.2
    exact Nat.le_trans h (Nat.min_le_left _ _)

/-- C4, at the last authority of the example schedule: it is accepted, and
its threshold 5 is at most the sum 2 + 2 + 1 of its weights. -/
theorem C4_saturating_weight_sum_witness :
    check_authority example_externals.public_key_valid 2 true example_last = .ok () ∧
    example_last.v0.threshold ≤ weight_sum example_last.v0.keys :=
  ⟨rfl, C4_saturating_weight_sum.2.2 example_externals.public_key_valid 2 true example_last rfl⟩

/-- C5: a schedule of more than `max_producers` entries is rejected by
`set_proposed_producers_common` whatever its entries and `validate_keys` are,
with nothing handed off; a schedule of exactly `max_producers` entries (a
positive constant) with pairwise distinct names of existing accounts and
authorities satisfying the Authority invariant is accepted and handed off. -/
theorem C5_size_limit (E : externals T) (context : apply_context T) :
    (∀ (producers : List producer_authority) (validate_keys : Bool),
      producers.length > E.max_producers →
      set_proposed_producers_common E context producers validate_keys =
        (.error ⟨.wasm_execution_error, .producer_schedule_exceeds_max⟩, context)) ∧
    (∀ (producers : List producer_authority) (validate_keys : Bool),
      0 < E.max_producers → producers.length = E.max_producers →
      (producer_names producers).Nodup →
      (∀ p ∈ producers, context.is_account p.producer_name = true) →
      (∀ p ∈ producers, authority_invariant E context p) →
      set_proposed_producers_common E context producers validate_keys =
        (.ok (context.control.proposed_producers_version producers),
         handed_off context producers)) := by
  constructor
  · intro producers vk hlen
    unfold set_proposed_producers_common
    rw [if_pos (by omega)]
  · intro producers vk hpos hlen hnames hacc hinv
    exact common_accepts E context producers vk (by omega) (Or.inl (by omega))
      (fun p hp => producer_passes_of_invariant E context vk p (hacc p hp) (hinv p hp)) hnames

/-- C5, with `max_producers = 3`: the example schedule of three entries is
accepted, and the same schedule with a fourth entry in front is rejected. -/
theorem C5_size_limit_witness :
    set_proposed_producers_common example_externals (example_context false)
        (⟨4, .v0 ⟨1, [⟨example_key 0 40, 1⟩]⟩⟩ :: example_schedule) false =
      (.error ⟨.wasm_execution_error, .producer_schedule_exceeds_max⟩, example_context false) ∧
    set_proposed_producers_common example_externals (example_context false)
        example_schedule false =
      (.ok 3, handed_off (example_context false) example_schedule) :=
  ⟨(C5_size_limit example_externals (example_context false)).1 _ false (by decide),
   (C5_size_limit example_externals (example_context false)).2 example_schedule false
     (by decide) (by decide) (by decide) (by decide) example_schedule_invariant⟩

/-- The common routine on the empty schedule: the size bound holds, the loop
does nothing, and only the assertion on emptiness decides. -/
theorem common_nil (E : externals T) (context : apply_context T) (vk : Bool) :
    set_proposed_producers_common E context [] vk =
      if context.control.disallow_empty_producer_schedule = true then
        (.error ⟨.wasm_execution_error, .producer_schedule_empty⟩, context)
      else
        (.ok (context.control.proposed_producers_version []), handed_off context []) := by
  unfold set_proposed_producers_common
  by_cases hd : context.control.disallow_empty_producer_schedule = true
  · simp [hd]
  · simp [hd, check_producers, handed_off, controller.set_proposed_producers]

theorem common_nil_outcome (E : externals T) (context : apply_context T) (vk : Bool) :
    empty_schedule_outcome context (set_proposed_producers_common E context [] vk) := by
  rw [common_nil]
  unfold empty_schedule_outcome succeeded
  cases hd : context.control.disallow_empty_producer_schedule
  · simp [handed_off, controller.set_proposed_producers]
  · simp

/-- C6: in a non-read-only context a payload that decodes to the empty
schedule, in wire format 0 (through `set_proposed_producers` or
`set_proposed_producers_ex`) or in wire format 1, succeeds exactly when the
feature `disallow_empty_producer_schedule` is not activated; when it succeeds
the empty schedule is handed to the consensus layer, and otherwise the call
fails with the empty-schedule error and nothing is handed off. -/
theorem C6_empty_schedule (E : externals T) (context : apply_context T)
    (hro : context.trx_context.is_read_only = false) :
    (∀ packed, E.unpack_producer_keys packed = .ok [] →
      empty_schedule_outcome context (set_proposed_producers E context packed) ∧
      empty_schedule_outcome context (set_proposed_producers_ex E context 0 packed)) ∧
    (∀ packed, E.unpack_producer_authorities packed = .ok [] →
      empty_schedule_outcome context (set_proposed_producers_ex E context 1 packed)) := by
  constructor
  · intro packed hdec
    have h0 : set_proposed_producers E context packed =
        set_proposed_producers_common E context [] true := by
      simp [set_proposed_producers, hro, hdec, up_convert]
    have h1 : set_proposed_producers_ex E context 0 packed =
        set_proposed_producers_common E context [] true := by
      simp [set_proposed_producers_ex, hro, h0]
    rw [h0, h1]
    exact ⟨common_nil_outcome E context true, common_nil_outcome E context true⟩
  · intro packed hdec
    have h1 : set_proposed_producers_ex E context 1 packed =
        set_proposed_producers_common E context [] false := by
      simp [set_proposed_producers_ex, hro, hdec]
    rw [h1]
    exact common_nil_outcome E context false

/-- C6, at the example context, where the feature is activated: the empty
payload decodes to the empty schedule in both formats and is rejected. -/
theorem C6_empty_schedule_witness :
    (example_context false).trx_context.is_read_only = false ∧
    example_externals.unpack_producer_authorities [] = .ok [] ∧
    set_proposed_producers_ex example_externals (example_context false) 1 [] =
      (.error ⟨.wasm_execution_error, .producer_schedule_empty⟩, example_context false) ∧
    set_proposed_producers_ex example_externals (example_context false) 0 [] =
      (.error ⟨.wasm_execution_error, .producer_schedule_empty⟩, example_context false) :=
  ⟨rfl, rfl,
   ((C6_empty_schedule example_externals (example_context false) rfl).2 [] rfl).2.2 rfl,
   ((C6_empty_schedule example_externals (example_context false) rfl).1 [] rfl).2.2.2 rfl⟩

/-- C7, as stated, fails: a schedule whose two entries carry the same name
of an existing account, with a key of an unactivated scheme, is rejected with
`unactivated_key_type`, which is not the `wasm_execution_error` of the
invalid-authority errors. -/
theorem C7_counterexample :
    ¬ (producer_names example_duplicate_unactivated).Nodup ∧
    (∀ p ∈ example_duplicate_unactivated,
      (example_context false).is_account p.producer_name = true) ∧
    set_proposed_producers_common example_externals (example_context false)
        example_duplicate_unactivated false =
      (.error ⟨.unactivated_key_type, .producer_unactivated_key⟩, example_context false) ∧
    ¬ (∃ m, (set_proposed_producers_common example_externals (example_context false)
        example_duplicate_unactivated false).1 = .error ⟨.wasm_execution_error, m⟩) := by
  refine ⟨by decide, by decide, rfl, ?_⟩
  rintro ⟨m, hm⟩
  have h : (set_proposed_producers_common example_externals (example_context false)
      example_duplicate_unactivated false).1 =
      .error ⟨.unactivated_key_type, .producer_unactivated_key⟩ := rfl
  rw [h] at hm
  cases hm

/-- C7, amended: a schedule in which two entries carry the same producer name
is rejected by `set_proposed_producers_common` and nothing is handed to the
consensus layer; the exception is a `wasm_execution_error`, or
`unactivated_key_type` when the schedule holds a key whose scheme index is not
below `num_supported_key_types`; when the size is within `max_producers`,
every account exists and the visitor accepts every authority, it is the
duplicate-producer-name `wasm_execution_error`. -/
theorem C7_duplicate_names_rejected (E : externals T) (context : apply_context T)
    (producers : List producer_authority) (validate_keys : Bool)
    (hdup : ¬ (producer_names producers).Nodup) :
    (∃ e, set_proposed_producers_common E context producers validate_keys =
        (.error e, context) ∧
      (e.type = .wasm_execution_error ∨
        (e = ⟨.unactivated_key_type, .producer_unactivated_key⟩ ∧
          ∃ p ∈ producers, ∃ kw ∈ p.v0.keys,
            ¬ (kw.key.which < context.db.num_supported_key_types)))) ∧
    (producers.length ≤ E.max_producers →
      (∀ p ∈ producers, context.is_account p.producer_name = true) →
      (∀ p ∈ producers, check_authority E.public_key_valid
        context.db.num_supported_key_types validate_keys p = .ok ()) →
      set_proposed_producers_common E context producers validate_keys =
        (.error ⟨.wasm_execution_error, .duplicate_producer_name⟩, context)) := by
  have hlen : ¬ (producers.length = (insert_all [] (producer_names producers)).length) := by
    intro hc
    apply hdup
    rw [← length_insert_all_nil_eq_iff, producer_names, List.length_map]
    exact hc
  have hne : producers.length > 0 := by
    cases producers with
    | nil => exact absurd List.nodup_nil hdup
    | cons q l => simp
  constructor
  · unfold set_proposed_producers_common
    by_cases hmax : producers.length ≤ E.max_producers
    · rw [if_neg (not_not.mpr hmax), if_neg (not_not.mpr (Or.inl hne))]
      cases hcp : check_producers E context validate_keys producers [] with
      | error e =>
        exact ⟨e, rfl, check_producers_error E context validate_keys producers [] e hcp⟩
      | ok u =>
        have hpass := check_producers_pass_of_ok E context validate_keys producers [] u hcp
        rw [check_producers_of_pass E context validate_keys producers [] hpass] at hcp
        have hu : u = insert_all [] (producer_names producers) := by cases hcp; rfl
        subst hu
        simp only [if_pos hlen]
        exact ⟨_, rfl, Or.inl rfl⟩
    · rw [if_pos hmax]
      exact ⟨_, rfl, Or.inl rfl⟩
  · intro hmax hacc hauth
    have hpass : ∀ p ∈ producers, producer_passes E context validate_keys p :=
      fun p hp => ⟨hacc p hp, (check_authority_ok_iff _ _ _ p).mp (hauth p hp)⟩
    unfold set_proposed_producers_common
    rw [if_neg (not_not.mpr hmax), if_neg (not_not.mpr (Or.inl hne)),
      check_producers_of_pass E context validate_keys producers [] hpass]
    simp only [if_pos hlen]

/-- C7, amended, at the first two entries of the example schedule
followed by a copy of the first: every authority passes, the names
1, 2, 1 are not distinct, and the call fails with the duplicate-producer-name
error. -/
theorem C7_duplicate_names_rejected_witness :
    ¬ (producer_names (example_front ++ example_front.take 1)).Nodup ∧
    set_proposed_producers_common example_externals (example_context false)
        (example_front ++ example_front.take 1) true =
      (.error ⟨.wasm_execution_error, .duplicate_producer_name⟩, example_context false) :=
  ⟨by decide,
   (C7_duplicate_names_rejected example_externals (example_context false)
      (example_front ++ example_front.take 1) true (by decide)).2
      (by decide) (by decide)
      (by
        intro p hp
        simp only [example_front, List.take, List.cons_append, List.nil_append, List.mem_cons,
          List.mem_singleton, List.not_mem_nil, or_false] at hp
        rcases hp with rfl | rfl | rfl <;> rfl)⟩

theorem up_convert_eq (old_version : List producer_key) :
    ∀ producers : List producer_authority,
      up_convert old_version producers = producers ++ legacy_as_authorities old_version := by
  induction old_version with
  | nil => intro producers; simp [up_convert, legacy_as_authorities]
  | cons p rest ih =>
    intro producers
    rw [up_convert, ih]
    simp [legacy_as_authorities]

theorem set_proposed_producers_decoded (E : externals T) (context : apply_context T)
    (packed : bytes) (old_version : List producer_key)
    (hro : context.trx_context.is_read_only = false)
    (hdec : E.unpack_producer_keys packed = .ok old_version) :
    set_proposed_producers E context packed =
      set_proposed_producers_common E context (legacy_as_authorities old_version) true := by
  simp [set_proposed_producers, hro, hdec, up_convert_eq]

/-- C8: for every legacy list that `set_proposed_producers` decodes (the
decoder runs once the read-only assertion has passed), the call, made directly
or through `set_proposed_producers_ex` with format 0, has exactly the outcome
of `set_proposed_producers_common` with `validate_keys = true` on the
format-1 equivalent of the list: same result or exception, same hand-off. -/
theorem C8_legacy_up_conversion (E : externals T) (context : apply_context T)
    (packed : bytes) (old_version : List producer_key)
    (hro : context.trx_context.is_read_only = false)
    (hdec : E.unpack_producer_keys packed = .ok old_version) :
    set_proposed_producers E context packed =
      set_proposed_producers_common E context (legacy_as_authorities old_version) true ∧
    set_proposed_producers_ex E context 0 packed =
      set_proposed_producers_common E context (legacy_as_authorities old_version) true := by
  have h0 := set_proposed_producers_decoded E context packed old_version hro hdec
  refine ⟨h0, ?_⟩
  simp [set_proposed_producers_ex, hro, h0]

/-- C8, at the example payload of the producers 1, 2, 3: the legacy call is
the common routine on the three single-key authorities, and is accepted. -/
theorem C8_legacy_up_conversion_witness :
    example_externals.unpack_producer_keys [1, 2, 3] =
      .ok [⟨1, ⟨0, [1]⟩⟩, ⟨2, ⟨0, [2]⟩⟩, ⟨3, ⟨0, [3]⟩⟩] ∧
    set_proposed_producers example_externals (example_context false) [1, 2, 3] =
      set_proposed_producers_common example_externals (example_context false)
        [⟨1, .v0 ⟨1, [⟨⟨0, [1]⟩, 1⟩]⟩⟩, ⟨2, .v0 ⟨1, [⟨⟨0, [2]⟩, 1⟩]⟩⟩,
         ⟨3, .v0 ⟨1, [⟨⟨0, [3]⟩, 1⟩]⟩⟩] true ∧
    (set_proposed_producers example_externals (example_context false) [1, 2, 3]).1 = .ok 3 :=
  ⟨rfl,
   (C8_legacy_up_conversion example_externals (example_context false) [1, 2, 3]
      [⟨1, ⟨0, [1]⟩⟩, ⟨2, ⟨0, [2]⟩⟩, ⟨3, ⟨0, [3]⟩⟩] rfl rfl).1,
   rfl⟩

theorem check_keys_validity_irrelevant (valid valid2 : public_key → Bool) (n : Nat)
    (l : List key_weight) :
    ∀ (s : Nat) (u : List public_key),
      check_keys valid2 n false l s u = check_keys valid n false l s u := by
  induction l with
  | nil => intro s u; rfl
  | cons kw l ih =>
    intro s u
    simp only [check_keys, Bool.false_eq_true, false_and, if_false]
    rw [ih]

theorem check_producers_validity_irrelevant (E : externals T) (valid2 : public_key → Bool)
    (context : apply_context T) (l : List producer_authority) :
    ∀ u : List account_name,
      check_producers { E with public_key_valid := valid2 } context false l u =
        check_producers E context false l u := by
  induction l with
  | nil => intro u; rfl
  | cons p l ih =>
    intro u
    have hca : check_authority valid2 context.db.num_supported_key_types false p =
        check_authority E.public_key_valid context.db.num_supported_key_types false p := by
      simp only [check_authority]
      rw [check_keys_validity_irrelevant E.public_key_valid valid2]
    simp only [check_producers, hca, ih]

theorem legacy_entry_passes (E : externals T) (context : apply_context T) (q : producer_key)
    (h : producer_passes E context true
      ⟨q.producer_name, .v0 ⟨1, [⟨q.block_signing_key, 1⟩]⟩⟩) :
    E.public_key_valid q.block_signing_key = true :=
  (h.2.1 ⟨q.block_signing_key, 1⟩ (List.mem_singleton.mpr rfl)).2 rfl

/-- C9: for wire format 1 the structural validity of keys is not looked at:
with any other validity check in place of `public_key::valid()`,
`set_proposed_producers_ex` has the same outcome on every format-1 payload;
so in a non-read-only context a format-1 schedule that satisfies every
requirement but validity (whatever the validity of its keys) is accepted and
handed off, whereas a format-0 payload holding a key that is not valid is
rejected, through `set_proposed_producers_ex` and `set_proposed_producers`. -/
theorem C9_format_1_ignores_key_validity (E : externals T) (context : apply_context T) :
    (∀ (valid2 : public_key → Bool) (packed : bytes),
      set_proposed_producers_ex { E with public_key_valid := valid2 } context 1 packed =
        set_proposed_producers_ex E context 1 packed) ∧
    (∀ (packed : bytes) (producers : List producer_authority),
      context.trx_context.is_read_only = false →
      E.unpack_producer_authorities packed = .ok producers →
      1 ≤ producers.length ∧ producers.length ≤ E.max_producers →
      (producer_names producers).Nodup →
      (∀ p ∈ producers, context.is_account p.producer_name = true) →
      (∀ p ∈ producers, authority_invariant_without_validity context p) →
      set_proposed_producers_ex E context 1 packed =
        (.ok (context.control.proposed_producers_version producers),
         handed_off context producers)) ∧
    (∀ (packed : bytes) (old_version : List producer_key),
      E.unpack_producer_keys packed = .ok old_version →
      (∃ q ∈ old_version, E.public_key_valid q.block_signing_key = false) →
      ¬ succeeded (set_proposed_producers_ex E context 0 packed) ∧
      ¬ succeeded (set_proposed_producers E context packed)) := by
  refine ⟨?_, ?_, ?_⟩
  · intro valid2 packed
    simp only [set_proposed_producers_ex]
    split
    · rfl
    · simp only [one_ne_zero, if_false, if_true]
      cases hdec : E.unpack_producer_authorities packed with
      | error e => rfl
      | ok producers =>
        simp only [set_proposed_producers_common]
        rw [check_producers_validity_irrelevant E valid2 context producers []]
  · intro packed producers hro hdec hsize hnames hacc hinv
    have hpass : ∀ p ∈ producers, producer_passes E context false p := by
      intro p hp
      obtain ⟨hwf, ht, hnd, hk, hs⟩ := hinv p hp
      refine ⟨hacc p hp, fun kw hkw => ⟨hk kw hkw, fun hc => absurd hc (by decide)⟩,
        hnd, ht, ?_⟩
      have h32 := hwf.1
      unfold uint32_max
      omega
    simp only [set_proposed_producers_ex, hro, hdec]
    simpa using common_accepts E context producers false hsize.2 (Or.inl hsize.1) hpass hnames
  · intro packed old_version hdec hbad
    obtain ⟨q, hq, hqv⟩ := hbad
    have hcommon : ¬ succeeded
        (set_proposed_producers_common E context (legacy_as_authorities old_version) true) := by
      intro hs
      obtain ⟨-, -, hpass, -⟩ := common_accepted_inv E context _ true hs
      have hmem : (⟨q.producer_name, .v0 ⟨1, [⟨q.block_signing_key, 1⟩]⟩⟩ : producer_authority) ∈
          legacy_as_authorities old_version :=
        List.mem_map.mpr ⟨q, hq, rfl⟩
      have hvalid := legacy_entry_passes E context q (hpass _ hmem)
      rw [hqv] at hvalid
      cases hvalid
    have hdirect : ¬ succeeded (set_proposed_producers E context packed) := by
      cases hro : context.trx_context.is_read_only with
      | true =>
        rintro ⟨v, hv⟩
        simp [set_proposed_producers, hro] at hv
      | false =>
        rw [(set_proposed_producers_decoded E context packed old_version hro hdec)]
        exact hcommon
    refine ⟨?_, hdirect⟩
    cases hro : context.trx_context.is_read_only with
    | true =>
      rintro ⟨v, hv⟩
      simp [set_proposed_producers_ex, hro] at hv
    | false =>
      have h1 : set_proposed_producers_ex E context 0 packed =
          set_proposed_producers E context packed := by
        simp [set_proposed_producers_ex, hro]
      rw [h1]
      exact hdirect

theorem example_invalid_key_schedule_invariant :
    ∀ p ∈ example_invalid_key_schedule,
      authority_invariant_without_validity (example_context false) p := by
  intro p hp
  simp only [example_invalid_key_schedule, List.mem_cons, List.mem_singleton,
    List.not_mem_nil, or_false] at hp
  rcases hp with rfl | rfl | rfl <;>
    simp [authority_invariant_without_validity, producer_authority.v0,
      block_signing_authority_v0.wf, weight_sum, example_context]

/-- C9, at the example data: the key of scheme 0 with empty content is not
valid; the format-1 schedule of the producers 1, 2, 3 with that key is
accepted, and the format-0 payload of the producer 5 with that key is
rejected. -/
theorem C9_format_1_ignores_key_validity_witness :
    example_externals.public_key_valid ⟨0, []⟩ = false ∧
    example_externals.unpack_producer_authorities [1, 2, 3] = .ok example_invalid_key_schedule ∧
    set_proposed_producers_ex example_externals (example_context false) 1 [1, 2, 3] =
      (.ok 3, handed_off (example_context false) example_invalid_key_schedule) ∧
    example_externals.unpack_producer_keys [5] = .ok [⟨5, ⟨0, []⟩⟩] ∧
    ¬ succeeded (set_proposed_producers_ex example_externals (example_context false) 0 [5]) :=
  ⟨rfl, rfl,
   (C9_format_1_ignores_key_validity example_externals (example_context false)).2.1
      [1, 2, 3] example_invalid_key_schedule rfl rfl (by decide) (by decide) (by decide)
      example_invalid_key_schedule_invariant,
   rfl,
   ((C9_format_1_ignores_key_validity example_externals (example_context false)).2.2
      [5] [⟨5, ⟨0, []⟩⟩] rfl ⟨⟨5, ⟨0, []⟩⟩, List.mem_singleton.mpr rfl, rfl⟩).1⟩

/-- C10: in a non-read-only context `set_proposed_producers_ex` with a format
discriminant other than 0 and 1 fails with the unknown-format
`wasm_execution_error`, whatever the payload and whatever the decoders would
do on it, and the context is left as it was: nothing is handed off. -/
theorem C10_unknown_format (E : externals T) (context : apply_context T)
    (packed_producer_format : Nat) (packed : bytes)
    (hro : context.trx_context.is_read_only = false)
    (h0 : packed_producer_format ≠ 0) (h1 : packed_producer_format ≠ 1) :
    set_proposed_producers_ex E context packed_producer_format packed =
      (.error ⟨.wasm_execution_error, .unknown_producer_format⟩, context) := by
  simp [set_proposed_producers_ex, hro, h0, h1]

/-- C10, at the format discriminants 2 and 2^64 - 1 in the example context. -/
theorem C10_unknown_format_witness :
    set_proposed_producers_ex example_externals (example_context false) 2 [1, 2, 3] =
      (.error ⟨.wasm_execution_error, .unknown_producer_format⟩, example_context false) ∧
    set_proposed_producers_ex example_externals (example_context false)
        18446744073709551615 [] =
      (.error ⟨.wasm_execution_error, .unknown_producer_format⟩, example_context false) :=
  ⟨C10_unknown_format example_externals (example_context false) 2 [1, 2, 3] rfl
     (by decide) (by decide),
   C10_unknown_format example_externals (example_context false) 18446744073709551615 [] rfl
     (by decide) (by decide)⟩

/-- The key loop stops with `unactivated_key_type` at a key of an unactivated
scheme when every key before it is valid. -/
theorem check_keys_unactivated_of_valid (valid : public_key → Bool) (n : Nat) (vk : Bool)
    (l1 : List key_weight) (kw : key_weight) (l2 : List key_weight)
    (hkw : ¬ (kw.key.which < n)) :
    ∀ (s : Nat) (u : List public_key), (∀ x ∈ l1, valid x.key = true) →
      check_keys valid n vk (l1 ++ kw :: l2) s u =
        .error ⟨.unactivated_key_type, .producer_unactivated_key⟩ := by
  induction l1 with
  | nil => intro s u _; rw [List.nil_append, check_keys, if_pos hkw]
  | cons k l1 ih =>
    intro s u h
    have hk := h k (List.mem_cons_self k l1)
    have hl : ∀ x ∈ l1, valid x.key = true := fun x hx => h x (List.mem_cons_of_mem k hx)
    rw [List.cons_append, check_keys]
    by_cases h1 : k.key.which < n
    · rw [if_neg (not_not.mpr h1), if_neg (fun hc => hc.2 hk), ih _ _ hl]
    · rw [if_pos h1]

/-- An authority with a key whose scheme index is not below
`num_supported_key_types` is always rejected by the visitor, whatever its
other keys, weights and threshold; the exception is `unactivated_key_type`
when `validate_keys` is false, and also when every key before such a key is
valid. -/
theorem check_authority_unactivated_cases (valid : public_key → Bool) (n : Nat) (validate_keys : Bool)
    (name : account_name) (a : block_signing_authority_v0)
    (h : ∃ kw ∈ a.keys, ¬ (kw.key.which < n)) :
    (∃ e, check_authority valid n validate_keys ⟨name, .v0 a⟩ = .error e ∧
      (e = ⟨.unactivated_key_type, .producer_unactivated_key⟩ ∨
        (validate_keys = true ∧ e = ⟨.wasm_execution_error, .producer_invalid_key⟩))) ∧
    (validate_keys = false →
      check_authority valid n validate_keys ⟨name, .v0 a⟩ =
        .error ⟨.unactivated_key_type, .producer_unactivated_key⟩) ∧
    (∀ (l1 : List key_weight) (kw : key_weight) (l2 : List key_weight),
      a.keys = l1 ++ kw :: l2 → ¬ (kw.key.which < n) → (∀ x ∈ l1, valid x.key = true) →
      check_authority valid n validate_keys ⟨name, .v0 a⟩ =
        .error ⟨.unactivated_key_type, .producer_unactivated_key⟩) := by
  have hfirst : ∃ e, check_authority valid n validate_keys ⟨name, .v0 a⟩ = .error e ∧
      (e = ⟨.unactivated_key_type, .producer_unactivated_key⟩ ∨
        (validate_keys = true ∧ e = ⟨.wasm_execution_error, .producer_invalid_key⟩)) := by
    simp only [check_authority]
    cases hck : check_keys valid n validate_keys a.keys 0 [] with
    | error e =>
      refine ⟨e, rfl, ?_⟩
      rcases check_keys_error valid n validate_keys a.keys 0 [] e hck with
        ⟨he, -⟩ | ⟨he, hv, -⟩
      · exact Or.inl he
      · exact Or.inr ⟨hv, he⟩
    | ok r =>
      obtain ⟨kw, hkw, hw⟩ := h
      exact absurd (check_keys_pass_of_ok valid n validate_keys a.keys 0 [] r hck kw hkw).1 hw
  refine ⟨hfirst, ?_, ?_⟩
  · intro hvk
    obtain ⟨e, he, hcase⟩ := hfirst
    rcases hcase with h1 | ⟨h1, -⟩
    · rw [he, h1]
    · rw [hvk] at h1; cases h1
  · intro l1 kw l2 hsplit hkw hvalid
    simp only [check_authority]
    rw [hsplit, check_keys_unactivated_of_valid valid n validate_keys l1 kw l2 hkw 0 [] hvalid]

theorem check_producers_with_transient (E : externals T) (context : apply_context T) (b : Bool)
    (vk : Bool) (l : List producer_authority) :
    ∀ u : List account_name,
      check_producers E (with_transient context b) vk l u = check_producers E context vk l u := by
  induction l with
  | nil => intro u; rfl
  | cons p l ih =>
    intro u
    simp only [check_producers, ih]
    rfl

theorem check_finalizers_with_transient (E : externals T) (context : apply_context T)
    (b : Bool) (l : List finalizer_authority) :
    ∀ u : List account_name,
      check_finalizers E (with_transient context b) l u = check_finalizers E context l u := by
  induction l with
  | nil => intro u; rfl
  | cons f l ih =>
    intro u
    simp only [check_finalizers, ih]
    rfl

/-- The common routine does not look at the transient mark. -/
theorem common_with_transient (E : externals T) (context : apply_context T) (b : Bool)
    (producers : List producer_authority) (vk : Bool) :
    (set_proposed_producers_common E (with_transient context b) producers vk).1 =
      (set_proposed_producers_common E context producers vk).1 := by
  simp only [set_proposed_producers_common, check_producers_with_transient]
  have hd : (with_transient context b).control = context.control := rfl
  rw [hd]
  split
  · rfl
  · split
    · rfl
    · cases check_producers E context vk producers [] with
      | error e => rfl
      | ok u =>
        simp only
        split <;> rfl

theorem set_proposed_producers_with_transient (E : externals T) (context : apply_context T)
    (b : Bool) (packed : bytes) :
    (set_proposed_producers E (with_transient context b) packed).1 =
      (set_proposed_producers E context packed).1 := by
  simp only [set_proposed_producers]
  have hr : (with_transient context b).trx_context.is_read_only =
      context.trx_context.is_read_only := rfl
  rw [hr]
  split
  · rfl
  · cases E.unpack_producer_keys packed with
    | error e => rfl
    | ok old => exact common_with_transient E context b _ true

/-- C12, as stated, fails: in the example context of a transaction marked
transient and not read-only, `set_resource_limits`, the format-1 schedule
proposal and `set_privileged` succeed. -/
theorem C12_counterexample :
    example_transient_context.trx_context.is_transient = true ∧
    example_transient_context.trx_context.is_read_only = false ∧
    (set_resource_limits example_transient_context 1 (-1) 0 5).1 = .ok () ∧
    (set_proposed_producers_ex example_externals example_transient_context 1 [1, 2, 3]).1 =
      .ok 3 ∧
    (set_privileged example_externals example_transient_context 1 true).1 = .ok () :=
  ⟨rfl, rfl, rfl, rfl, rfl⟩

/-- C12, amended: the transient mark of the transaction is not checked by any
mutating call.  The result of each of the nine calls (the value returned or
the exception thrown) is the same whatever the mark is; with the transaction
marked read-only each call fails with its read-only violation, the first
check of the call; in a transaction not marked read-only `preactivate_feature`
and an in-range `set_resource_limits` succeed and forward the mark to the
controller and to the resource-limits ledger. -/
theorem C12_transient_not_checked (E : externals T) (context : apply_context T) (b : Bool) :
    ((∀ feature_digest, (preactivate_feature (with_transient context b) feature_digest).1 =
        (preactivate_feature context feature_digest).1) ∧
      (∀ account ram_bytes net_weight cpu_weight,
        (set_resource_limits (with_transient context b) account ram_bytes net_weight
          cpu_weight).1 =
        (set_resource_limits context account ram_bytes net_weight cpu_weight).1) ∧
      (∀ packed, (set_wasm_parameters_packed E (with_transient context b) packed).1 =
        (set_wasm_parameters_packed E context packed).1) ∧
      (∀ packed, (set_proposed_producers E (with_transient context b) packed).1 =
        (set_proposed_producers E context packed).1) ∧
      (∀ format packed, (set_proposed_producers_ex E (with_transient context b) format packed).1 =
        (set_proposed_producers_ex E context format packed).1) ∧
      (∀ packed, (set_proposed_finalizers E (with_transient context b) packed).1 =
        (set_proposed_finalizers E context packed).1) ∧
      (∀ packed, (set_blockchain_parameters_packed E (with_transient context b) packed).1 =
        (set_blockchain_parameters_packed E context packed).1) ∧
      (∀ packed, (set_parameters_packed E (with_transient context b) packed).1 =
        (set_parameters_packed E context packed).1) ∧
      (∀ n is_priv, (set_privileged E (with_transient context b) n is_priv).1 =
        (set_privileged E context n is_priv).1)) ∧
    (context.trx_context.is_read_only = true →
      (∀ feature_digest, (preactivate_feature (with_transient context b) feature_digest).1 =
        .error (read_only_violation .preactivate_feature)) ∧
      (∀ account ram_bytes net_weight cpu_weight,
        (set_resource_limits (with_transient context b) account ram_bytes net_weight
          cpu_weight).1 = .error (read_only_violation .set_resource_limits)) ∧
      (∀ packed, (set_wasm_parameters_packed E (with_transient context b) packed).1 =
        .error (read_only_violation .set_wasm_parameters_packed)) ∧
      (∀ packed, (set_proposed_producers E (with_transient context b) packed).1 =
        .error (read_only_violation .set_proposed_producers)) ∧
      (∀ format packed, (set_proposed_producers_ex E (with_transient context b) format packed).1 =
        .error (read_only_violation .set_proposed_producers_ex)) ∧
      (∀ packed, (set_proposed_finalizers E (with_transient context b) packed).1 =
        .error (read_only_violation .set_proposed_finalizers)) ∧
      (∀ packed, (set_blockchain_parameters_packed E (with_transient context b) packed).1 =
        .error (read_only_violation .set_blockchain_parameters_packed)) ∧
      (∀ packed, (set_parameters_packed E (with_transient context b) packed).1 =
        .error (read_only_violation .set_parameters_packed)) ∧
      (∀ n is_priv, (set_privileged E (with_transient context b) n is_priv).1 =
        .error (read_only_violation .set_privileged))) ∧
    (context.trx_context.is_read_only = false →
      (∀ feature_digest,
        (preactivate_feature (with_transient context b) feature_digest).1 = .ok () ∧
        (preactivate_feature (with_transient context b) feature_digest).2.control.preactivated =
          context.control.preactivated ++ [(feature_digest, b)]) ∧
      (∀ account ram_bytes net_weight cpu_weight,
        -1 ≤ ram_bytes → -1 ≤ net_weight → -1 ≤ cpu_weight →
        (set_resource_limits (with_transient context b) account ram_bytes net_weight
          cpu_weight).1 = .ok () ∧
        (set_resource_limits (with_transient context b) account ram_bytes net_weight
          cpu_weight).2.control.resource_limits.limits_set =
          context.control.resource_limits.limits_set ++
            [(account, ram_bytes, net_weight, cpu_weight, b)])) := by
  have hr : (with_transient context b).trx_context.is_read_only =
      context.trx_context.is_read_only := rfl
  have hdb : (with_transient context b).db = context.db := rfl
  have hc : (with_transient context b).control = context.control := rfl
  refine ⟨⟨?_, ?_, ?_, ?_, ?_, ?_, ?_, ?_, ?_⟩, ?_, ?_⟩
  · intro d
    simp only [preactivate_feature, hr]
    split <;> rfl
  · intro a r n c
    simp only [set_resource_limits, hr]
    split
    · rfl
    · split
      · rfl
      · split
        · rfl
        · split
          · rfl
          · split <;> split <;> rfl
  · intro packed
    simp only [set_wasm_parameters_packed, hr]
    split
    · rfl
    · cases E.unpack_uint32 packed with
      | error e => rfl
      | ok r =>
        obtain ⟨version, ds⟩ := r
        simp only
        split
        · rfl
        · cases E.unpack_wasm_config ds with
          | error e => rfl
          | ok r2 =>
            obtain ⟨cfg, rest⟩ := r2
            simp only
            cases E.wasm_config_validate cfg <;> rfl
  · intro packed
    exact set_proposed_producers_with_transient E context b packed
  · intro format packed
    simp only [set_proposed_producers_ex, hr]
    split
    · rfl
    · split
      · exact set_proposed_producers_with_transient E context b packed
      · split
        · cases E.unpack_producer_authorities packed with
          | error e => rfl
          | ok producers => exact common_with_transient E context b producers false
        · rfl
  · intro packed
    simp only [set_proposed_finalizers, hr, check_finalizers_with_transient]
    split
    · rfl
    · cases E.unpack_finalizer_schedule packed with
      | error e => rfl
      | ok schedule =>
        simp only
        split
        · rfl
        · split
          · rfl
          · cases check_finalizers E context schedule.finalizers [] with
            | error e => rfl
            | ok u =>
              simp only
              split <;> rfl
  · intro packed
    simp only [set_blockchain_parameters_packed, hr]
    split
    · rfl
    · cases E.unpack_chain_config_v0 packed with
      | error e => rfl
      | ok cfg =>
        simp only
        cases E.chain_config_v0_validate cfg <;> rfl
  · intro packed
    simp only [set_parameters_packed, hr, hdb]
    split
    · rfl
    · cases E.unpack_config_range context.db.global_properties.configuration packed with
      | error e => rfl
      | ok config =>
        simp only
        cases E.chain_config_validate config <;> rfl
  · intro n is_priv
    simp only [set_privileged, hr, hdb]
    split
    · rfl
    · cases context.db.account_privileged n <;> rfl
  · intro hro
    refine ⟨?_, ?_, ?_, ?_, ?_, ?_, ?_, ?_, ?_⟩
    · intro d; simp [preactivate_feature, hr, hro, read_only_violation]
    · intro a r n c; simp [set_resource_limits, hr, hro, read_only_violation]
    · intro p; simp [set_wasm_parameters_packed, hr, hro, read_only_violation]
    · intro p; simp [set_proposed_producers, hr, hro, read_only_violation]
    · intro f p; simp [set_proposed_producers_ex, hr, hro, read_only_violation]
    · intro p; simp [set_proposed_finalizers, hr, hro, read_only_violation]
    · intro p; simp [set_blockchain_parameters_packed, hr, hro, read_only_violation]
    · intro p; simp [set_parameters_packed, hr, hro, read_only_violation]
    · intro n p; simp [set_privileged, hr, hro, read_only_violation]
  · intro hro
    constructor
    · intro d
      simp [preactivate_feature, hr, hro, hc, controller.preactivate_feature, with_transient]
    · intro a r n c h1 h2 h3
      have e1 : ¬ ¬ (r ≥ -1) := not_not.mpr h1
      have e2 : ¬ ¬ (n ≥ -1) := not_not.mpr h2
      have e3 : ¬ ¬ (c ≥ -1) := not_not.mpr h3
      simp only [set_resource_limits, hr, hro, hc, Bool.not_false, not_true_eq_false, if_false,
        if_neg e1, if_neg e2, if_neg e3]
      constructor
      · split <;> rfl
      · split <;> simp [resource_limits_manager.set_account_limits, with_transient]

/-- C12, amended, at the example contexts with the transient mark set: in the
read-only one the schedule proposal fails with the read-only violation, in
the other `set_resource_limits` succeeds and the ledger receives the mark. -/
theorem C12_transient_not_checked_witness :
    (example_context true).trx_context.is_read_only = true ∧
    (set_proposed_producers_ex example_externals (with_transient (example_context true) true)
      1 [1, 2, 3]).1 = .error (read_only_violation .set_proposed_producers_ex) ∧
    (set_resource_limits (with_transient (example_context false) true) 1 (-1) 0 5).1 = .ok () ∧
    (set_resource_limits (with_transient (example_context false) true) 1 (-1) 0
      5).2.control.resource_limits.limits_set = [(1, -1, 0, 5, true)] :=
  ⟨rfl,
   ((C12_transient_not_checked example_externals (example_context true) true).2.1 rfl).2.2.2.2.1
      1 [1, 2, 3],
   (((C12_transient_not_checked example_externals (example_context false) true).2.2 rfl).2
      1 (-1) 0 5 (by decide) (by decide) (by decide)).1,
   (((C12_transient_not_checked example_externals (example_context false) true).2.2 rfl).2
      1 (-1) 0 5 (by decide) (by decide) (by decide)).2⟩

/-- The body of `set_privileged`: in a read-only context it fails and leaves
the context unchanged; in a non-read-only context it fails, with the context
unchanged, when the account has no metadata object, and otherwise succeeds,
sets the flag of the account to the given value and leaves the flags of the
other accounts unchanged; the body does not read the member `privileged`. -/
theorem set_privileged_body (E : externals T) (context : apply_context T) (n : account_name)
    (is_priv : Bool) :
    (context.trx_context.is_read_only = true →
      set_privileged E context n is_priv =
        (.error (read_only_violation .set_privileged), context)) ∧
    (context.trx_context.is_read_only = false → context.db.account_privileged n = none →
      set_privileged E context n is_priv = (.error E.db_get_missing, context)) ∧
    (context.trx_context.is_read_only = false →
      (∃ flag, context.db.account_privileged n = some flag) →
      (set_privileged E context n is_priv).1 = .ok () ∧
      is_privileged E (set_privileged E context n is_priv).2 n = .ok is_priv ∧
      (∀ m, m ≠ n → (set_privileged E context n is_priv).2.db.account_privileged m =
        context.db.account_privileged m)) ∧
    (∀ privileged : Bool,
      set_privileged E { context with privileged := privileged } n is_priv =
        ((set_privileged E context n is_priv).1,
         { (set_privileged E context n is_priv).2 with privileged := privileged })) := by
  refine ⟨?_, ?_, ?_, ?_⟩
  · intro hro
    simp [set_privileged, hro, read_only_violation]
  · intro hro hnone
    simp [set_privileged, hro, hnone]
  · rintro hro ⟨flag, hflag⟩
    refine ⟨?_, ?_, ?_⟩
    · simp [set_privileged, hro, hflag]
    · simp [set_privileged, hro, hflag, is_privileged]
    · intro m hm
      simp [set_privileged, hro, hflag, hm]
  · intro privileged
    simp only [set_privileged]
    split
    · rfl
    · cases context.db.account_privileged n <;> rfl

/-- C13: the host call `set_privileged`, behind the privilege gate of the
dispatcher, changes a privileged flag only from an account-privileged,
non-read-only context.  For every account and flag value, a call from a
context that is not account-privileged fails and leaves the context, with
every flag, unchanged; so does a call from a read-only context; a call from a
privileged, non-read-only context on an account with a metadata object
succeeds, sets the flag of that account to the given value and leaves the
flags of the other accounts unchanged. -/
theorem C13_privileged_gate (E : externals T) (denied : fc_exception)
    (context : apply_context T) (n : account_name) (is_priv : Bool) :
    (context.privileged = false →
      call_set_privileged E denied context n is_priv = (.error denied, context) ∧
      (call_set_privileged E denied context n is_priv).2.db.account_privileged n =
        context.db.account_privileged n) ∧
    (context.trx_context.is_read_only = true →
      ¬ succeeded (call_set_privileged E denied context n is_priv) ∧
      (call_set_privileged E denied context n is_priv).2 = context) ∧
    ((call_set_privileged E denied context n is_priv).2.db.account_privileged ≠
        context.db.account_privileged →
      context.privileged = true ∧ context.trx_context.is_read_only = false) ∧
    (context.privileged = true → context.trx_context.is_read_only = false →
      (∃ flag, context.db.account_privileged n = some flag) →
      (call_set_privileged E denied context n is_priv).1 = .ok () ∧
      is_privileged E (call_set_privileged E denied context n is_priv).2 n = .ok is_priv ∧
      (∀ m, m ≠ n →
        (call_set_privileged E denied context n is_priv).2.db.account_privileged m =
          context.db.account_privileged m)) := by
  have hbody := set_privileged_body E context n is_priv
  have hdenied : context.privileged = false →
      call_set_privileged E denied context n is_priv = (.error denied, context) := by
    intro hp
    simp [call_set_privileged, privileged_call, hp]
  have hgranted : context.privileged = true →
      call_set_privileged E denied context n is_priv = set_privileged E context n is_priv := by
    intro hp
    simp [call_set_privileged, privileged_call, hp]
  have hreadonly : context.trx_context.is_read_only = true →
      ¬ succeeded (call_set_privileged E denied context n is_priv) ∧
      (call_set_privileged E denied context n is_priv).2 = context := by
    intro hro
    cases hp : context.privileged with
    | false =>
      rw [hdenied hp]
      exact ⟨fun ⟨v, hv⟩ => (by cases hv), rfl⟩
    | true =>
      rw [hgranted hp, hbody.1 hro]
      exact ⟨fun ⟨v, hv⟩ => (by cases hv), rfl⟩
  refine ⟨?_, hreadonly, ?_, ?_⟩
  · intro hp
    rw [hdenied hp]
    exact ⟨rfl, rfl⟩
  · intro hchanged
    cases hp : context.privileged with
    | false =>
      rw [hdenied hp] at hchanged
      exact absurd rfl hchanged
    | true =>
      cases hro : context.trx_context.is_read_only with
      | false => exact ⟨rfl, rfl⟩
      | true =>
        rw [(hreadonly hro).2] at hchanged
        exact absurd rfl hchanged
  · intro hp hro hflag
    rw [hgranted hp]
    exact hbody.2.2.1 hro hflag

/-- C13, at the example context, which is not account-privileged and not
read-only: the call for the existing account 1 fails with the exception of
the dispatcher and the context is unchanged. -/
theorem C13_privileged_gate_witness :
    (example_context false).privileged = false ∧
    call_set_privileged example_externals ⟨.external 2, .other 2⟩ (example_context false) 1
        true =
      (.error ⟨.external 2, .other 2⟩, example_context false) :=
  ⟨rfl,
   ((C13_privileged_gate example_externals ⟨.external 2, .other 2⟩ (example_context false) 1
      true).1 rfl).1⟩

/-- C14: in a non-read-only context `set_resource_limits` fails exactly when
one of `ram_bytes`, `net_weight`, `cpu_weight` is below -1, then with a
`wasm_execution_error` and nothing forwarded; when the three values are at
least -1 it succeeds and the ledger receives the account and the three values
unchanged. -/
theorem C14_resource_limit_range (context : apply_context T) (account : account_name)
    (ram_bytes net_weight cpu_weight : Int)
    (hro : context.trx_context.is_read_only = false) :
    (¬ succeeded (set_resource_limits context account ram_bytes net_weight cpu_weight) ↔
      (ram_bytes < -1 ∨ net_weight < -1 ∨ cpu_weight < -1)) ∧
    ((ram_bytes < -1 ∨ net_weight < -1 ∨ cpu_weight < -1) →
      ∃ m, set_resource_limits context account ram_bytes net_weight cpu_weight =
        (.error ⟨.wasm_execution_error, m⟩, context)) ∧
    (-1 ≤ ram_bytes → -1 ≤ net_weight → -1 ≤ cpu_weight →
      (set_resource_limits context account ram_bytes net_weight cpu_weight).1 = .ok () ∧
      (set_resource_limits context account ram_bytes net_weight
        cpu_weight).2.control.resource_limits.limits_set =
        context.control.resource_limits.limits_set ++
          [(account, ram_bytes, net_weight, cpu_weight, context.trx_context.is_transient)]) := by
  have hok : -1 ≤ ram_bytes → -1 ≤ net_weight → -1 ≤ cpu_weight →
      (set_resource_limits context account ram_bytes net_weight cpu_weight).1 = .ok () ∧
      (set_resource_limits context account ram_bytes net_weight
        cpu_weight).2.control.resource_limits.limits_set =
        context.control.resource_limits.limits_set ++
          [(account, ram_bytes, net_weight, cpu_weight, context.trx_context.is_transient)] := by
    intro h1 h2 h3
    have e1 : ¬ ¬ (ram_bytes ≥ -1) := not_not.mpr h1
    have e2 : ¬ ¬ (net_weight ≥ -1) := not_not.mpr h2
    have e3 : ¬ ¬ (cpu_weight ≥ -1) := not_not.mpr h3
    simp only [set_resource_limits, hro, Bool.not_false, not_true_eq_false, if_false,
      if_neg e1, if_neg e2, if_neg e3]
    constructor
    · split <;> rfl
    · split <;> simp [resource_limits_manager.set_account_limits]
  have herr : (ram_bytes < -1 ∨ net_weight < -1 ∨ cpu_weight < -1) →
      ∃ m, set_resource_limits context account ram_bytes net_weight cpu_weight =
        (.error ⟨.wasm_execution_error, m⟩, context) := by
    intro h
    simp only [set_resource_limits, hro, Bool.not_false, not_true_eq_false, if_false]
    by_cases h1 : ram_bytes ≥ -1
    · rw [if_neg (not_not.mpr h1)]
      by_cases h2 : net_weight ≥ -1
      · rw [if_neg (not_not.mpr h2)]
        have h3 : ¬ (cpu_weight ≥ -1) := by omega
        rw [if_pos h3]
        exact ⟨_, rfl⟩
      · rw [if_pos h2]
        exact ⟨_, rfl⟩
    · rw [if_pos h1]
      exact ⟨_, rfl⟩
  refine ⟨?_, herr, hok⟩
  constructor
  · intro hfail
    by_contra hc
    have h1 : -1 ≤ ram_bytes := by omega
    have h2 : -1 ≤ net_weight := by omega
    have h3 : -1 ≤ cpu_weight := by omega
    exact hfail ⟨(), (hok h1 h2 h3).1⟩
  · intro h
    obtain ⟨m, hm⟩ := herr h
    rintro ⟨v, hv⟩
    rw [hm] at hv
    cases hv

/-- C14, at the example context: the triple (-1, 0, 5) is accepted and
forwarded for the account 1. -/
theorem C14_resource_limit_range_witness :
    (example_context false).trx_context.is_read_only = false ∧
    (set_resource_limits (example_context false) 1 (-1) 0 5).1 = .ok () ∧
    (set_resource_limits (example_context false) 1 (-1) 0
      5).2.control.resource_limits.limits_set = [(1, -1, 0, 5, false)] ∧
    ¬ succeeded (set_resource_limits (example_context false) 1 0 (-2) 5) :=
  ⟨rfl,
   ((C14_resource_limit_range (example_context false) 1 (-1) 0 5 rfl).2.2
      (by decide) (by decide) (by decide)).1,
   ((C14_resource_limit_range (example_context false) 1 (-1) 0 5 rfl).2.2
      (by decide) (by decide) (by decide)).2,
   (C14_resource_limit_range (example_context false) 1 0 (-2) 5 rfl).1.mpr
      (Or.inr (Or.inl (by decide)))⟩

/-- The call `set_resource_limits` either fails and leaves the context
unchanged, or succeeds with the ledger called and the account inserted into
`validate_ram_usage` exactly when the ledger reports a change. -/
theorem set_resource_limits_cases (context : apply_context T) (account : account_name)
    (ram_bytes net_weight cpu_weight : Int) :
    (∃ e, set_resource_limits context account ram_bytes net_weight cpu_weight =
      (.error e, context)) ∨
    ((set_resource_limits context account ram_bytes net_weight cpu_weight).1 = .ok () ∧
      (set_resource_limits context account ram_bytes net_weight
        cpu_weight).2.trx_context.validate_ram_usage =
        if context.control.resource_limits.limits_changed account ram_bytes net_weight
            cpu_weight context.trx_context.is_transient = true then
          set_insert context.trx_context.validate_ram_usage account
        else context.trx_context.validate_ram_usage) := by
  simp only [set_resource_limits]
  split
  · exact Or.inl ⟨_, rfl⟩
  · split
    · exact Or.inl ⟨_, rfl⟩
    · split
      · exact Or.inl ⟨_, rfl⟩
      · split
        · exact Or.inl ⟨_, rfl⟩
        · right
          simp only [resource_limits_manager.set_account_limits]
          split <;> exact ⟨rfl, rfl⟩

/-- C15: after an accepted `set_resource_limits` the set `validate_ram_usage`
is the old set with the account inserted when the ledger reports a change, and
the old set itself when it reports none; no account other than the one passed
is added; a rejected call leaves the whole context, ledger and set included,
unchanged. -/
theorem C15_validate_ram_usage (context : apply_context T) (account : account_name)
    (ram_bytes net_weight cpu_weight : Int) :
    (succeeded (set_resource_limits context account ram_bytes net_weight cpu_weight) →
      context.control.resource_limits.limits_changed account ram_bytes net_weight cpu_weight
        context.trx_context.is_transient = true →
      (set_resource_limits context account ram_bytes net_weight
        cpu_weight).2.trx_context.validate_ram_usage =
        set_insert context.trx_context.validate_ram_usage account ∧
      ∀ a, a ∈ (set_resource_limits context account ram_bytes net_weight
          cpu_weight).2.trx_context.validate_ram_usage ↔
        a ∈ context.trx_context.validate_ram_usage ∨ a = account) ∧
    (succeeded (set_resource_limits context account ram_bytes net_weight cpu_weight) →
      context.control.resource_limits.limits_changed account ram_bytes net_weight cpu_weight
        context.trx_context.is_transient = false →
      (set_resource_limits context account ram_bytes net_weight
        cpu_weight).2.trx_context.validate_ram_usage =
        context.trx_context.validate_ram_usage) ∧
    (∀ a, a ∈ (set_resource_limits context account ram_bytes net_weight
        cpu_weight).2.trx_context.validate_ram_usage →
      a ∈ context.trx_context.validate_ram_usage ∨ a = account) ∧
    (¬ succeeded (set_resource_limits context account ram_bytes net_weight cpu_weight) →
      set_resource_limits context account ram_bytes net_weight cpu_weight =
        ((set_resource_limits context account ram_bytes net_weight cpu_weight).1, context)) := by
  rcases set_resource_limits_cases context account ram_bytes net_weight cpu_weight with
    ⟨e, he⟩ | ⟨hok, hset⟩
  · have hfail : ¬ succeeded
        (set_resource_limits context account ram_bytes net_weight cpu_weight) := by
      rintro ⟨v, hv⟩
      rw [he] at hv
      cases hv
    refine ⟨fun h => absurd h hfail, fun h => absurd h hfail, ?_, ?_⟩
    · intro a ha
      rw [he] at ha
      exact Or.inl ha
    · intro _
      rw [he]
  · refine ⟨?_, ?_, ?_, ?_⟩
    · intro _ hch
      rw [hset, if_pos hch]
      exact ⟨rfl, fun a => mem_set_insert _ account a⟩
    · intro _ hch
      rw [hset, if_neg (by rw [hch]; decide)]
    · intro a ha
      rw [hset] at ha
      split at ha
      · exact (mem_set_insert _ account a).mp ha
      · exact Or.inl ha
    · intro hfail
      exact absurd ⟨(), hok⟩ hfail

/-- C15, at the example context, whose ledger reports a change: the accepted
call for the account 4 leaves exactly the account 4 in the empty set, and the
rejected call leaves the context unchanged. -/
theorem C15_validate_ram_usage_witness :
    succeeded (set_resource_limits (example_context false) 4 (-1) 0 5) ∧
    (set_resource_limits (example_context false) 4 (-1) 0
      5).2.trx_context.validate_ram_usage = [4] ∧
    ¬ succeeded (set_resource_limits (example_context false) 4 (-2) 0 5) ∧
    set_resource_limits (example_context false) 4 (-2) 0 5 =
      (.error ⟨.wasm_execution_error, .invalid_ram_limit⟩, example_context false) :=
  ⟨⟨(), rfl⟩,
   ((C15_validate_ram_usage (example_context false) 4 (-1) 0 5).1
      (show succeeded (set_resource_limits (example_context false) 4 (-1) 0 5) from ⟨(), rfl⟩)
      rfl).1,
   (by rintro ⟨v, hv⟩; cases hv),
   (C15_validate_ram_usage (example_context false) 4 (-2) 0 5).2.2.2
      (by rintro ⟨v, hv⟩; cases hv)⟩

/-! ## Auxiliary facts: output buffers -/

theorem datastream_write_zero (buffer data : bytes) :
    datastream_write buffer 0 data = data ++ buffer.drop data.length := by
  simp [datastream_write]

/-- Two consecutive writes from the start of the buffer. -/
theorem datastream_write_two (buffer v p : bytes) :
    datastream_write (datastream_write buffer 0 v) v.length p =
      (v ++ p) ++ buffer.drop (v.length + p.length) := by
  rw [datastream_write_zero]
  unfold datastream_write
  rw [List.take_left, List.drop_append_eq_append_drop]
  have h1 : List.drop (v.length + p.length) v = [] := List.drop_eq_nil_of_le (by omega)
  have h2 : v.length + p.length - v.length = p.length := by omega
  rw [h1, h2, List.nil_append, List.drop_drop, List.append_assoc]

theorem to_uint32_of_lt (s : Nat) (h : s < 4294967296) : to_uint32 s = s := by
  unfold to_uint32
  omega

/-- The size probe of the VM configuration: an empty buffer. -/
theorem get_wasm_parameters_probe (E : externals T) (context : apply_context T)
    (max_version : Nat) :
    get_wasm_parameters_packed E context [] max_version =
      (to_uint32 (wasm_parameters_packed E context).length, []) := by
  simp [get_wasm_parameters_packed, wasm_parameters_packed]

/-- The full write of the VM configuration: a buffer of at least the size. -/
theorem get_wasm_parameters_full (E : externals T) (context : apply_context T)
    (buffer : bytes) (max_version : Nat)
    (h : (wasm_parameters_packed E context).length ≤ buffer.length) :
    get_wasm_parameters_packed E context buffer max_version =
      (to_uint32 (wasm_parameters_packed E context).length,
       wasm_parameters_packed E context ++
         buffer.drop (wasm_parameters_packed E context).length) := by
  have hv : min max_version 0 = 0 := Nat.min_eq_right (Nat.zero_le _)
  simp only [get_wasm_parameters_packed, hv]
  simp only [wasm_parameters_packed, List.length_append] at h ⊢
  by_cases h0 : buffer.length = 0
  · rw [if_pos h0]
    have hb : buffer = [] := List.length_eq_zero.mp h0
    have h1 : (E.pack_uint32 0).length = 0 := by omega
    have h2 : (E.pack_wasm_config context.db.global_properties.wasm_configuration).length = 0 := by
      omega
    rw [List.length_eq_zero.mp h1, List.length_eq_zero.mp h2, hb]
    rfl
  · rw [if_neg h0, if_pos h, datastream_write_two]

/-- The undersized buffer of the VM configuration: nothing is written. -/
theorem get_wasm_parameters_short (E : externals T) (context : apply_context T)
    (buffer : bytes) (max_version : Nat) (h0 : buffer.length ≠ 0)
    (h : buffer.length < (wasm_parameters_packed E context).length) :
    get_wasm_parameters_packed E context buffer max_version =
      (to_uint32 (wasm_parameters_packed E context).length, buffer) := by
  have hv : min max_version 0 = 0 := Nat.min_eq_right (Nat.zero_le _)
  simp only [get_wasm_parameters_packed, hv]
  simp only [wasm_parameters_packed, List.length_append] at h ⊢
  rw [if_neg h0, if_neg (by omega)]

/-- The size probe of the legacy chain configuration: an empty buffer. -/
theorem get_blockchain_parameters_probe (E : externals T) (context : apply_context T) :
    get_blockchain_parameters_packed E context [] =
      (to_uint32 (blockchain_parameters_packed E context).length, []) := by
  simp [get_blockchain_parameters_packed, blockchain_parameters_packed]

/-- The full write of the legacy chain configuration. -/
theorem get_blockchain_parameters_full (E : externals T) (context : apply_context T)
    (buffer : bytes) (h : (blockchain_parameters_packed E context).length ≤ buffer.length) :
    get_blockchain_parameters_packed E context buffer =
      (to_uint32 (blockchain_parameters_packed E context).length,
       blockchain_parameters_packed E context ++
         buffer.drop (blockchain_parameters_packed E context).length) := by
  simp only [get_blockchain_parameters_packed]
  simp only [blockchain_parameters_packed] at h ⊢
  by_cases h0 : buffer.length = 0
  · rw [if_pos h0]
    have hb : buffer = [] := List.length_eq_zero.mp h0
    have h1 : (E.pack_chain_config_v0
        (E.chain_config_v0_part context.db.global_properties.configuration)).length = 0 := by
      omega
    rw [List.length_eq_zero.mp h1, hb]
    rfl
  · rw [if_neg h0, if_pos h, datastream_write_zero]

/-- The undersized buffer of the legacy chain configuration: 0 is returned. -/
theorem get_blockchain_parameters_short (E : externals T) (context : apply_context T)
    (buffer : bytes) (h0 : buffer.length ≠ 0)
    (h : buffer.length < (blockchain_parameters_packed E context).length) :
    get_blockchain_parameters_packed E context buffer = (0, buffer) := by
  simp only [get_blockchain_parameters_packed]
  simp only [blockchain_parameters_packed] at h
  rw [if_neg h0, if_neg (by omega)]

/-- The call `get_parameters_packed` once the ids are decoded and the range
is packed: the three cases on the length of the output buffer. -/
theorem get_parameters_packed_decoded (E : externals T) (R : config_range_encoder T)
    (context : apply_context T) (packed_ids buffer : bytes) (ids : List Nat) (packed : bytes)
    (hids : E.unpack_parameter_ids packed_ids = .ok ids)
    (hpack : R.pack_config_range context.control context.db.global_properties.configuration
      ids = .ok packed) :
    get_parameters_packed E R context packed_ids buffer =
      if buffer.length = 0 then (.ok (to_uint32 packed.length), buffer)
      else if ¬ (packed.length ≤ buffer.length) then
        (.error ⟨.config_parse_error, .parameters_buffer_too_small packed.length⟩, buffer)
      else (.ok (to_uint32 packed.length), packed ++ buffer.drop packed.length) := by
  simp only [get_parameters_packed, hids, hpack, datastream_write_zero]

/-- An exception of `get_parameters_packed` on the empty buffer comes from the
decoding of the ids or the packing of the range, and is thrown for every
output buffer, which is left unchanged. -/
theorem get_parameters_packed_probe_error (E : externals T) (R : config_range_encoder T)
    (context : apply_context T) (packed_ids buffer : bytes) (e : fc_exception)
    (h : (get_parameters_packed E R context packed_ids []).1 = .error e) :
    get_parameters_packed E R context packed_ids buffer = (.error e, buffer) := by
  simp only [get_parameters_packed] at h ⊢
  cases hids : E.unpack_parameter_ids packed_ids with
  | error e2 =>
    rw [hids] at h
    simp only at h ⊢
    cases h
    rfl
  | ok ids =>
    rw [hids] at h
    simp only at h ⊢
    cases hpack : R.pack_config_range context.control
        context.db.global_properties.configuration ids with
    | error e2 =>
      rw [hpack] at h
      simp only at h ⊢
      cases h
      rfl
    | ok packed =>
      rw [hpack] at h
      simp at h

/-- C16: for each of the three `get_*_packed` calls, the call with an empty
output buffer writes nothing and returns the size `s`, and a call on the same
state with a buffer of at least `s` bytes returns the same `s` and writes
exactly the `s` packed bytes at the start of the buffer (the size fitting the
32-bit return value).  For `get_parameters_packed` the size is that of the
range the ids decode to; when the ids do not decode or the range does not
pack, both calls throw the same exception and write nothing. -/
theorem C16_size_probe (E : externals T) (R : config_range_encoder T)
    (context : apply_context T) :
    (∀ (max_version1 max_version2 : Nat) (buffer : bytes),
      (wasm_parameters_packed E context).length < 4294967296 →
      (wasm_parameters_packed E context).length ≤ buffer.length →
      get_wasm_parameters_packed E context [] max_version1 =
        ((wasm_parameters_packed E context).length, []) ∧
      get_wasm_parameters_packed E context buffer max_version2 =
        ((wasm_parameters_packed E context).length,
         wasm_parameters_packed E context ++
           buffer.drop (wasm_parameters_packed E context).length)) ∧
    (∀ buffer : bytes,
      (blockchain_parameters_packed E context).length < 4294967296 →
      (blockchain_parameters_packed E context).length ≤ buffer.length →
      get_blockchain_parameters_packed E context [] =
        ((blockchain_parameters_packed E context).length, []) ∧
      get_blockchain_parameters_packed E context buffer =
        ((blockchain_parameters_packed E context).length,
         blockchain_parameters_packed E context ++
           buffer.drop (blockchain_parameters_packed E context).length)) ∧
    (∀ (packed_ids buffer : bytes) (ids : List Nat) (packed : bytes),
      E.unpack_parameter_ids packed_ids = .ok ids →
      R.pack_config_range context.control context.db.global_properties.configuration ids =
        .ok packed →
      packed.length < 4294967296 → packed.length ≤ buffer.length →
      get_parameters_packed E R context packed_ids [] = (.ok packed.length, []) ∧
      get_parameters_packed E R context packed_ids buffer =
        (.ok packed.length, packed ++ buffer.drop packed.length)) ∧
    (∀ (packed_ids buffer : bytes) (e : fc_exception),
      (get_parameters_packed E R context packed_ids []).1 = .error e →
      get_parameters_packed E R context packed_ids buffer = (.error e, buffer)) := by
  refine ⟨?_, ?_, ?_, ?_⟩
  · intro mv1 mv2 buffer hfit hlen
    rw [get_wasm_parameters_probe, get_wasm_parameters_full E context buffer mv2 hlen,
      to_uint32_of_lt _ hfit]
    exact ⟨rfl, rfl⟩
  · intro buffer hfit hlen
    rw [get_blockchain_parameters_probe, get_blockchain_parameters_full E context buffer hlen,
      to_uint32_of_lt _ hfit]
    exact ⟨rfl, rfl⟩
  · intro packed_ids buffer ids packed hids hpack hfit hlen
    rw [get_parameters_packed_decoded E R context packed_ids [] ids packed hids hpack,
      get_parameters_packed_decoded E R context packed_ids buffer ids packed hids hpack,
      to_uint32_of_lt _ hfit]
    refine ⟨by simp, ?_⟩
    by_cases h0 : buffer.length = 0
    · have hb : buffer = [] := List.length_eq_zero.mp h0
      have hp : packed = [] := List.length_eq_zero.mp (by omega)
      rw [hb, hp]
      rfl
    · rw [if_neg h0, if_neg (not_not.mpr hlen)]
  · intro packed_ids buffer e h
    exact get_parameters_packed_probe_error E R context packed_ids buffer e h

/-- C16, at the example data: the VM configuration probes to 7 bytes, and a
buffer of 9 bytes gets these 7 bytes written at its start; the range of the
ids 0 and 2 probes to 3 bytes. -/
theorem C16_size_probe_witness :
    get_wasm_parameters_packed example_externals (example_context false) [] 0 = (7, []) ∧
    get_wasm_parameters_packed example_externals (example_context false)
        [1, 2, 3, 4, 5, 6, 7, 8, 9] 5 =
      (7, [0, 0, 0, 0, 11, 12, 13, 8, 9]) ∧
    get_parameters_packed example_externals example_range_encoder (example_context false)
        [0, 2] [] = (.ok 3, []) ∧
    get_parameters_packed example_externals example_range_encoder (example_context false)
        [0, 2] [1, 2, 3, 4] = (.ok 3, [2, 100, 102, 4]) :=
  ⟨((C16_size_probe example_externals example_range_encoder (example_context false)).1
      0 5 [1, 2, 3, 4, 5, 6, 7, 8, 9] (by decide) (by decide)).1,
   ((C16_size_probe example_externals example_range_encoder (example_context false)).1
      0 5 [1, 2, 3, 4, 5, 6, 7, 8, 9] (by decide) (by decide)).2,
   ((C16_size_probe example_externals example_range_encoder (example_context false)).2.2.1
      [0, 2] [1, 2, 3, 4] [0, 2] [2, 100, 102] rfl rfl (by decide) (by decide)).1,
   ((C16_size_probe example_externals example_range_encoder (example_context false)).2.2.1
      [0, 2] [1, 2, 3, 4] [0, 2] [2, 100, 102] rfl rfl (by decide) (by decide)).2⟩

/-- C17: `get_wasm_parameters_packed` with a non-empty output buffer shorter
than the required size `s` returns `s`, which is not 0, without an exception
(the call has no failure), and leaves the buffer unchanged. -/
theorem C17_wasm_undersized_buffer (E : externals T) (context : apply_context T)
    (buffer : bytes) (max_version : Nat)
    (hne : buffer.length ≠ 0)
    (hshort : buffer.length < (wasm_parameters_packed E context).length)
    (hfit : (wasm_parameters_packed E context).length < 4294967296) :
    get_wasm_parameters_packed E context buffer max_version =
      ((wasm_parameters_packed E context).length, buffer) ∧
    (get_wasm_parameters_packed E context buffer max_version).1 ≠ 0 := by
  rw [get_wasm_parameters_short E context buffer max_version hne hshort,
    to_uint32_of_lt _ hfit]
  refine ⟨rfl, ?_⟩
  show (wasm_parameters_packed E context).length ≠ 0
  omega

/-- C17, at the example data: a buffer of 3 bytes is too short for the 7
bytes of the VM configuration; 7 is returned and the buffer is unchanged. -/
theorem C17_wasm_undersized_buffer_witness :
    get_wasm_parameters_packed example_externals (example_context false) [1, 2, 3] 0 =
      (7, [1, 2, 3]) :=
  (C17_wasm_undersized_buffer example_externals (example_context false) [1, 2, 3] 0
    (by decide) (by decide) (by decide)).1

/-- C18: `get_wasm_parameters_packed` with an output buffer of at least the
required size `s` returns `s` and writes exactly `s` bytes at the start of the
buffer, the packed version 0 followed by the packed live VM configuration; the
bytes from position `s` on and the length of the buffer are unchanged, and
the version written is 0 whatever `max_version` is. -/
theorem C18_wasm_full_write (E : externals T) (context : apply_context T)
    (buffer : bytes) (max_version : Nat)
    (hlen : (E.pack_uint32 0).length +
      (E.pack_wasm_config context.db.global_properties.wasm_configuration).length ≤
        buffer.length)
    (hfit : (E.pack_uint32 0).length +
      (E.pack_wasm_config context.db.global_properties.wasm_configuration).length <
        4294967296) :
    (get_wasm_parameters_packed E context buffer max_version).1 =
      (E.pack_uint32 0).length +
        (E.pack_wasm_config context.db.global_properties.wasm_configuration).length ∧
    (get_wasm_parameters_packed E context buffer max_version).2 =
      (E.pack_uint32 0 ++ E.pack_wasm_config context.db.global_properties.wasm_configuration) ++
        buffer.drop ((E.pack_uint32 0).length +
          (E.pack_wasm_config context.db.global_properties.wasm_configuration).length) ∧
    (get_wasm_parameters_packed E context buffer max_version).2.length = buffer.length ∧
    (get_wasm_parameters_packed E context buffer max_version).2.drop ((E.pack_uint32 0).length +
        (E.pack_wasm_config context.db.global_properties.wasm_configuration).length) =
      buffer.drop ((E.pack_uint32 0).length +
        (E.pack_wasm_config context.db.global_properties.wasm_configuration).length) := by
  have hl : (wasm_parameters_packed E context).length = (E.pack_uint32 0).length +
      (E.pack_wasm_config context.db.global_properties.wasm_configuration).length := by
    simp [wasm_parameters_packed]
  rw [get_wasm_parameters_full E context buffer max_version (by omega),
    to_uint32_of_lt _ (by omega)]
  refine ⟨hl, ?_, ?_, ?_⟩
  · show wasm_parameters_packed E context ++
        List.drop (wasm_parameters_packed E context).length buffer = _
    rw [hl]
    rfl
  · show (wasm_parameters_packed E context ++
        List.drop (wasm_parameters_packed E context).length buffer).length = buffer.length
    rw [List.length_append, List.length_drop]
    omega
  · show List.drop _ (wasm_parameters_packed E context ++
        List.drop (wasm_parameters_packed E context).length buffer) = _
    rw [← hl, List.drop_left]

/-- C18, at the example data: the 7 bytes written are the four bytes of the
version 0 and the three bytes of the VM configuration, for `max_version` 5. -/
theorem C18_wasm_full_write_witness :
    (get_wasm_parameters_packed example_externals (example_context false)
      [1, 2, 3, 4, 5, 6, 7, 8, 9] 5).1 = 7 ∧
    (get_wasm_parameters_packed example_externals (example_context false)
      [1, 2, 3, 4, 5, 6, 7, 8, 9] 5).2 = [0, 0, 0, 0, 11, 12, 13, 8, 9] :=
  ⟨(C18_wasm_full_write example_externals (example_context false)
      [1, 2, 3, 4, 5, 6, 7, 8, 9] 5 (by decide) (by decide)).1,
   (C18_wasm_full_write example_externals (example_context false)
      [1, 2, 3, 4, 5, 6, 7, 8, 9] 5 (by decide) (by decide)).2.1⟩

/-- C19: `get_blockchain_parameters_packed` returns 0 and leaves the buffer
unchanged when the buffer is non-empty but shorter than the packed size of the
v0 chain configuration; it returns the packed size when the buffer is empty,
writing nothing, or at least that long, writing exactly that many bytes at the
start of the buffer (the size fitting the 32-bit return value). -/
theorem C19_blockchain_parameters_buffer (E : externals T) (context : apply_context T)
    (buffer : bytes) :
    (buffer.length ≠ 0 → buffer.length < (blockchain_parameters_packed E context).length →
      get_blockchain_parameters_packed E context buffer = (0, buffer)) ∧
    ((blockchain_parameters_packed E context).length < 4294967296 →
      get_blockchain_parameters_packed E context [] =
        ((blockchain_parameters_packed E context).length, [])) ∧
    ((blockchain_parameters_packed E context).length < 4294967296 →
      (blockchain_parameters_packed E context).length ≤ buffer.length →
      get_blockchain_parameters_packed E context buffer =
        ((blockchain_parameters_packed E context).length,
         blockchain_parameters_packed E context ++
           buffer.drop (blockchain_parameters_packed E context).length)) := by
  refine ⟨?_, ?_, ?_⟩
  · intro hne hshort
    exact get_blockchain_parameters_short E context buffer hne hshort
  · intro hfit
    rw [get_blockchain_parameters_probe, to_uint32_of_lt _ hfit]
  · intro hfit hlen
    rw [get_blockchain_parameters_full E context buffer hlen, to_uint32_of_lt _ hfit]

/-- C19, at the example data, where the v0 chain configuration packs to 5
bytes: a buffer of 2 bytes gives 0, a buffer of 6 bytes gives 5. -/
theorem C19_blockchain_parameters_buffer_witness :
    get_blockchain_parameters_packed example_externals (example_context false) [1, 2] =
      (0, [1, 2]) ∧
    get_blockchain_parameters_packed example_externals (example_context false)
      [1, 2, 3, 4, 5, 6] = (5, [21, 22, 23, 24, 25, 6]) :=
  ⟨(C19_blockchain_parameters_buffer example_externals (example_context false) [1, 2]).1
      (by decide) (by decide),
   (C19_blockchain_parameters_buffer example_externals (example_context false)
      [1, 2, 3, 4, 5, 6]).2.2 (by decide) (by decide)⟩

/-- C20: `get_parameters_packed` with a non-empty output buffer shorter than
the packed size of the requested range throws `config_parse_error`, returning
neither the size nor 0, and leaves the buffer unchanged. -/
theorem C20_parameters_undersized_buffer (E : externals T) (R : config_range_encoder T)
    (context : apply_context T) (packed_ids buffer : bytes) (ids : List Nat) (packed : bytes)
    (hids : E.unpack_parameter_ids packed_ids = .ok ids)
    (hpack : R.pack_config_range context.control context.db.global_properties.configuration
      ids = .ok packed)
    (hne : buffer.length ≠ 0) (hshort : buffer.length < packed.length) :
    get_parameters_packed E R context packed_ids buffer =
      (.error ⟨.config_parse_error, .parameters_buffer_too_small packed.length⟩, buffer) ∧
    ¬ (∃ v, (get_parameters_packed E R context packed_ids buffer).1 = .ok v) := by
  have h := get_parameters_packed_decoded E R context packed_ids buffer ids packed hids hpack
  rw [if_neg hne, if_pos (by omega)] at h
  refine ⟨h, ?_⟩
  rintro ⟨v, hv⟩
  rw [h] at hv
  cases hv

/-- C20, at the example data: the range of the ids 0 and 2 packs to 3 bytes,
and a buffer of 2 bytes makes the call throw `config_parse_error`. -/
theorem C20_parameters_undersized_buffer_witness :
    get_parameters_packed example_externals example_range_encoder (example_context false)
        [0, 2] [8, 9] =
      (.error ⟨.config_parse_error, .parameters_buffer_too_small 3⟩, [8, 9]) :=
  (C20_parameters_undersized_buffer example_externals example_range_encoder
    (example_context false) [0, 2] [8, 9] [0, 2] [2, 100, 102] rfl rfl
    (by decide) (by decide)).1

/-- C21: in a non-read-only context `set_wasm_parameters_packed` fails with
`wasm_config_unknown_version` for every payload whose leading `uint32_t`
decodes to a version other than 0, whatever the bytes after the version are
and whatever the decoder and `validate()` of the configuration would do on
them; the context, with the stored VM configuration, is unchanged. -/
theorem C21_unknown_version (E : externals T) (context : apply_context T) (packed : bytes)
    (version : Nat) (ds : bytes)
    (hro : context.trx_context.is_read_only = false)
    (hdec : E.unpack_uint32 packed = .ok (version, ds))
    (hv : version ≠ 0) :
    set_wasm_parameters_packed E context packed =
      (.error ⟨.wasm_config_unknown_version, .unknown_wasm_config_version version⟩, context) ∧
    (set_wasm_parameters_packed E context packed).2.db.global_properties.wasm_configuration =
      context.db.global_properties.wasm_configuration := by
  have h : set_wasm_parameters_packed E context packed =
      (.error ⟨.wasm_config_unknown_version, .unknown_wasm_config_version version⟩,
        context) := by
    simp [set_wasm_parameters_packed, hro, hdec, hv]
  rw [h]
  exact ⟨rfl, rfl⟩

/-- C21, at the second example: the payload with the version 1 and a body
byte is rejected with the unknown-version error. -/
theorem C21_unknown_version_witness :
    example_codec_externals.unpack_uint32 [1, 0, 0, 0, 9] = .ok (1, [9]) ∧
    set_wasm_parameters_packed example_codec_externals example_codec_context [1, 0, 0, 0, 9] =
      (.error ⟨.wasm_config_unknown_version, .unknown_wasm_config_version 1⟩,
        example_codec_context) :=
  ⟨rfl,
   (C21_unknown_version example_codec_externals example_codec_context [1, 0, 0, 0, 9] 1 [9]
      rfl rfl (by decide)).1⟩

/-- A failure of the common routine leaves the context unchanged. -/
theorem common_error_unchanged (E : externals T) (context : apply_context T)
    (producers : List producer_authority) (vk : Bool) (e : fc_exception)
    (h : (set_proposed_producers_common E context producers vk).1 = .error e) :
    (set_proposed_producers_common E context producers vk).2 = context := by
  simp only [set_proposed_producers_common] at h ⊢
  by_cases hmax : producers.length ≤ E.max_producers
  · rw [if_neg (not_not.mpr hmax)] at h ⊢
    by_cases hempty : producers.length > 0 ∨
        ¬ (context.control.disallow_empty_producer_schedule = true)
    · rw [if_neg (not_not.mpr hempty)] at h ⊢
      cases hcp : check_producers E context vk producers [] with
      | error e2 => rfl
      | ok u =>
        rw [hcp] at h
        simp only at h ⊢
        by_cases hlen : producers.length = u.length
        · rw [if_neg (not_not.mpr hlen)] at h
          cases h
        · rw [if_pos hlen]
    · rw [if_pos hempty]
  · rw [if_pos hmax]

/-- A failure of `set_proposed_producers` leaves the context unchanged. -/
theorem set_proposed_producers_error_unchanged (E : externals T) (context : apply_context T)
    (packed : bytes) (e : fc_exception)
    (h : (set_proposed_producers E context packed).1 = .error e) :
    (set_proposed_producers E context packed).2 = context := by
  simp only [set_proposed_producers] at h ⊢
  by_cases hro : ¬ (!context.trx_context.is_read_only) = true
  · rw [if_pos hro]
  · rw [if_neg hro] at h ⊢
    cases hdec : E.unpack_producer_keys packed with
    | error e2 => rfl
    | ok old =>
      rw [hdec] at h
      exact common_error_unchanged E context _ true e h

/-! ## Auxiliary facts: the finalizer loop -/

theorem check_finalizers_of_pass (E : externals T) (context : apply_context T)
    (l : List finalizer_authority) :
    ∀ u : List account_name, (∀ f ∈ l, finalizer_passes E context f) →
      check_finalizers E context l u = .ok (insert_all u (finalizer_names l)) := by
  induction l with
  | nil => intro u _; rfl
  | cons f l ih =>
    intro u h
    obtain ⟨h1, h2, h3⟩ := h f (List.mem_cons_self f l)
    have hl : ∀ x ∈ l, finalizer_passes E context x :=
      fun x hx => h x (List.mem_cons_of_mem f hx)
    rw [check_finalizers, if_neg (not_not.mpr h1), if_neg (not_not.mpr h2),
      if_neg (not_not.mpr h3), ih _ hl]
    rfl

theorem check_finalizers_pass_of_ok (E : externals T) (context : apply_context T)
    (l : List finalizer_authority) :
    ∀ (u r : List account_name), check_finalizers E context l u = .ok r →
      ∀ f ∈ l, finalizer_passes E context f := by
  induction l with
  | nil => intro u r _ f hf; cases hf
  | cons g l ih =>
    intro u r h f hf
    rw [check_finalizers] at h
    by_cases h1 : context.is_account g.finalizer_name = true
    · rw [if_neg (not_not.mpr h1)] at h
      by_cases h2 : g.public_key.which < context.db.num_supported_key_types
      · rw [if_neg (not_not.mpr h2)] at h
        by_cases h3 : E.public_key_valid g.public_key = true
        · rw [if_neg (not_not.mpr h3)] at h
          rcases List.mem_cons.mp hf with hg | hg
          · subst hg
            exact ⟨h1, h2, h3⟩
          · exact ih _ r h f hg
        · rw [if_pos h3] at h; cases h
      · rw [if_pos h2] at h; cases h
    · rw [if_pos h1] at h; cases h

/-- The finalizer loop fails only with a `wasm_execution_error`, or with
`unactivated_key_type` on a key of an unactivated scheme. -/
theorem check_finalizers_error (E : externals T) (context : apply_context T)
    (l : List finalizer_authority) :
    ∀ (u : List account_name) (e : fc_exception),
      check_finalizers E context l u = .error e →
        e.type = .wasm_execution_error ∨
          (e = ⟨.unactivated_key_type, .finalizer_unactivated_key⟩ ∧
            ∃ f ∈ l, ¬ (f.public_key.which < context.db.num_supported_key_types)) := by
  induction l with
  | nil => intro u e h; cases h
  | cons g l ih =>
    intro u e h
    rw [check_finalizers] at h
    by_cases h1 : context.is_account g.finalizer_name = true
    · rw [if_neg (not_not.mpr h1)] at h
      by_cases h2 : g.public_key.which < context.db.num_supported_key_types
      · rw [if_neg (not_not.mpr h2)] at h
        by_cases h3 : E.public_key_valid g.public_key = true
        · rw [if_neg (not_not.mpr h3)] at h
          rcases ih _ e h with ht | ⟨he, f, hf, hw⟩
          · exact Or.inl ht
          · exact Or.inr ⟨he, f, List.mem_cons_of_mem g hf, hw⟩
        · rw [if_pos h3] at h
          left
          cases h; rfl
      · rw [if_pos h2] at h
        right
        refine ⟨?_, g, List.mem_cons_self g l, h2⟩
        cases h; rfl
    · rw [if_pos h1] at h
      left
      cases h; rfl

/-- The finalizer loop reads only the name and the key of an entry. -/
theorem check_finalizers_congr (E : externals T) (context : apply_context T)
    (l1 : List finalizer_authority) :
    ∀ (l2 : List finalizer_authority) (u : List account_name),
      l1.map finalizer_name_and_key = l2.map finalizer_name_and_key →
      check_finalizers E context l1 u = check_finalizers E context l2 u := by
  induction l1 with
  | nil =>
    intro l2 u h
    cases l2 with
    | nil => rfl
    | cons g l2 => simp at h
  | cons f l1 ih =>
    intro l2 u h
    cases l2 with
    | nil => simp at h
    | cons g l2 =>
      simp only [List.map_cons, List.cons.injEq, finalizer_name_and_key, Prod.mk.injEq] at h
      obtain ⟨⟨hn, hk⟩, hl⟩ := h
      simp only [check_finalizers, hn, hk]
      rw [ih l2 _ hl]

/-- The call `set_proposed_finalizers` once the read-only assertion has
passed and the schedule is decoded. -/
theorem set_proposed_finalizers_decoded (E : externals T) (context : apply_context T)
    (packed : bytes) (schedule : finalizer_schedule)
    (hro : context.trx_context.is_read_only = false)
    (hdec : E.unpack_finalizer_schedule packed = .ok schedule) :
    set_proposed_finalizers E context packed =
      if ¬ (schedule.finalizers.length ≤ E.max_finalizers) then
        (.error ⟨.wasm_execution_error, .finalizer_schedule_exceeds_max⟩, context)
      else if ¬ (schedule.finalizers.length > 0) then
        (.error ⟨.wasm_execution_error, .finalizer_schedule_empty⟩, context)
      else
        match check_finalizers E context schedule.finalizers [] with
        | .error e => (.error e, context)
        | .ok unique_finalizers =>
          if ¬ (schedule.finalizers.length = unique_finalizers.length) then
            (.error ⟨.wasm_execution_error, .duplicate_finalizer_name⟩, context)
          else
            (.ok (context.control.proposed_finalizers_version schedule.fthreshold
                schedule.finalizers),
              finalizers_handed_off context schedule.fthreshold schedule.finalizers) := by
  simp only [set_proposed_finalizers, hro, hdec]
  rfl

/-- A failure of `set_proposed_finalizers` leaves the context unchanged. -/
theorem set_proposed_finalizers_error_unchanged (E : externals T) (context : apply_context T)
    (packed : bytes) (e : fc_exception)
    (h : (set_proposed_finalizers E context packed).1 = .error e) :
    (set_proposed_finalizers E context packed).2 = context := by
  cases hro : context.trx_context.is_read_only with
  | true => simp [set_proposed_finalizers, hro]
  | false =>
    cases hdec : E.unpack_finalizer_schedule packed with
    | error e2 => simp [set_proposed_finalizers, hro, hdec]
    | ok schedule =>
      rw [set_proposed_finalizers_decoded E context packed schedule hro hdec] at h ⊢
      by_cases hmax : schedule.finalizers.length ≤ E.max_finalizers
      · rw [if_neg (not_not.mpr hmax)] at h ⊢
        by_cases hpos : schedule.finalizers.length > 0
        · rw [if_neg (not_not.mpr hpos)] at h ⊢
          cases hcf : check_finalizers E context schedule.finalizers [] with
          | error e2 => rfl
          | ok u =>
            rw [hcf] at h
            simp only at h ⊢
            by_cases hlen : schedule.finalizers.length = u.length
            · rw [if_neg (not_not.mpr hlen)] at h
              cases h
            · rw [if_pos hlen]
        · rw [if_pos hpos]
      · rw [if_pos hmax]

/-- C22: a call to `set_wasm_parameters_packed`,
`set_blockchain_parameters_packed`, `set_parameters_packed`,
`set_proposed_producers`, `set_proposed_producers_ex` or
`set_proposed_finalizers` that throws, at whichever check, leaves the whole
context as it was before the call: the global properties record and the
proposal slots of the consensus layer are unchanged, the commit or hand-off
being the last action of the call. -/
theorem C22_no_partial_application (E : externals T) (context : apply_context T) :
    (∀ packed e, (set_wasm_parameters_packed E context packed).1 = .error e →
      (set_wasm_parameters_packed E context packed).2 = context) ∧
    (∀ packed e, (set_blockchain_parameters_packed E context packed).1 = .error e →
      (set_blockchain_parameters_packed E context packed).2 = context) ∧
    (∀ packed e, (set_parameters_packed E context packed).1 = .error e →
      (set_parameters_packed E context packed).2 = context) ∧
    (∀ packed e, (set_proposed_producers E context packed).1 = .error e →
      (set_proposed_producers E context packed).2 = context) ∧
    (∀ format packed e, (set_proposed_producers_ex E context format packed).1 = .error e →
      (set_proposed_producers_ex E context format packed).2 = context) ∧
    (∀ packed e, (set_proposed_finalizers E context packed).1 = .error e →
      (set_proposed_finalizers E context packed).2 = context) := by
  refine ⟨?_, ?_, ?_, ?_, ?_, ?_⟩
  · intro packed e h
    simp only [set_wasm_parameters_packed] at h ⊢
    by_cases hro : ¬ (!context.trx_context.is_read_only) = true
    · rw [if_pos hro]
    · rw [if_neg hro] at h ⊢
      cases hdec : E.unpack_uint32 packed with
      | error e2 => rfl
      | ok r =>
        obtain ⟨version, ds⟩ := r
        rw [hdec] at h
        simp only at h ⊢
        by_cases hv : version = 0
        · rw [if_neg (not_not.mpr hv)] at h ⊢
          cases hcfg : E.unpack_wasm_config ds with
          | error e2 => rfl
          | ok r2 =>
            obtain ⟨cfg, rest⟩ := r2
            rw [hcfg] at h
            simp only at h ⊢
            cases hval : E.wasm_config_validate cfg with
            | some e2 => rfl
            | none =>
              rw [hval] at h
              cases h
        · rw [if_pos hv]
  · intro packed e h
    simp only [set_blockchain_parameters_packed] at h ⊢
    by_cases hro : ¬ (!context.trx_context.is_read_only) = true
    · rw [if_pos hro]
    · rw [if_neg hro] at h ⊢
      cases hdec : E.unpack_chain_config_v0 packed with
      | error e2 => rfl
      | ok cfg =>
        rw [hdec] at h
        simp only at h ⊢
        cases hval : E.chain_config_v0_validate cfg with
        | some e2 => rfl
        | none =>
          rw [hval] at h
          cases h
  · intro packed e h
    simp only [set_parameters_packed] at h ⊢
    by_cases hro : ¬ (!context.trx_context.is_read_only) = true
    · rw [if_pos hro]
    · rw [if_neg hro] at h ⊢
      cases hdec : E.unpack_config_range context.db.global_properties.configuration packed with
      | error e2 => rfl
      | ok config =>
        rw [hdec] at h
        simp only at h ⊢
        cases hval : E.chain_config_validate config with
        | some e2 => rfl
        | none =>
          rw [hval] at h
          cases h
  · intro packed e h
    exact set_proposed_producers_error_unchanged E context packed e h
  · intro format packed e h
    simp only [set_proposed_producers_ex] at h ⊢
    by_cases hro : ¬ (!context.trx_context.is_read_only) = true
    · rw [if_pos hro]
    · rw [if_neg hro] at h ⊢
      by_cases h0 : format = 0
      · rw [if_pos h0] at h ⊢
        exact set_proposed_producers_error_unchanged E context packed e h
      · rw [if_neg h0] at h ⊢
        by_cases h1 : format = 1
        · rw [if_pos h1] at h ⊢
          cases hdec : E.unpack_producer_authorities packed with
          | error e2 => rfl
          | ok producers =>
            rw [hdec] at h
            exact common_error_unchanged E context producers false e h
        · rw [if_neg h1]
  · intro packed e h
    exact set_proposed_finalizers_error_unchanged E context packed e h

/-- C22, at the second example: the finalizer schedule of the bytes 1 and 11
names the account 1 twice; the call fails and the context is unchanged. -/
theorem C22_no_partial_application_witness :
    (set_proposed_finalizers example_codec_externals example_codec_context [1, 11]).1 =
      .error ⟨.wasm_execution_error, .duplicate_finalizer_name⟩ ∧
    (set_proposed_finalizers example_codec_externals example_codec_context [1, 11]).2 =
      example_codec_context :=
  ⟨rfl,
   (C22_no_partial_application example_codec_externals example_codec_context).2.2.2.2.2
      [1, 11] ⟨.wasm_execution_error, .duplicate_finalizer_name⟩ rfl⟩

/-! ## Auxiliary facts: configuration round trips -/

/-- What a successful `set_wasm_parameters_packed` has done: decoded the
version 0 and a configuration that passes `validate()`, ignoring the rest of
the stream, and stored the configuration. -/
theorem set_wasm_parameters_succeeded (E : externals T) (context : apply_context T)
    (packed : bytes) (h : succeeded (set_wasm_parameters_packed E context packed)) :
    ∃ (ds : bytes) (cfg : T.wasm_config) (rest : bytes),
      E.unpack_uint32 packed = .ok (0, ds) ∧ E.unpack_wasm_config ds = .ok (cfg, rest) ∧
      E.wasm_config_validate cfg = none ∧
      (set_wasm_parameters_packed E context packed).2 =
        modify_global_properties context
          (fun gprops => { gprops with wasm_configuration := cfg }) := by
  obtain ⟨v, hv⟩ := h
  simp only [set_wasm_parameters_packed] at hv ⊢
  by_cases hro : ¬ (!context.trx_context.is_read_only) = true
  · rw [if_pos hro] at hv; cases hv
  · rw [if_neg hro] at hv ⊢
    cases hdec : E.unpack_uint32 packed with
    | error e2 => rw [hdec] at hv; cases hv
    | ok r =>
      obtain ⟨version, ds⟩ := r
      rw [hdec] at hv
      simp only at hv ⊢
      by_cases hver : version = 0
      · rw [if_neg (not_not.mpr hver)] at hv ⊢
        cases hcfg : E.unpack_wasm_config ds with
        | error e2 => rw [hcfg] at hv; cases hv
        | ok r2 =>
          obtain ⟨cfg, rest⟩ := r2
          rw [hcfg] at hv
          simp only at hv ⊢
          cases hval : E.wasm_config_validate cfg with
          | some e2 => rw [hval] at hv; cases hv
          | none =>
            subst hver
            exact ⟨ds, cfg, rest, rfl, hcfg, hval, rfl⟩
      · rw [if_pos hver] at hv; cases hv

theorem example_codec_law : wasm_codec_law example_codec_externals := by
  constructor
  · intro b v rest h
    rcases b with _ | ⟨b0, _ | ⟨b1, _ | ⟨b2, _ | ⟨b3, r⟩⟩⟩⟩
    · cases h
    · cases h
    · cases h
    · cases h
    · simp only [example_codec_externals] at h
      split at h
      · rename_i hc
        injection h with h
        injection h with hv hr
        subst hv hr
        simp only [example_codec_externals, List.cons_append, List.nil_append, List.cons.injEq,
          and_true]
        omega
      · cases h
  · intro b cfg rest h
    rcases b with _ | ⟨x, r⟩
    · cases h
    · simp only [example_codec_externals] at h
      injection h with h
      injection h with hv hr
      subst hv hr
      rfl

/-- C23, as stated, fails: in the second example the buffer of the version 0,
the configuration byte 9 and one further byte 77 is accepted by
`set_wasm_parameters_packed`, which ignores the further byte; the following
`get_wasm_parameters_packed` into 8 bytes returns 5, not the length 6 of the
buffer, and its output does not start with the 6 bytes of the buffer. -/
theorem C23_counterexample :
    succeeded (set_wasm_parameters_packed example_codec_externals example_codec_context
      [0, 0, 0, 0, 9, 77]) ∧
    get_wasm_parameters_packed example_codec_externals
        (set_wasm_parameters_packed example_codec_externals example_codec_context
          [0, 0, 0, 0, 9, 77]).2 [1, 1, 1, 1, 1, 1, 1, 1] 0 =
      (5, [0, 0, 0, 0, 9, 1, 1, 1]) ∧
    (get_wasm_parameters_packed example_codec_externals
        (set_wasm_parameters_packed example_codec_externals example_codec_context
          [0, 0, 0, 0, 9, 77]).2 [1, 1, 1, 1, 1, 1, 1, 1] 0).1 ≠
      [0, 0, 0, 0, 9, 77].length ∧
    (get_wasm_parameters_packed example_codec_externals
        (set_wasm_parameters_packed example_codec_externals example_codec_context
          [0, 0, 0, 0, 9, 77]).2 [1, 1, 1, 1, 1, 1, 1, 1] 0).2.take 6 ≠
      [0, 0, 0, 0, 9, 77] := by
  refine ⟨⟨(), rfl⟩, rfl, ?_, ?_⟩
  · have h : (get_wasm_parameters_packed example_codec_externals
        (set_wasm_parameters_packed example_codec_externals example_codec_context
          [0, 0, 0, 0, 9, 77]).2 [1, 1, 1, 1, 1, 1, 1, 1] 0).1 = 5 := rfl
    rw [h]
    decide
  · have h : (get_wasm_parameters_packed example_codec_externals
        (set_wasm_parameters_packed example_codec_externals example_codec_context
          [0, 0, 0, 0, 9, 77]).2 [1, 1, 1, 1, 1, 1, 1, 1] 0).2 =
        [0, 0, 0, 0, 9, 1, 1, 1] := rfl
    rw [h]
    decide

/-- C23, amended: for every buffer on which `set_wasm_parameters_packed`
succeeds, the buffer is the packed version 0 followed by the packed
configuration that was stored and by the bytes the call ignored; a following
`get_wasm_parameters_packed` into an output buffer of sufficient size returns
the length of that prefix and writes the prefix; when the buffer has no bytes
after the configuration, it returns the length of the buffer and the output
is byte-identical to the buffer. -/
theorem C23_wasm_round_trip (E : externals T) (context : apply_context T) (buf : bytes)
    (hlaw : wasm_codec_law E)
    (hs : succeeded (set_wasm_parameters_packed E context buf)) :
    (∃ rest, buf =
      wasm_parameters_packed E (set_wasm_parameters_packed E context buf).2 ++ rest) ∧
    (∀ (out : bytes) (max_version : Nat),
      (wasm_parameters_packed E (set_wasm_parameters_packed E context buf).2).length <
        4294967296 →
      (wasm_parameters_packed E (set_wasm_parameters_packed E context buf).2).length ≤
        out.length →
      get_wasm_parameters_packed E (set_wasm_parameters_packed E context buf).2 out
          max_version =
        ((wasm_parameters_packed E (set_wasm_parameters_packed E context buf).2).length,
         wasm_parameters_packed E (set_wasm_parameters_packed E context buf).2 ++
           out.drop
             (wasm_parameters_packed E (set_wasm_parameters_packed E context buf).2).length)) ∧
    (∀ (out : bytes) (max_version : Nat),
      buf.length =
        (wasm_parameters_packed E (set_wasm_parameters_packed E context buf).2).length →
      buf.length < 4294967296 → buf.length ≤ out.length →
      get_wasm_parameters_packed E (set_wasm_parameters_packed E context buf).2 out
          max_version =
        (buf.length, buf ++ out.drop buf.length)) := by
  obtain ⟨ds, cfg, rest, hver, hcfg, -, hctx⟩ := set_wasm_parameters_succeeded E context buf hs
  have h1 := hlaw.1 buf 0 ds hver
  have h2 := hlaw.2 ds cfg rest hcfg
  have hP : wasm_parameters_packed E (set_wasm_parameters_packed E context buf).2 =
      E.pack_uint32 0 ++ E.pack_wasm_config cfg := by
    rw [hctx]
    rfl
  have hbuf : buf =
      wasm_parameters_packed E (set_wasm_parameters_packed E context buf).2 ++ rest := by
    rw [hP, h1, h2, List.append_assoc]
  have hfull : ∀ (out : bytes) (max_version : Nat),
      (wasm_parameters_packed E (set_wasm_parameters_packed E context buf).2).length <
        4294967296 →
      (wasm_parameters_packed E (set_wasm_parameters_packed E context buf).2).length ≤
        out.length →
      get_wasm_parameters_packed E (set_wasm_parameters_packed E context buf).2 out
          max_version =
        ((wasm_parameters_packed E (set_wasm_parameters_packed E context buf).2).length,
         wasm_parameters_packed E (set_wasm_parameters_packed E context buf).2 ++
           out.drop
             (wasm_parameters_packed E (set_wasm_parameters_packed E context buf).2).length) := by
    intro out mv hfit hlen
    rw [get_wasm_parameters_full E _ out mv hlen, to_uint32_of_lt _ hfit]
  refine ⟨⟨rest, hbuf⟩, hfull, ?_⟩
  intro out mv hsame hfit hlen
  have hrest : rest = [] := by
    have hl := congrArg List.length hbuf
    rw [List.length_append] at hl
    exact List.length_eq_zero.mp (by omega)
  have hbuf2 : wasm_parameters_packed E (set_wasm_parameters_packed E context buf).2 = buf := by
    rw [hrest, List.append_nil] at hbuf
    exact hbuf.symm
  have h3 := hfull out mv (by omega) (by omega)
  rw [hbuf2] at h3
  exact h3

/-- C23, amended, at the second example: the buffer of the version 0 and the
configuration byte 9, with nothing after it, is read back byte for byte. -/
theorem C23_wasm_round_trip_witness :
    succeeded (set_wasm_parameters_packed example_codec_externals example_codec_context
      [0, 0, 0, 0, 9]) ∧
    get_wasm_parameters_packed example_codec_externals
        (set_wasm_parameters_packed example_codec_externals example_codec_context
          [0, 0, 0, 0, 9]).2 [1, 1, 1, 1, 1, 1, 1, 1] 0 =
      (5, [0, 0, 0, 0, 9, 1, 1, 1]) :=
  ⟨⟨(), rfl⟩,
   (C23_wasm_round_trip example_codec_externals example_codec_context [0, 0, 0, 0, 9]
      example_codec_law ⟨(), rfl⟩).2.2 [1, 1, 1, 1, 1, 1, 1, 1] 0 rfl (by decide) (by decide)⟩

/-- C24: in a non-read-only context `set_blockchain_parameters_packed` on the
packed form of a v0 chain configuration that passes `validate()` succeeds;
afterwards the v0 part of the live chain configuration is the configuration
that was packed, and `get_blockchain_parameters_packed` into a buffer of
sufficient size returns the size of the payload and writes the bytes of the
payload. -/
theorem C24_blockchain_parameters_read_back (E : externals T) (context : apply_context T)
    (cfg : T.chain_config_v0)
    (hlaw : chain_config_v0_law E)
    (hro : context.trx_context.is_read_only = false)
    (hval : E.chain_config_v0_validate cfg = none) :
    (set_blockchain_parameters_packed E context (E.pack_chain_config_v0 cfg)).1 = .ok () ∧
    E.chain_config_v0_part (set_blockchain_parameters_packed E context
      (E.pack_chain_config_v0 cfg)).2.db.global_properties.configuration = cfg ∧
    (∀ out : bytes,
      (E.pack_chain_config_v0 cfg).length < 4294967296 →
      (E.pack_chain_config_v0 cfg).length ≤ out.length →
      get_blockchain_parameters_packed E
          (set_blockchain_parameters_packed E context (E.pack_chain_config_v0 cfg)).2 out =
        ((E.pack_chain_config_v0 cfg).length,
         E.pack_chain_config_v0 cfg ++ out.drop (E.pack_chain_config_v0 cfg).length)) := by
  have hset : set_blockchain_parameters_packed E context (E.pack_chain_config_v0 cfg) =
      (.ok (), modify_global_properties context (fun gprops => { gprops with
        configuration := E.chain_config_assign_v0 gprops.configuration cfg })) := by
    simp [set_blockchain_parameters_packed, hro, hlaw.1 cfg, hval]
  have hv0 : E.chain_config_v0_part (set_blockchain_parameters_packed E context
      (E.pack_chain_config_v0 cfg)).2.db.global_properties.configuration = cfg := by
    rw [hset]
    exact hlaw.2 _ cfg
  have hP : blockchain_parameters_packed E
      (set_blockchain_parameters_packed E context (E.pack_chain_config_v0 cfg)).2 =
      E.pack_chain_config_v0 cfg := by
    unfold blockchain_parameters_packed
    rw [hv0]
  refine ⟨by rw [hset], hv0, ?_⟩
  intro out hfit hlen
  rw [get_blockchain_parameters_full E _ out (by rw [hP]; exact hlen), hP,
    to_uint32_of_lt _ hfit]

theorem example_chain_config_v0_law : chain_config_v0_law example_codec_externals :=
  ⟨fun _ => rfl, fun _ _ => rfl⟩

/-- C24, at the second example, where the v0 configuration is the value of
`max_transaction_delay`: the payload of the value 60 is accepted, the live
configuration reads back 60 (it held 45), and the payload byte is returned by
the following get. -/
theorem C24_blockchain_parameters_read_back_witness :
    example_codec_externals.chain_config_v0_part
      example_codec_context.db.global_properties.configuration = 45 ∧
    (set_blockchain_parameters_packed example_codec_externals example_codec_context [60]).1 =
      .ok () ∧
    example_codec_externals.chain_config_v0_part
      (set_blockchain_parameters_packed example_codec_externals example_codec_context
        [60]).2.db.global_properties.configuration = 60 ∧
    get_blockchain_parameters_packed example_codec_externals
        (set_blockchain_parameters_packed example_codec_externals example_codec_context
          [60]).2 [1, 1, 1] = (1, [60, 1, 1]) :=
  ⟨rfl,
   (C24_blockchain_parameters_read_back example_codec_externals example_codec_context 60
      example_chain_config_v0_law rfl rfl).1,
   (C24_blockchain_parameters_read_back example_codec_externals example_codec_context 60
      example_chain_config_v0_law rfl rfl).2.1,
   (C24_blockchain_parameters_read_back example_codec_externals example_codec_context 60
      example_chain_config_v0_law rfl rfl).2.2 [1, 1, 1] (by decide) (by decide)⟩

/-- C25: in a non-read-only context `set_proposed_finalizers` rejects a
decoded schedule whose finalizer list is empty (empty-schedule error) or has
more than `max_finalizers` entries (size error), whatever the entries, the
threshold and the version are, with nothing handed off; a schedule that is
accepted has between 1 and `max_finalizers` finalizers. -/
theorem C25_finalizer_schedule_size (E : externals T) (context : apply_context T)
    (packed : bytes) (schedule : finalizer_schedule)
    (hro : context.trx_context.is_read_only = false)
    (hdec : E.unpack_finalizer_schedule packed = .ok schedule) :
    (schedule.finalizers = [] →
      set_proposed_finalizers E context packed =
        (.error ⟨.wasm_execution_error, .finalizer_schedule_empty⟩, context)) ∧
    (schedule.finalizers.length > E.max_finalizers →
      set_proposed_finalizers E context packed =
        (.error ⟨.wasm_execution_error, .finalizer_schedule_exceeds_max⟩, context)) ∧
    (succeeded (set_proposed_finalizers E context packed) →
      1 ≤ schedule.finalizers.length ∧ schedule.finalizers.length ≤ E.max_finalizers) := by
  rw [set_proposed_finalizers_decoded E context packed schedule hro hdec]
  refine ⟨?_, ?_, ?_⟩
  · intro hnil
    rw [hnil]
    simp
  · intro hbig
    rw [if_pos (by omega)]
  · rintro ⟨v, hv⟩
    by_cases hmax : schedule.finalizers.length ≤ E.max_finalizers
    · rw [if_neg (not_not.mpr hmax)] at hv
      by_cases hpos : schedule.finalizers.length > 0
      · exact ⟨hpos, hmax⟩
      · rw [if_pos hpos] at hv
        cases hv
    · rw [if_pos hmax] at hv
      cases hv

/-- C25, at the second example, with `max_finalizers = 3`: the empty payload
and the payload of four finalizers are rejected. -/
theorem C25_finalizer_schedule_size_witness :
    set_proposed_finalizers example_codec_externals example_codec_context [] =
      (.error ⟨.wasm_execution_error, .finalizer_schedule_empty⟩, example_codec_context) ∧
    set_proposed_finalizers example_codec_externals example_codec_context [1, 2, 3, 4] =
      (.error ⟨.wasm_execution_error, .finalizer_schedule_exceeds_max⟩,
        example_codec_context) :=
  ⟨(C25_finalizer_schedule_size example_codec_externals example_codec_context []
      ⟨0, 1000, []⟩ rfl rfl).1 rfl,
   (C25_finalizer_schedule_size example_codec_externals example_codec_context [1, 2, 3, 4]
      ⟨0, 1000, [⟨1, 1, ⟨0, [1]⟩⟩, ⟨2, 1, ⟨0, [2]⟩⟩, ⟨3, 1, ⟨0, [3]⟩⟩, ⟨4, 1, ⟨0, [4]⟩⟩]⟩
      rfl rfl).2.1 (by decide)⟩

/-- C26, as stated, fails: in the second example the schedule of the bytes 21
and 21 names the existing account 1 twice with a key of the scheme 2, which is
not activated; `set_proposed_finalizers` rejects it with
`unactivated_key_type`, which is not the `wasm_execution_error` of the
invalid-authority errors. -/
theorem C26_counterexample :
    example_codec_externals.unpack_finalizer_schedule [21, 21] =
      .ok ⟨0, 1000, [⟨1, 1, ⟨2, [21]⟩⟩, ⟨1, 1, ⟨2, [21]⟩⟩]⟩ ∧
    example_codec_context.is_account 1 = true ∧
    set_proposed_finalizers example_codec_externals example_codec_context [21, 21] =
      (.error ⟨.unactivated_key_type, .finalizer_unactivated_key⟩, example_codec_context) ∧
    ¬ (∃ m, (set_proposed_finalizers example_codec_externals example_codec_context
      [21, 21]).1 = .error ⟨.wasm_execution_error, m⟩) := by
  refine ⟨rfl, rfl, rfl, ?_⟩
  rintro ⟨m, hm⟩
  have h : (set_proposed_finalizers example_codec_externals example_codec_context
      [21, 21]).1 = .error ⟨.unactivated_key_type, .finalizer_unactivated_key⟩ := rfl
  rw [h] at hm
  cases hm

/-- C26, amended: a decoded finalizer schedule in which two finalizers share
one account name is rejected by `set_proposed_finalizers` and nothing is
handed to the consensus layer; the exception is a `wasm_execution_error`, or
`unactivated_key_type` when the schedule holds a key whose scheme index is not
below `num_supported_key_types`; in a non-read-only context, when the size is
within `max_finalizers`, every account exists and every key is activated and
valid, it is the duplicate-finalizer-name `wasm_execution_error`. -/
theorem C26_duplicate_finalizer_rejected (E : externals T) (context : apply_context T)
    (packed : bytes) (schedule : finalizer_schedule)
    (hdec : E.unpack_finalizer_schedule packed = .ok schedule)
    (hdup : ¬ (finalizer_names schedule.finalizers).Nodup) :
    (∃ e, set_proposed_finalizers E context packed = (.error e, context) ∧
      (e.type = .wasm_execution_error ∨
        (e = ⟨.unactivated_key_type, .finalizer_unactivated_key⟩ ∧
          ∃ f ∈ schedule.finalizers,
            ¬ (f.public_key.which < context.db.num_supported_key_types)))) ∧
    (context.trx_context.is_read_only = false →
      schedule.finalizers.length ≤ E.max_finalizers →
      (∀ f ∈ schedule.finalizers, finalizer_passes E context f) →
      set_proposed_finalizers E context packed =
        (.error ⟨.wasm_execution_error, .duplicate_finalizer_name⟩, context)) := by
  have hlen : ¬ (schedule.finalizers.length =
      (insert_all [] (finalizer_names schedule.finalizers)).length) := by
    intro hc
    apply hdup
    rw [← length_insert_all_nil_eq_iff, finalizer_names, List.length_map]
    exact hc
  have hne : schedule.finalizers.length > 0 := by
    cases hf : schedule.finalizers with
    | nil => rw [hf] at hdup; exact absurd List.nodup_nil hdup
    | cons q l => simp
  constructor
  · cases hro : context.trx_context.is_read_only with
    | true =>
      refine ⟨⟨.wasm_execution_error, .not_allowed_in_readonly .set_proposed_finalizers⟩, ?_,
        Or.inl rfl⟩
      simp [set_proposed_finalizers, hro]
    | false =>
      rw [set_proposed_finalizers_decoded E context packed schedule hro hdec]
      by_cases hmax : schedule.finalizers.length ≤ E.max_finalizers
      · rw [if_neg (not_not.mpr hmax), if_neg (not_not.mpr hne)]
        cases hcf : check_finalizers E context schedule.finalizers [] with
        | error e =>
          exact ⟨e, rfl, check_finalizers_error E context schedule.finalizers [] e hcf⟩
        | ok u =>
          have hpass := check_finalizers_pass_of_ok E context schedule.finalizers [] u hcf
          rw [check_finalizers_of_pass E context schedule.finalizers [] hpass] at hcf
          have hu : u = insert_all [] (finalizer_names schedule.finalizers) := by
            cases hcf; rfl
          subst hu
          simp only [if_pos hlen]
          exact ⟨_, rfl, Or.inl rfl⟩
      · rw [if_pos hmax]
        exact ⟨_, rfl, Or.inl rfl⟩
  · intro hro hmax hpass
    rw [set_proposed_finalizers_decoded E context packed schedule hro hdec,
      if_neg (not_not.mpr hmax), if_neg (not_not.mpr hne),
      check_finalizers_of_pass E context schedule.finalizers [] hpass]
    simp only [if_pos hlen]

/-- C26, amended, at the second example: the bytes 1 and 11 decode to two
finalizers named 1 with valid keys of the activated schemes 0 and 1; the call
fails with the duplicate-finalizer-name error. -/
theorem C26_duplicate_finalizer_rejected_witness :
    ¬ (finalizer_names [(⟨1, 1, ⟨0, [1]⟩⟩ : finalizer_authority), ⟨1, 1, ⟨1, [11]⟩⟩]).Nodup ∧
    set_proposed_finalizers example_codec_externals example_codec_context [1, 11] =
      (.error ⟨.wasm_execution_error, .duplicate_finalizer_name⟩, example_codec_context) :=
  ⟨by decide,
   (C26_duplicate_finalizer_rejected example_codec_externals example_codec_context [1, 11]
      ⟨0, 1000, [⟨1, 1, ⟨0, [1]⟩⟩, ⟨1, 1, ⟨1, [11]⟩⟩]⟩ rfl (by decide)).2 rfl (by decide)
      (by
        intro f hf
        simp only [List.mem_cons, List.mem_singleton, List.not_mem_nil, or_false] at hf
        rcases hf with rfl | rfl <;> exact ⟨rfl, by decide, rfl⟩)⟩

/-- The exception of `set_proposed_finalizers`, if any, is decided by the
names and keys of the decoded finalizers alone. -/
theorem set_proposed_finalizers_error_congr (E : externals T) (context : apply_context T)
    (packed1 packed2 : bytes) (schedule1 schedule2 : finalizer_schedule)
    (hdec1 : E.unpack_finalizer_schedule packed1 = .ok schedule1)
    (hdec2 : E.unpack_finalizer_schedule packed2 = .ok schedule2)
    (hsame : schedule1.finalizers.map finalizer_name_and_key =
      schedule2.finalizers.map finalizer_name_and_key)
    (e : fc_exception)
    (h : (set_proposed_finalizers E context packed1).1 = .error e) :
    (set_proposed_finalizers E context packed2).1 = .error e := by
  cases hro : context.trx_context.is_read_only with
  | true =>
    have h1 : ∀ packed, set_proposed_finalizers E context packed =
        (.error ⟨.wasm_execution_error, .not_allowed_in_readonly .set_proposed_finalizers⟩,
          context) := by
      intro packed
      simp [set_proposed_finalizers, hro]
    rw [h1] at h ⊢
    exact h
  | false =>
    have hl : schedule1.finalizers.length = schedule2.finalizers.length := by
      have := congrArg List.length hsame
      simpa using this
    have hc := check_finalizers_congr E context schedule1.finalizers schedule2.finalizers []
      hsame
    rw [set_proposed_finalizers_decoded E context packed1 schedule1 hro hdec1] at h
    rw [set_proposed_finalizers_decoded E context packed2 schedule2 hro hdec2]
    rw [hl, hc] at h
    by_cases hmax : schedule2.finalizers.length ≤ E.max_finalizers
    · rw [if_neg (not_not.mpr hmax)] at h ⊢
      by_cases hpos : schedule2.finalizers.length > 0
      · rw [if_neg (not_not.mpr hpos)] at h ⊢
        cases hcf : check_finalizers E context schedule2.finalizers [] with
        | error e2 =>
          rw [hcf] at h
          exact h
        | ok u =>
          rw [hcf] at h
          simp only at h ⊢
          by_cases hlen : schedule2.finalizers.length = u.length
          · rw [if_neg (not_not.mpr hlen)] at h
            cases h
          · rw [if_pos hlen] at h ⊢
            exact h
      · rw [if_pos hpos] at h ⊢
        exact h
    · rw [if_pos hmax] at h ⊢
      exact h

/-- C27: acceptance of a finalizer schedule does not depend on its
threshold, its finalizer weights or its version: two decoded schedules whose
finalizers have the same names and keys, in order, fail with the same
exception or both succeed; in a non-read-only context a schedule of 1 to
`max_finalizers` finalizers with pairwise distinct names of existing accounts
and activated, valid keys is accepted whatever its threshold and weights are
(the threshold may exceed the sum of the weights), and the decoded threshold
and finalizer list are handed to the consensus layer unchanged. -/
theorem C27_threshold_not_checked (E : externals T) (context : apply_context T)
    (packed1 packed2 : bytes) (schedule1 schedule2 : finalizer_schedule)
    (hdec1 : E.unpack_finalizer_schedule packed1 = .ok schedule1)
    (hdec2 : E.unpack_finalizer_schedule packed2 = .ok schedule2)
    (hsame : schedule1.finalizers.map finalizer_name_and_key =
      schedule2.finalizers.map finalizer_name_and_key) :
    (∀ e, (set_proposed_finalizers E context packed1).1 = .error e ↔
      (set_proposed_finalizers E context packed2).1 = .error e) ∧
    (succeeded (set_proposed_finalizers E context packed1) ↔
      succeeded (set_proposed_finalizers E context packed2)) ∧
    (context.trx_context.is_read_only = false →
      1 ≤ schedule1.finalizers.length ∧ schedule1.finalizers.length ≤ E.max_finalizers →
      (∀ f ∈ schedule1.finalizers, finalizer_passes E context f) →
      (finalizer_names schedule1.finalizers).Nodup →
      set_proposed_finalizers E context packed1 =
        (.ok (context.control.proposed_finalizers_version schedule1.fthreshold
            schedule1.finalizers),
          { context with control := { context.control with
              proposed_finalizers := context.control.proposed_finalizers ++
                [(schedule1.fthreshold, schedule1.finalizers)] } })) := by
  have herr : ∀ e, (set_proposed_finalizers E context packed1).1 = .error e ↔
      (set_proposed_finalizers E context packed2).1 = .error e := fun e =>
    ⟨set_proposed_finalizers_error_congr E context packed1 packed2 schedule1 schedule2
        hdec1 hdec2 hsame e,
      set_proposed_finalizers_error_congr E context packed2 packed1 schedule2 schedule1
        hdec2 hdec1 hsame.symm e⟩
  have hok : ∀ packed, succeeded (set_proposed_finalizers E context packed) ↔
      ∀ e, (set_proposed_finalizers E context packed).1 ≠ .error e := by
    intro packed
    unfold succeeded
    cases (set_proposed_finalizers E context packed).1 with
    | error e => simp
    | ok v => simp
  refine ⟨herr, ?_, ?_⟩
  · rw [hok, hok]
    constructor
    · intro h e he
      exact h e ((herr e).mpr he)
    · intro h e he
      exact h e ((herr e).mp he)
  · intro hro hsize hpass hnames
    have hlen : schedule1.finalizers.length =
        (insert_all [] (finalizer_names schedule1.finalizers)).length := by
      have := (length_insert_all_nil_eq_iff (finalizer_names schedule1.finalizers)).mpr hnames
      rw [finalizer_names, List.length_map] at this
      exact this
    have hpos : schedule1.finalizers.length > 0 := hsize.1
    rw [set_proposed_finalizers_decoded E context packed1 schedule1 hro hdec1,
      if_neg (not_not.mpr hsize.2), if_neg (not_not.mpr hpos),
      check_finalizers_of_pass E context schedule1.finalizers [] hpass]
    simp only [if_neg (not_not.mpr hlen)]
    rfl

/-- C27, at the second example: the bytes 1 and 2 decode to two finalizers of
weight 1 under the threshold 1000, which exceeds the sum 2 of the weights; the
schedule is accepted and handed off with that threshold. -/
theorem C27_threshold_not_checked_witness :
    example_codec_externals.unpack_finalizer_schedule [1, 2] =
      .ok ⟨0, 1000, [⟨1, 1, ⟨0, [1]⟩⟩, ⟨2, 1, ⟨0, [2]⟩⟩]⟩ ∧
    set_proposed_finalizers example_codec_externals example_codec_context [1, 2] =
      (.ok 2, { example_codec_context with control := { example_codec_context.control with
          proposed_finalizers := [(1000, [⟨1, 1, ⟨0, [1]⟩⟩, ⟨2, 1, ⟨0, [2]⟩⟩])] } }) :=
  ⟨rfl,
   (C27_threshold_not_checked example_codec_externals example_codec_context [1, 2] [1, 2]
      ⟨0, 1000, [⟨1, 1, ⟨0, [1]⟩⟩, ⟨2, 1, ⟨0, [2]⟩⟩]⟩
      ⟨0, 1000, [⟨1, 1, ⟨0, [1]⟩⟩, ⟨2, 1, ⟨0, [2]⟩⟩]⟩ rfl rfl rfl).2.2 rfl (by decide)
      (by
        intro f hf
        simp only [List.mem_cons, List.mem_singleton, List.not_mem_nil, or_false] at hf
        rcases hf with rfl | rfl <;> exact ⟨rfl, by decide, rfl⟩)
      (by decide)⟩

/-! ## Auxiliary facts: up-converted legacy schedules -/

/-- The visitor on an up-converted legacy entry: only the two assertions on
the key can fail. -/
theorem check_authority_legacy (valid : public_key → Bool) (n : Nat) (q : producer_key) :
    check_authority valid n true ⟨q.producer_name, .v0 ⟨1, [⟨q.block_signing_key, 1⟩]⟩⟩ =
      if ¬ (q.block_signing_key.which < n) then
        .error ⟨.unactivated_key_type, .producer_unactivated_key⟩
      else if ¬ (valid q.block_signing_key = true) then
        .error ⟨.wasm_execution_error, .producer_invalid_key⟩
      else .ok () := by
  by_cases h1 : q.block_signing_key.which < n
  · by_cases h2 : valid q.block_signing_key = true
    · rw [if_neg (not_not.mpr h1), if_neg (not_not.mpr h2)]
      apply (check_authority_ok_iff valid n true _).mpr
      refine ⟨?_, ?_, ?_, ?_⟩
      · intro kw hkw
        rw [show kw = ⟨q.block_signing_key, 1⟩ from List.mem_singleton.mp hkw]
        exact ⟨h1, fun _ => h2⟩
      · simp [producer_authority.v0]
      · simp [producer_authority.v0]
      · simp [producer_authority.v0, weight_sum, uint32_max]
    · rw [if_neg (not_not.mpr h1), if_pos h2]
      simp [check_authority, check_keys, h1, h2]
  · rw [if_pos h1]
    simp [check_authority, check_keys, h1]

/-- An up-converted legacy entry passes the producer loop exactly when its
account exists and its key is of an activated scheme and valid. -/
theorem legacy_producer_passes_iff (E : externals T) (context : apply_context T)
    (q : producer_key) :
    producer_passes E context true
        ⟨q.producer_name, .v0 ⟨1, [⟨q.block_signing_key, 1⟩]⟩⟩ ↔
      (context.is_account q.producer_name = true ∧
        q.block_signing_key.which < context.db.num_supported_key_types ∧
        E.public_key_valid q.block_signing_key = true) := by
  unfold producer_passes
  rw [← check_authority_ok_iff, check_authority_legacy]
  constructor
  · rintro ⟨hacc, hok⟩
    by_cases h1 : q.block_signing_key.which < context.db.num_supported_key_types
    · by_cases h2 : E.public_key_valid q.block_signing_key = true
      · exact ⟨hacc, h1, h2⟩
      · rw [if_neg (not_not.mpr h1), if_pos h2] at hok
        cases hok
    · rw [if_pos h1] at hok
      cases hok
  · rintro ⟨hacc, h1, h2⟩
    rw [if_neg (not_not.mpr h1), if_neg (not_not.mpr h2)]
    exact ⟨hacc, rfl⟩

/-- The producer loop on an up-converted legacy list never fails with one of
the three assertions on the shape of an authority. -/
theorem check_producers_legacy_error (E : externals T) (context : apply_context T)
    (old_version : List producer_key) :
    ∀ (u : List account_name) (e : fc_exception),
      check_producers E context true (legacy_as_authorities old_version) u = .error e →
        not_authority_shape_error e := by
  induction old_version with
  | nil => intro u e h; cases h
  | cons q l ih =>
    intro u e h
    have hcons : legacy_as_authorities (q :: l) =
        ⟨q.producer_name, .v0 ⟨1, [⟨q.block_signing_key, 1⟩]⟩⟩ :: legacy_as_authorities l := rfl
    rw [hcons, check_producers] at h
    by_cases hacc : context.is_account q.producer_name = true
    · rw [if_neg (not_not.mpr hacc), check_authority_legacy] at h
      by_cases h1 : q.block_signing_key.which < context.db.num_supported_key_types
      · by_cases h2 : E.public_key_valid q.block_signing_key = true
        · rw [if_neg (not_not.mpr h1), if_neg (not_not.mpr h2)] at h
          exact ih _ e h
        · rw [if_neg (not_not.mpr h1), if_pos h2] at h
          cases h
          exact ⟨fun a hc => (by cases hc), fun a hc => (by cases hc), fun a hc => (by cases hc)⟩
      · rw [if_pos h1] at h
        cases h
        exact ⟨fun a hc => (by cases hc), fun a hc => (by cases hc), fun a hc => (by cases hc)⟩
    · rw [if_pos hacc] at h
      cases h
      exact ⟨fun a hc => (by cases hc), fun a hc => (by cases hc), fun a hc => (by cases hc)⟩

/-- C28: in a non-read-only context `set_proposed_producers` on a decoded
legacy list is accepted exactly when the list has at most `max_producers`
entries, is non-empty or the feature `disallow_empty_producer_schedule` is not
activated, every producer account exists, every key is of a scheme index
below `num_supported_key_types` and valid, and the producer names are pairwise
distinct; when it fails, the exception is never the duplicated-key, the
zero-threshold or the unsatisfiable-authority error. -/
theorem C28_legacy_acceptance (E : externals T) (context : apply_context T) (packed : bytes)
    (old_version : List producer_key)
    (hro : context.trx_context.is_read_only = false)
    (hdec : E.unpack_producer_keys packed = .ok old_version) :
    (succeeded (set_proposed_producers E context packed) ↔
      (old_version.length ≤ E.max_producers ∧
        (old_version.length > 0 ∨ context.control.disallow_empty_producer_schedule = false) ∧
        (∀ q ∈ old_version, context.is_account q.producer_name = true ∧
          q.block_signing_key.which < context.db.num_supported_key_types ∧
          E.public_key_valid q.block_signing_key = true) ∧
        (old_version.map (fun q => q.producer_name)).Nodup)) ∧
    (∀ e, (set_proposed_producers E context packed).1 = .error e →
      (∀ a, e.what ≠ .producer_duplicated_key a) ∧
      (∀ a, e.what ≠ .producer_zero_threshold a) ∧
      (∀ a, e.what ≠ .producer_unsatisfiable a)) := by
  rw [set_proposed_producers_decoded E context packed old_version hro hdec]
  have hlen : (legacy_as_authorities old_version).length = old_version.length := by
    simp [legacy_as_authorities]
  have hnames : producer_names (legacy_as_authorities old_version) =
      old_version.map (fun q => q.producer_name) := by
    simp [producer_names, legacy_as_authorities, Function.comp_def]
  have hmem : ∀ p, p ∈ legacy_as_authorities old_version ↔
      ∃ q ∈ old_version, (⟨q.producer_name, .v0 ⟨1, [⟨q.block_signing_key, 1⟩]⟩⟩ :
        producer_authority) = p := by
    intro p
    simp [legacy_as_authorities]
  have hflag : (¬ (context.control.disallow_empty_producer_schedule = true)) ↔
      context.control.disallow_empty_producer_schedule = false := by
    cases context.control.disallow_empty_producer_schedule <;> simp
  constructor
  · constructor
    · intro hs
      obtain ⟨h1, h2, h3, h4⟩ := common_accepted_inv E context _ true hs
      rw [hlen] at h1 h2
      rw [hnames] at h4
      rw [hflag] at h2
      refine ⟨h1, h2, ?_, h4⟩
      intro q hq
      exact (legacy_producer_passes_iff E context q).mp (h3 _ ((hmem _).mpr ⟨q, hq, rfl⟩))
    · rintro ⟨h1, h2, h3, h4⟩
      rw [← hflag] at h2
      have hacc := common_accepts E context (legacy_as_authorities old_version) true
        (by rw [hlen]; exact h1) (by rw [hlen]; exact h2)
        (by
          intro p hp
          obtain ⟨q, hq, hqp⟩ := (hmem p).mp hp
          rw [← hqp]
          exact (legacy_producer_passes_iff E context q).mpr (h3 q hq))
        (by rw [hnames]; exact h4)
      exact ⟨_, by rw [hacc]⟩
  · intro e he
    simp only [set_proposed_producers_common] at he
    have hshape : ∀ m : message, m = .producer_schedule_exceeds_max ∨
        m = .producer_schedule_empty ∨ m = .duplicate_producer_name →
        not_authority_shape_error ⟨.wasm_execution_error, m⟩ := by
      intro m hm
      rcases hm with rfl | rfl | rfl <;>
        exact ⟨fun a hc => (by cases hc), fun a hc => (by cases hc), fun a hc => (by cases hc)⟩
    by_cases hmax : (legacy_as_authorities old_version).length ≤ E.max_producers
    · rw [if_neg (not_not.mpr hmax)] at he
      by_cases hempty : (legacy_as_authorities old_version).length > 0 ∨
          ¬ (context.control.disallow_empty_producer_schedule = true)
      · rw [if_neg (not_not.mpr hempty)] at he
        cases hcp : check_producers E context true (legacy_as_authorities old_version) [] with
        | error e2 =>
          rw [hcp] at he
          cases he
          exact check_producers_legacy_error E context old_version [] e hcp
        | ok u =>
          rw [hcp] at he
          simp only at he
          by_cases hl : (legacy_as_authorities old_version).length = u.length
          · rw [if_neg (not_not.mpr hl)] at he
            cases he
          · rw [if_pos hl] at he
            cases he
            exact hshape _ (Or.inr (Or.inr rfl))
      · rw [if_pos hempty] at he
        cases he
        exact hshape _ (Or.inr (Or.inl rfl))
    · rw [if_pos hmax] at he
      cases he
      exact hshape _ (Or.inl rfl)

/-- C28, at the example data: the legacy payload of the producers 1, 2, 3 is
accepted, and the payload of the producer 5, whose key is not valid, is not. -/
theorem C28_legacy_acceptance_witness :
    example_externals.unpack_producer_keys [1, 2, 3] =
      .ok [⟨1, ⟨0, [1]⟩⟩, ⟨2, ⟨0, [2]⟩⟩, ⟨3, ⟨0, [3]⟩⟩] ∧
    succeeded (set_proposed_producers example_externals (example_context false) [1, 2, 3]) ∧
    ¬ succeeded (set_proposed_producers example_externals (example_context false) [5]) :=
  ⟨rfl,
   (C28_legacy_acceptance example_externals (example_context false) [1, 2, 3]
      [⟨1, ⟨0, [1]⟩⟩, ⟨2, ⟨0, [2]⟩⟩, ⟨3, ⟨0, [3]⟩⟩] rfl rfl).1.mpr
      ⟨by decide, Or.inl (by decide), by decide, by decide⟩,
   fun hs =>
     absurd ((C28_legacy_acceptance example_externals (example_context false) [5]
       [⟨5, ⟨0, []⟩⟩] rfl rfl).1.mp hs).2.2.1 (by decide)⟩

/-- C11: validation of an authority that holds a key whose scheme index is
not below `num_supported_key_types` fails with `unactivated_key_type`,
whatever its other keys, weights and threshold are, for either value of
`validate_keys` as the host calls pass it: with `validate_keys = false` (wire
format 1) for every authority, and with `validate_keys = true` (wire format 0)
for every authority of an up-converted legacy schedule. -/
theorem C11_unactivated_key_type (valid : public_key → Bool) (n : Nat) :
    (∀ (name : account_name) (a : block_signing_authority_v0),
      (∃ kw ∈ a.keys, ¬ (kw.key.which < n)) →
      check_authority valid n false ⟨name, .v0 a⟩ =
        .error ⟨.unactivated_key_type, .producer_unactivated_key⟩) ∧
    (∀ (old_version : List producer_key) (p : producer_authority),
      p ∈ up_convert old_version [] →
      (∃ kw ∈ p.v0.keys, ¬ (kw.key.which < n)) →
      check_authority valid n true p =
        .error ⟨.unactivated_key_type, .producer_unactivated_key⟩) := by
  constructor
  · intro name a h
    exact (check_authority_unactivated_cases valid n false name a h).2.1 rfl
  · intro old_version p hp h
    rw [up_convert_eq, List.nil_append] at hp
    obtain ⟨q, -, hq⟩ := List.mem_map.mp hp
    subst hq
    obtain ⟨kw, hkw, hw⟩ := h
    have hkey : kw = ⟨q.block_signing_key, 1⟩ := List.mem_singleton.mp hkw
    rw [hkey] at hw
    have h2 := check_authority_legacy valid n q
    rw [if_pos hw] at h2
    exact h2

/-- C11, at the example data with two activated schemes: with keys not
validated the authority whose first key is not valid and whose second key is
of scheme 2 fails with `unactivated_key_type`, and so does, with keys
validated, the up-converted legacy entry of a key of scheme 2. -/
theorem C11_unactivated_key_type_witness :
    (∃ kw ∈ example_invalid_then_unactivated.v0.keys, ¬ (kw.key.which < 2)) ∧
    check_authority example_externals.public_key_valid 2 false
        example_invalid_then_unactivated =
      .error ⟨.unactivated_key_type, .producer_unactivated_key⟩ ∧
    check_authority example_externals.public_key_valid 2 true
        ⟨4, .v0 ⟨1, [⟨example_key 2 7, 1⟩]⟩⟩ =
      .error ⟨.unactivated_key_type, .producer_unactivated_key⟩ :=
  ⟨⟨⟨example_key 2 7, 1⟩, by decide, by decide⟩,
   (C11_unactivated_key_type example_externals.public_key_valid 2).1 1
      ⟨1, [⟨⟨0, []⟩, 1⟩, ⟨example_key 2 7, 1⟩]⟩ ⟨⟨example_key 2 7, 1⟩, by decide, by decide⟩,
   (C11_unactivated_key_type example_externals.public_key_valid 2).2
      [⟨4, example_key 2 7⟩] ⟨4, .v0 ⟨1, [⟨example_key 2 7, 1⟩]⟩⟩
      (List.mem_singleton.mpr rfl) ⟨⟨example_key 2 7, 1⟩, List.mem_singleton.mpr rfl, by decide⟩⟩

end Privileged
